import Mathlib

/-!
# zpacker: a shallow embedding of `zpacker_20.hpp`

The development follows the header file top to bottom: the version constants, the
`data_type` codes and the classifier `get_data_type`, the two wire headers, the CRC-32
helper, the unbounded byte source and sink, the size pass `get_object_size`, the encoder
`serialize_object`, the decoder `deserialize_object` and the envelope functions
`serialize` / `deserialize`.

Modelling conventions.

* A byte is a natural number below 256 and a buffer is a `List Nat`.  Fixed-width unsigned
  integers are natural numbers reduced modulo `2 ^ width` at the places where the source
  converts to them.  `size_t` is taken wide enough for every size that occurs; the
  differences that can wrap around (in `read_bytes`, and in `remaining` and `seek` of the
  bounded source) are computed as 64-bit differences.
* The host is little-endian (the format inherits the host byte order).
* C++ static types are the terms of `Ty`, values are the terms of `Val`; the templates
  `serialize_object<_Ty>` and `deserialize_object<_Ty>` become functions of a `Ty`.
* The trait `Ty.is_trivially_copyable` of the model holds of the scalars and of the POD
  records.  An object nested in another value whose C++ type is trivially copyable and
  compound is copied by the sinks and the sources as raw bytes.  A plain struct, an enum
  and a `std::array` of trivially copyable elements then behave exactly as a POD record
  does (raw bytes, category `d_custom`) and are a `Ty.pod` of this model.  A
  `std::variant` of trivially copyable alternatives and the empty tuple are copied as
  their object representation, which the model does not have.  The type terms
  `.container (.fixed n) e`, `.variant ts` and `.tuple []` that name such a type (see
  `Ty.is_raw_aggregate`) describe it where `serialize_object` or `deserialize_object` is
  called on it directly; the statements whose truth depends on how a nested value is
  written or read leave them out.
* `std::vector<uint8_t>` has a container kind of its own, `.byte_vector`: the unbounded
  sink writes a nested one through the overload `write(const std::vector<uint8_t>&)`.
* Types with a user-written `serialize` / `deserialize` / `get_size` are not modelled.
* A result `none` of the decoder stands for a call without a defined result: an
  out-of-range access, or a target type for which the template has no instantiation.
-/

namespace zpacker

/-! ## Version constants -/

def VERSION_MAJOR : Nat := 0x0

def VERSION_MINOR : Nat := 0x1

/-- The source's `make_version`: `major << 4 | minor`, converted to `uint16_t`. -/
def make_version (major minor : Nat) : Nat := ((major <<< 4) ||| minor) % 2 ^ 16

def VERSION : Nat := make_version VERSION_MAJOR VERSION_MINOR

/-! ## `enum data_type` -/

def d_empty : Nat := 0
def d_byte8 : Nat := 1
def d_byte16 : Nat := 2
def d_byte32 : Nat := 3
def d_byte64 : Nat := 4
def d_float32 : Nat := 5
def d_float64 : Nat := 6
def d_pod : Nat := 7
def d_pair : Nat := 8
def d_variant : Nat := 9
def d_tuple : Nat := 10
def d_seq_container : Nat := 11
def d_aso_container : Nat := 12
def d_custom : Nat := 13

/-! ## Static types and values -/

/-- Integral and floating-point types of width 1, 2, 4 or 8 bytes. -/
inductive scalar_kind where
  | byte8
  | byte16
  | byte32
  | byte64
  | float32
  | float64
  deriving DecidableEq, Repr

/-- The value of `sizeof` for a scalar type. -/
def scalar_kind.size : scalar_kind → Nat
  | .byte8 => 1
  | .byte16 => 2
  | .byte32 => 4
  | .byte64 => 8
  | .float32 => 4
  | .float64 => 8

/-- Associative containers; the unordered ones behave as their ordered namesakes. -/
inductive aso_kind where
  | set
  | multiset
  | map
  | multimap
  deriving DecidableEq, Repr

/-- The range types the codec distinguishes through its concepts. -/
inductive container_kind where
  /-- Sized range with `push_back`: `std::vector` (of another element type than `uint8_t`),
  `std::list`, `std::deque`, `std::basic_string`. -/
  | sequence
  /-- Sized range with `insert(value)`. -/
  | associated (a : aso_kind)
  /-- Sized range with neither `push_back` nor `insert(value)`: `std::array<_, n>`. -/
  | fixed (n : Nat)
  /-- Input range that is not sized: `std::forward_list`. -/
  | forward_only
  /-- The class `std::vector<uint8_t>` when the element type is `.scalar .byte8`: a sized
  range with `push_back` that the unbounded sink copies through its own overload
  `write(const std::vector<uint8_t>&)`.  With another element type the kind stands for a
  `std::vector` of that type and behaves as `sequence` does. -/
  | byte_vector
  deriving DecidableEq, Repr

inductive Ty where
  | scalar (k : scalar_kind)
  | pod (size : Nat)
  | pair (first second : Ty)
  | variant (alts : List Ty)
  | tuple (elems : List Ty)
  | container (k : container_kind) (elem : Ty)
  deriving Repr

/-- Values.  A scalar is its bit pattern, a POD record its object representation, and a
container the list of its elements in iteration order. -/
inductive Val where
  | scalar (bits : Nat)
  | pod (bytes : List Nat)
  | pair (first second : Val)
  | variant (index : Nat) (value : Val)
  | tuple (elems : List Val)
  | list (elems : List Val)
  deriving Repr

mutual
/-- Structural equality test on values. -/
def Val.beq : Val → Val → Bool
  | .scalar a, .scalar b => a == b
  | .pod a, .pod b => a == b
  | .pair a b, .pair c d => Val.beq a c && Val.beq b d
  | .variant i a, .variant j b => i == j && Val.beq a b
  | .tuple a, .tuple b => Val.beq_list a b
  | .list a, .list b => Val.beq_list a b
  | _, _ => false
/-- Structural equality test on lists of values. -/
def Val.beq_list : List Val → List Val → Bool
  | [], [] => true
  | a :: as, b :: bs => Val.beq a b && Val.beq_list as bs
  | _, _ => false
end

/-! ### Concepts and type traits -/

/-- The concept `is_standard_container`: input range and sized range. -/
def is_standard_container : container_kind → Bool
  | .sequence => true
  | .associated _ => true
  | .fixed _ => true
  | .forward_only => false
  | .byte_vector => true

/-- The concept `is_sequence_container`: a standard container with `push_back`. -/
def is_sequence_container : container_kind → Bool
  | .sequence => true
  | .byte_vector => true
  | _ => false

/-- The concept `is_associated_container`: a standard container with `insert(value)`. -/
def is_associated_container : container_kind → Bool
  | .associated _ => true
  | _ => false

/-- The trait `std::is_trivially_copyable_v` on the types the statements range over: the
scalars and the POD records have it; the pairs, the tuples with an element, the variants
with an alternative that is not trivially copyable and the containers that allocate do
not.  The types on which this definition and the C++ trait part are those that
`Ty.is_raw_aggregate` picks out. -/
def Ty.is_trivially_copyable : Ty → Bool
  | .scalar _ => true
  | .pod _ => true
  | _ => false

mutual
/-- The C++ trait `std::is_trivially_copyable_v` itself: beside the scalars and the POD
records it holds of a `std::array` and of a `std::variant` of trivially copyable types
and of the empty tuple. -/
def Ty.cxx_trivially_copyable : Ty → Bool
  | .scalar _ => true
  | .pod _ => true
  | .pair _ _ => false
  | .variant [] => false
  | .variant (t :: ts) => Ty.cxx_trivially_copyable_all (t :: ts)
  | .tuple [] => true
  | .tuple (_ :: _) => false
  | .container (.fixed _) e => e.cxx_trivially_copyable
  | .container _ _ => false
/-- Every type of the list is trivially copyable in C++. -/
def Ty.cxx_trivially_copyable_all : List Ty → Bool
  | [] => true
  | t :: ts => t.cxx_trivially_copyable && Ty.cxx_trivially_copyable_all ts
end

/-- A trivially copyable aggregate written with a type constructor of the model: a
`std::array` or a `std::variant` of trivially copyable types, or the empty tuple.  The
sinks and the sources copy such an object as raw bytes wherever it is nested in another
value, while `bytes_writer.write` and `bytes_reader.read` below treat the type term as
not trivially copyable; the statements about nested values therefore leave these type
terms out.  (A nested `std::array` of trivially copyable elements is the `Ty.pod` of its
size.) -/
def Ty.is_raw_aggregate (T : Ty) : Bool := T.cxx_trivially_copyable && !T.is_trivially_copyable

/-- The static type is `std::vector<uint8_t>`, the parameter type of the non-template
overload `bytes_writer::write(const std::vector<uint8_t>&)`. -/
def Ty.is_byte_vector : Ty → Bool
  | .container .byte_vector (.scalar .byte8) => true
  | _ => false

mutual
/-- No raw aggregate is nested in the type (as a member of a pair or a tuple, an
alternative of a variant or an element of a container), at any depth. -/
def Ty.aggregate_free : Ty → Bool
  | .scalar _ => true
  | .pod _ => true
  | .pair a b =>
      (!a.is_raw_aggregate && a.aggregate_free) && (!b.is_raw_aggregate && b.aggregate_free)
  | .variant ts => Ty.aggregate_free_all ts
  | .tuple ts => Ty.aggregate_free_all ts
  | .container _ e => !e.is_raw_aggregate && e.aggregate_free
/-- No type of the list is a raw aggregate or has one nested in it. -/
def Ty.aggregate_free_all : List Ty → Bool
  | [] => true
  | t :: ts => (!t.is_raw_aggregate && t.aggregate_free) && Ty.aggregate_free_all ts
end

/-- A member, element or alternative of this static type is written by the member template
`write<_Vty>` and read by `read<_Vty>` the way the definitions below say: the type is not
`std::vector<uint8_t>`, which the unbounded sink writes through its overload, and it is
not a raw aggregate. -/
def Ty.plain_member (T : Ty) : Bool := !T.is_byte_vector && !T.is_raw_aggregate

mutual
/-- Every type nested in the type (the members of a pair or a tuple, the alternatives of a
variant, the elements of a container), at any depth, is a plain member. -/
def Ty.plain_nesting : Ty → Bool
  | .scalar _ => true
  | .pod _ => true
  | .pair a b => (a.plain_member && a.plain_nesting) && (b.plain_member && b.plain_nesting)
  | .variant ts => Ty.plain_nesting_all ts
  | .tuple ts => Ty.plain_nesting_all ts
  | .container _ e => e.plain_member && e.plain_nesting
/-- Every type of the list is a plain member with plain members at any depth. -/
def Ty.plain_nesting_all : List Ty → Bool
  | [] => true
  | t :: ts => (t.plain_member && t.plain_nesting) && Ty.plain_nesting_all ts
end

/-- The trait `std::is_compound_v`: everything but the scalars. -/
def Ty.is_compound : Ty → Bool
  | .scalar _ => false
  | _ => true

/-- The value of `sizeof` for the trivially copyable types. -/
def Ty.sizeof : Ty → Nat
  | .scalar k => k.size
  | .pod size => size
  | _ => 0

/-- The source's `get_data_type<_Ty>()`.  A POD record, a fixed array and a forward list
match none of the first five tests and are neither floating nor integral, so they
fall through to `d_custom`. -/
def get_data_type : Ty → Nat
  | .pair _ _ => d_pair
  | .variant _ => d_variant
  | .tuple _ => d_tuple
  | .container k _ =>
      if is_sequence_container k then d_seq_container
      else if is_associated_container k then d_aso_container
      else d_custom
  | .scalar .float32 => d_float32
  | .scalar .float64 => d_float64
  | .scalar .byte8 => d_byte8
  | .scalar .byte16 => d_byte16
  | .scalar .byte32 => d_byte32
  | .scalar .byte64 => d_byte64
  | .pod _ => d_custom

/-! ### Object representations -/

/-- The `w` bytes of an unsigned integer, least significant byte first. -/
def to_bytes : Nat → Nat → List Nat
  | 0, _ => []
  | w + 1, n => n % 256 :: to_bytes w (n / 256)

/-- The unsigned integer stored in a run of bytes, least significant byte first. -/
def from_bytes : List Nat → Nat
  | [] => 0
  | b :: bs => b + 256 * from_bytes bs

/-- The object representation of a value of a trivially copyable type. -/
def object_bytes : Ty → Val → List Nat
  | .scalar k, .scalar n => to_bytes k.size n
  | .pod _, .pod bytes => bytes
  | _, _ => []

/-- The value of a trivially copyable type held by a run of `sizeof` bytes; the other
types are never read this way. -/
def from_object_bytes : Ty → List Nat → Val
  | .scalar _, bytes => .scalar (from_bytes bytes)
  | .pod _, bytes => .pod bytes
  | .pair _ _, _ => .pair (.scalar 0) (.scalar 0)
  | .variant _, _ => .variant 0 (.scalar 0)
  | .tuple _, _ => .tuple []
  | .container _ _, _ => .list []

/-- The elements of a `std::vector<uint8_t>`, one byte each. -/
def vector_bytes : Val → List Nat
  | .list xs => xs.flatMap (object_bytes (.scalar .byte8))
  | _ => []

mutual
/-- The value-initialised object `_Ty{}`. -/
def default_value : Ty → Val
  | .scalar _ => .scalar 0
  | .pod size => .pod (List.replicate size 0)
  | .pair a b => .pair (default_value a) (default_value b)
  | .variant ts => .variant 0 (default_value_first ts)
  | .tuple ts => .tuple (default_value_all ts)
  | .container (.fixed n) e => .list (List.replicate n (default_value e))
  | .container _ _ => .list []
/-- The value-initialised first alternative of a variant. -/
def default_value_first : List Ty → Val
  | [] => .scalar 0
  | t :: _ => default_value t
/-- The value-initialised elements of a tuple. -/
def default_value_all : List Ty → List Val
  | [] => []
  | t :: ts => default_value t :: default_value_all ts
end

/-! ## Wire headers (`#pragma pack(push, 1)`) -/

/-- The packed structure `data_header`: a `uint8_t type` and a `uint32_t length`. -/
structure data_header where
  type : Nat
  length : Nat
  deriving DecidableEq, Repr

def data_header.set_main_type (h : data_header) (dt : Nat) : data_header :=
  { h with type := (h.type &&& 0xf0) ||| (dt % 256) }

def data_header.set_sub_type (h : data_header) (dt : Nat) : data_header :=
  { h with type := ((h.type &&& 0x0f) ||| ((dt % 256) <<< 4)) % 256 }

def data_header.get_main_type (h : data_header) : Nat := h.type &&& 0x0f

def data_header.get_sub_type (h : data_header) : Nat := h.type >>> 4

/-- The source's `is_subtype_compitable<_Ty>()`, with `dt = get_data_type<_Ty>()`. -/
def data_header.is_subtype_compitable (h : data_header) (dt : Nat) : Bool :=
  let subdt := h.get_sub_type
  if dt < d_pod ∧ subdt < d_pod then decide (subdt ≥ dt) else decide (subdt = dt)

/-- The value of `sizeof(data_header)`. -/
def data_header.size : Nat := 5

/-- The five bytes of a data header in memory. -/
def data_header.bytes (h : data_header) : List Nat := to_bytes 1 h.type ++ to_bytes 4 h.length

/-- The data header held by five bytes. -/
def data_header.of_bytes (bs : List Nat) : data_header :=
  { type := from_bytes (bs.take 1), length := from_bytes ((bs.drop 1).take 4) }

/-- The packed structure `packer_header`: a `uint16_t version`, the four bytes of the
`crc` union and a `uint32_t length`. -/
structure packer_header where
  version : Nat
  crc : Nat
  length : Nat
  deriving DecidableEq, Repr

def packer_header.set_version (ph : packer_header) (ver : Nat) : packer_header :=
  { ph with version := ver % 2 ^ 16 }

/-- The value of `sizeof(packer_header)`: 2 + 4 + 4 bytes, no padding. -/
def packer_header.size : Nat := 10

/-- The ten bytes of an envelope header in memory. -/
def packer_header.bytes (ph : packer_header) : List Nat :=
  to_bytes 2 ph.version ++ to_bytes 4 ph.crc ++ to_bytes 4 ph.length

/-- The envelope header held by ten bytes. -/
def packer_header.of_bytes (bs : List Nat) : packer_header :=
  { version := from_bytes (bs.take 2),
    crc := from_bytes ((bs.drop 2).take 4),
    length := from_bytes ((bs.drop 6).take 4) }

/-! ## CRC-32 helper -/

def _polynomial_crc32 : Nat := 0xEDB88320

/-- One round of the loop of `entry_crc32`. -/
def entry_crc32_round (crc : Nat) : Nat :=
  if crc &&& 1 ≠ 0 then (crc >>> 1) ^^^ _polynomial_crc32 else crc >>> 1

/-- The source's `entry_crc32`: eight rounds starting from `i`. -/
def entry_crc32 (i : Nat) : Nat := entry_crc32_round^[8] i

/-- The source's `generate_crc32_table`: the 256 entries `entry_crc32 0 .. entry_crc32 255`. -/
def generate_crc32_table : List Nat := (List.range 256).map entry_crc32

def CRC32_TABLE : List Nat := generate_crc32_table

/-- The body of the loop of `crc32_checksum`: `(crc >> 8) ^ CRC32_TABLE[(crc ^ b) & 0xFF]`. -/
def crc32_update (crc b : Nat) : Nat :=
  (crc >>> 8) ^^^ CRC32_TABLE.getD ((crc ^^^ b) &&& 0xFF) 0

/-- The loop of `crc32_checksum` with `n` iterations left, at index `i`.  Reading `data[i]`
past the end of the memory behind the pointer has no defined result. -/
def crc32_loop (data : List Nat) : Nat → Nat → Nat → Option Nat
  | 0, _, crc => some crc
  | n + 1, i, crc =>
      match data[i]? with
      | none => none
      | some b => crc32_loop data n (i + 1) (crc32_update crc b)

/-- A checksum callable `(const uint8_t* data, size_t length) -> uint32`.  The first
argument is the memory that may be read through the pointer; the result is `none` when
the callable reads outside of it. -/
abbrev checksum_fn := List Nat → Nat → Option Nat

/-- The source's `empty_checksum`: reads nothing and returns 0. -/
def empty_checksum : checksum_fn := fun _ _ => some 0

/-- The source's `crc32_checksum`: starts from `0xFFFFFFFF` and returns `~crc`. -/
def crc32_checksum : checksum_fn := fun data length =>
  match crc32_loop data length 0 0xFFFFFFFF with
  | none => none
  | some crc => some (crc ^^^ 0xFFFFFFFF)

/-! ## The unbounded byte source -/

/-- The class `bytes_reader`: the vector it points to and the read position. -/
structure bytes_reader where
  m_data : List Nat
  m_pos : Nat
  deriving DecidableEq, Repr

namespace bytes_reader

/-- The source's `remaining()`: `m_data->size() - m_pos`.  The operations modelled here
keep the cursor inside the buffer, so the subtraction never wraps around. -/
def remaining (r : bytes_reader) : Nat := r.m_data.length - r.m_pos

def count (r : bytes_reader) : Nat := r.m_pos

/-- The source's `can_read<_Vty>()` with `size = sizeof(_Vty)`. -/
def can_read (r : bytes_reader) (size : Nat) : Bool := decide (r.remaining ≥ size)

/-- The trivially copyable branch of `read<_Vty>()` at the level of bytes: the `size`
bytes at the cursor and the advanced cursor, or nothing and the cursor where it was. -/
def read_raw (r : bytes_reader) (size : Nat) : Option (List Nat) × bytes_reader :=
  if r.can_read size then
    (some ((r.m_data.drop r.m_pos).take size), { r with m_pos := r.m_pos + size })
  else (none, r)

/-- The call `read<data_header>()`. -/
def read_header (r : bytes_reader) : data_header × bytes_reader :=
  match r.read_raw data_header.size with
  | (some bs, r) => (data_header.of_bytes bs, r)
  | (none, r) => ({ type := 0, length := 0 }, r)

/-- The call `read<packer_header>()`. -/
def read_packer_header (r : bytes_reader) : packer_header × bytes_reader :=
  match r.read_raw packer_header.size with
  | (some bs, r) => (packer_header.of_bytes bs, r)
  | (none, r) => ({ version := 0, crc := 0, length := 0 }, r)

/-- The call `read<uint32_t>()`. -/
def read_uint32 (r : bytes_reader) : Nat × bytes_reader :=
  match r.read_raw 4 with
  | (some bs, r) => (from_bytes bs, r)
  | (none, r) => (0, r)

/-- The call `read<_Vty>()` for a trivially copyable `_Vty` of the model. -/
def read_value (r : bytes_reader) (T : Ty) : Val × bytes_reader :=
  match r.read_raw T.sizeof with
  | (some bs, r) => (from_object_bytes T bs, r)
  | (none, r) => (default_value T, r)

/-- The member template `read<_Vty>()`; `des` is the forward-declared
`deserialize_object<_Vty>`. -/
def read (r : bytes_reader) (T : Ty) (des : bytes_reader → Option (Val × bytes_reader)) :
    Option (Val × bytes_reader) :=
  if T.is_trivially_copyable then some (r.read_value T) else des r

end bytes_reader

/-! ## The unbounded byte sink -/

/-- The class `bytes_writer`: the vector it appends to. -/
structure bytes_writer where
  m_data : List Nat
  deriving DecidableEq, Repr

namespace bytes_writer

def count (w : bytes_writer) : Nat := w.m_data.length

/-- Appending a run of bytes: the trivially copyable branch of `write<_Vty>` applied to
an object representation, and the overloads `write(vector)` and `write(ptr, length)`. -/
def write_raw (w : bytes_writer) (bytes : List Nat) : bytes_writer :=
  { m_data := w.m_data ++ bytes }

/-- The call `write(val)` that `operator<<` makes.  Overload resolution prefers the
non-template `write(const std::vector<uint8_t>&)`, which copies the elements and nothing
else, when `val` is a `std::vector<uint8_t>`; every other argument goes to the member
template `write<_Vty>(val)`.  `ser` is the forward-declared `serialize_object<_Vty>`. -/
def write (w : bytes_writer) (T : Ty) (v : Val) (ser : Val → bytes_writer → bytes_writer) :
    bytes_writer :=
  if T.is_byte_vector then w.write_raw (vector_bytes v)
  else if T.is_trivially_copyable then w.write_raw (object_bytes T v) else ser v w

end bytes_writer

/-! ## The size pass -/

mutual
/-- The source's `get_object_size(object, size)`; the result is the new value of `size`. -/
def get_object_size : Ty → Val → Nat → Nat
  | .pair a b, .pair x y, size =>
      get_object_size b y (get_object_size a x (size + data_header.size))
  | .variant ts, .variant i x, size =>
      (size + data_header.size) + detail.get_variant_size_impl ts i x
  | .tuple ts, .tuple xs, size =>
      (size + data_header.size) + detail.get_tuple_size_impl ts xs
  | .container _ e, .list xs, size =>
      -- the branches for a standard container and for an unsized input range read alike
      -- (the second calls `object.size()`, which a `std::forward_list` of scalars lacks)
      if get_data_type e < d_pod then (size + data_header.size) + e.sizeof * xs.length
      else xs.foldl (fun size x => get_object_size e x size) (size + data_header.size)
  | .scalar k, _, size => size + k.size
  | .pod n, _, size => (size + data_header.size) + n
  | _, _, size => size
/-- The source's `get_variant_size_impl`: entry `index` of the table is `get_size` of the
alternative with that index. -/
def detail.get_variant_size_impl : List Ty → Nat → Val → Nat
  | [], _, _ => 0
  | t :: _, 0, x => get_object_size t x 0
  | _ :: ts, i + 1, x => detail.get_variant_size_impl ts i x
/-- The source's `get_tuple_size_impl`: the sum of `get_size` over the elements. -/
def detail.get_tuple_size_impl : List Ty → List Val → Nat
  | t :: ts, x :: xs => get_object_size t x 0 + detail.get_tuple_size_impl ts xs
  | _, _ => 0
end

/-- The source's `get_size`. -/
def get_size (T : Ty) (object : Val) : Nat := get_object_size T object 0

/-! ## The encoder -/

/-- The header a range is given: `seq_container` unless the range is an associative
container, with the category of the element type in the high nibble. -/
def container_header (k : container_kind) (e : Ty) (length : Nat) : data_header :=
  let header : data_header := { type := 0, length := 0 }
  let header :=
    if is_sequence_container k then
      (header.set_main_type d_seq_container).set_sub_type (get_data_type e)
    else if is_associated_container k then
      (header.set_main_type d_aso_container).set_sub_type (get_data_type e)
    else
      (header.set_main_type d_seq_container).set_sub_type (get_data_type e)
  { header with length := length % 2 ^ 32 }

mutual
/-- The source's `serialize_object<_Ty, bytes_writer>(writer, object)`. -/
def serialize_object : Ty → Val → bytes_writer → bytes_writer
  | .pair a b, .pair x y, writer =>
      let writer := writer.write_raw (data_header.bytes { type := d_pair, length := 2 })
      let writer := writer.write a x (fun v w => serialize_object a v w)
      writer.write b y (fun v w => serialize_object b v w)
  | .variant ts, .variant i x, writer =>
      let header : data_header := { type := d_variant, length := ts.length }
      let header := header.set_sub_type ((ts[i]?.map get_data_type).getD d_custom)
      let writer := writer.write_raw header.bytes
      let writer := writer.write_raw (to_bytes 4 i)
      detail.serialize_alternative ts i x writer
  | .tuple ts, .tuple xs, writer =>
      detail.serialize_tuple_impl ts xs
        (writer.write_raw (data_header.bytes { type := d_tuple, length := ts.length }))
  | .container k e, .list xs, writer =>
      if is_standard_container k then
        xs.foldl (fun (w : bytes_writer) x => w.write e x (fun v w => serialize_object e v w))
          (writer.write_raw (container_header k e xs.length).bytes)
      else
        let scratch :=
          xs.foldl (fun (w : bytes_writer) x => w.write e x (fun v w => serialize_object e v w)) { m_data := [] }
        (writer.write_raw (container_header k e xs.length).bytes).write_raw scratch.m_data
  | .scalar k, object, writer => writer.write_raw (object_bytes (.scalar k) object)
  | .pod n, object, writer =>
      (writer.write_raw (data_header.bytes { type := d_pod, length := n % 2 ^ 32 })).write_raw
        (object_bytes (.pod n) object)
  | _, _, writer => writer
/-- The visitor of the variant branch applied to the active alternative: `writer << val`
with `val` of the type of alternative `index`. -/
def detail.serialize_alternative : List Ty → Nat → Val → bytes_writer → bytes_writer
  | [], _, _, writer => writer
  | t :: _, 0, x, writer => writer.write t x (fun v w => serialize_object t v w)
  | _ :: ts, i + 1, x, writer => detail.serialize_alternative ts i x writer
/-- The source's `serialize_tuple_impl`: `writer << get<0>(tuple) << get<1>(tuple) << ...`. -/
def detail.serialize_tuple_impl : List Ty → List Val → bytes_writer → bytes_writer
  | t :: ts, x :: xs, writer =>
      detail.serialize_tuple_impl ts xs (writer.write t x (fun v w => serialize_object t v w))
  | _, _, writer => writer
end

/-! ## The decoder -/

/-- The element type of a map is a pair whose first component is the key; the key of a
set is the element. -/
def aso_kind.key : aso_kind → Val → Val
  | .map, .pair k _ => k
  | .multimap, .pair k _ => k
  | _, v => v

def aso_kind.unique_keys : aso_kind → Bool
  | .set => true
  | .map => true
  | _ => false

/-- The call `container.push_back(x)`. -/
def push_back (c : List Val) (x : Val) : List Val := c ++ [x]

/-- Modelled from the C++ standard: `container.insert(x)` on an associative container.
A container with unique keys ignores an element whose key it already holds. -/
def aso_insert (a : aso_kind) (c : List Val) (x : Val) : List Val :=
  if a.unique_keys && c.any (fun y => Val.beq (a.key y) (a.key x)) then c else c ++ [x]

/-- The loop `for (i = 0; i < length; i++) container.put(reader.read<value_type>())`. -/
def read_elements (rd : bytes_reader → Option (Val × bytes_reader))
    (put : List Val → Val → List Val) :
    Nat → List Val → bytes_reader → Option (List Val × bytes_reader)
  | 0, container, reader => some (container, reader)
  | n + 1, container, reader =>
      match rd reader with
      | none => none
      | some (x, reader) => read_elements rd put n (put container x) reader

mutual
/-- The source's `deserialize_object<_Ty, bytes_reader>(reader)`: the decoded value and the
reader after the call. -/
def deserialize_object : Ty → bytes_reader → Option (Val × bytes_reader)
  | .pair a b, reader =>
      let (header, reader) := reader.read_header
      if header.length ≠ 2 ∨ header.get_main_type ≠ d_pair then
        some (default_value (.pair a b), reader)
      else
        match reader.read a (fun r => deserialize_object a r) with
        | none => none
        | some (x, reader) =>
            match reader.read b (fun r => deserialize_object b r) with
            | none => none
            | some (y, reader) => some (.pair x y, reader)
  | .variant ts, reader =>
      let (header, reader) := reader.read_header
      if header.length ≠ ts.length then some (default_value (.variant ts), reader)
      else
        let (index, reader) := reader.read_uint32
        if index > header.length then some (default_value (.variant ts), reader)
        else
          match detail.deserialize_variant_impl ts index reader with
          | none => none
          | some (x, reader) => some (.variant index x, reader)
  | .tuple ts, reader =>
      let (header, reader) := reader.read_header
      if header.length ≠ ts.length then some (default_value (.tuple ts), reader)
      else
        match detail.deserialize_tuple_impl ts reader with
        | none => none
        | some (xs, reader) => some (.tuple xs, reader)
  | .container k e, reader =>
      if is_standard_container k then
        let (header, reader) := reader.read_header
        match k with
        | .sequence =>
            if header.get_main_type = d_seq_container ∧
                header.is_subtype_compitable (get_data_type e) then
              match read_elements (fun r => r.read e (fun r => deserialize_object e r))
                  push_back header.length [] reader with
              | none => none
              | some (xs, reader) => some (.list xs, reader)
            else some (.list [], reader)
        | .byte_vector =>
            if header.get_main_type = d_seq_container ∧
                header.is_subtype_compitable (get_data_type e) then
              match read_elements (fun r => r.read e (fun r => deserialize_object e r))
                  push_back header.length [] reader with
              | none => none
              | some (xs, reader) => some (.list xs, reader)
            else some (.list [], reader)
        | .associated a =>
            if header.get_main_type = d_aso_container ∧
                header.is_subtype_compitable (get_data_type e) then
              match read_elements (fun r => r.read e (fun r => deserialize_object e r))
                  (aso_insert a) header.length [] reader with
              | none => none
              | some (xs, reader) => some (.list xs, reader)
            else some (.list [], reader)
        | _ => some (default_value (.container k e), reader)
      else none
  | .scalar k, reader => some (reader.read_value (.scalar k))
  | .pod n, reader =>
      let (header, reader) := reader.read_header
      if header.length < n then some (default_value (.pod n), reader)
      else some (reader.read_value (.pod n))
/-- The source's `deserialize_variant_impl`: entry `index` of the table reads a value of the
alternative with that index; there is no entry past the last alternative. -/
def detail.deserialize_variant_impl :
    List Ty → Nat → bytes_reader → Option (Val × bytes_reader)
  | [], _, _ => none
  | t :: _, 0, reader => reader.read t (fun r => deserialize_object t r)
  | _ :: ts, i + 1, reader => detail.deserialize_variant_impl ts i reader
/-- The source's `deserialize_tuple_impl`: `reader >> get<0>(t) >> get<1>(t) >> ...`. -/
def detail.deserialize_tuple_impl : List Ty → bytes_reader → Option (List Val × bytes_reader)
  | [], reader => some ([], reader)
  | t :: ts, reader =>
      match reader.read t (fun r => deserialize_object t r) with
      | none => none
      | some (x, reader) =>
          match detail.deserialize_tuple_impl ts reader with
          | none => none
          | some (xs, reader) => some (x :: xs, reader)
end

/-! ## The envelope -/

/-- The source's `serialize(value, checksum)`. -/
def serialize (T : Ty) (value : Val) (checksum : checksum_fn) : Option (List Nat) :=
  let data := (serialize_object T value { m_data := [] }).m_data
  match checksum data data.length with
  | none => none
  | some crc =>
      let ph : packer_header := { version := 0, crc := 0, length := 0 }
      let ph := ph.set_version VERSION
      let ph := { ph with crc := crc % 2 ^ 32 }
      let ph := { ph with length := data.length % 2 ^ 32 }
      let writer : bytes_writer := { m_data := [] }
      let writer := writer.write_raw ph.bytes
      let writer := writer.write_raw data
      some writer.m_data

/-- The source's `deserialize<_Ty>(data, checksum)` on a byte vector. -/
def deserialize (T : Ty) (data : List Nat) (checksum : checksum_fn) : Option Val :=
  let reader : bytes_reader := { m_data := data, m_pos := 0 }
  let (ph, reader) := reader.read_packer_header
  if ph.version ≠ VERSION then some (default_value T)
  else
    match checksum (data.drop packer_header.size) ph.length with
    | none => none
    | some crc =>
        if crc % 2 ^ 32 ≠ ph.crc then some (default_value T)
        else (deserialize_object T reader).map Prod.fst

/-! ## Typing of values and the notions the statements use -/

/-- No element has the key of an earlier element. -/
def keys_distinct (a : aso_kind) : List Val → Bool
  | [] => true
  | x :: xs => xs.all (fun y => !Val.beq (a.key x) (a.key y)) && keys_distinct a xs

/-- What a container type demands of its list of elements: a fixed array has its `n`
elements, a set or a map holds each key once. -/
def container_invariant : container_kind → List Val → Bool
  | .fixed n, xs => decide (xs.length = n)
  | .associated a, xs => !a.unique_keys || keys_distinct a xs
  | _, _ => true

mutual
/-- The value `v` is an object of the C++ type `T`.  The arity of a variant or a tuple
fits `std::uint32_t`: the braces of `data_header{..., arity}` reject any other. -/
def has_type : Ty → Val → Bool
  | .scalar k, .scalar bits => decide (bits < 2 ^ (8 * k.size))
  | .pod size, .pod bytes =>
      decide (bytes.length = size) && bytes.all (fun b => decide (b < 256))
  | .pair a b, .pair x y => has_type a x && has_type b y
  | .variant ts, .variant i x => decide (ts.length < 2 ^ 32) && has_type_alternative ts i x
  | .tuple ts, .tuple xs => decide (ts.length < 2 ^ 32) && has_type_all ts xs
  | .container k e, .list xs => xs.all (fun x => has_type e x) && container_invariant k xs
  | _, _ => false
/-- The value `x` is an object of alternative `i` of the list. -/
def has_type_alternative : List Ty → Nat → Val → Bool
  | [], _, _ => false
  | t :: _, 0, x => has_type t x
  | _ :: ts, i + 1, x => has_type_alternative ts i x
/-- The values are objects of the types of the list, one for one. -/
def has_type_all : List Ty → List Val → Bool
  | [], [] => true
  | t :: ts, x :: xs => has_type t x && has_type_all ts xs
  | _, _ => false
end

mutual
/-- Every size the encoder converts to `std::uint32_t` is below `2 ^ 32`: the element
count of each container and the byte size of each POD record. -/
def wire_fits : Ty → Val → Bool
  | .pod size, _ => decide (size < 2 ^ 32)
  | .pair a b, .pair x y => wire_fits a x && wire_fits b y
  | .variant ts, .variant i x => wire_fits_alternative ts i x
  | .tuple ts, .tuple xs => wire_fits_all ts xs
  | .container _ e, .list xs => decide (xs.length < 2 ^ 32) && xs.all (fun x => wire_fits e x)
  | _, _ => true
/-- The size condition on the active alternative of a variant. -/
def wire_fits_alternative : List Ty → Nat → Val → Bool
  | [], _, _ => true
  | t :: _, 0, x => wire_fits t x
  | _ :: ts, i + 1, x => wire_fits_alternative ts i x
/-- The size condition on the elements of a tuple. -/
def wire_fits_all : List Ty → List Val → Bool
  | t :: ts, x :: xs => wire_fits t x && wire_fits_all ts xs
  | _, _ => true
end

mutual
/-- The target types the decoder fills: every container in the type, at any depth, is a
sequence container or an associative container. -/
def Ty.decodable : Ty → Bool
  | .scalar _ => true
  | .pod _ => true
  | .pair a b => a.decodable && b.decodable
  | .variant ts => Ty.decodable_all ts
  | .tuple ts => Ty.decodable_all ts
  | .container .sequence e => e.decodable
  | .container .byte_vector e => e.decodable
  | .container (.associated _) e => e.decodable
  | .container _ _ => false
/-- Every type of the list is a target type the decoder fills. -/
def Ty.decodable_all : List Ty → Bool
  | [] => true
  | t :: ts => t.decodable && Ty.decodable_all ts
end

mutual
/-- The shapes built from scalars, POD records, pairs, tuples and sequence containers. -/
def Ty.sequence_shape : Ty → Bool
  | .scalar _ => true
  | .pod _ => true
  | .pair a b => a.sequence_shape && b.sequence_shape
  | .variant _ => false
  | .tuple ts => Ty.sequence_shape_all ts
  | .container .sequence e => e.sequence_shape
  | .container .byte_vector e => e.sequence_shape
  | .container _ _ => false
/-- Every type of the list is built from scalars, POD records, pairs, tuples and sequence
containers. -/
def Ty.sequence_shape_all : List Ty → Bool
  | [] => true
  | t :: ts => t.sequence_shape && Ty.sequence_shape_all ts
end

/-- The bytes `serialize_object` appends to an empty unbounded sink. -/
def encoded (T : Ty) (v : Val) : List Nat := (serialize_object T v { m_data := [] }).m_data

/-- The bytes `writer << v` appends to an empty unbounded sink. -/
def written (T : Ty) (v : Val) : List Nat :=
  ((bytes_writer.mk []).write T v (fun v w => serialize_object T v w)).m_data

/-- The bytes `serialize_tuple_impl` appends to an empty unbounded sink. -/
def written_all (ts : List Ty) (xs : List Val) : List Nat :=
  (detail.serialize_tuple_impl ts xs { m_data := [] }).m_data

/-- The bytes the visitor of the variant branch appends for the active alternative. -/
def written_alternative (ts : List Ty) (i : Nat) (x : Val) : List Nat :=
  (detail.serialize_alternative ts i x { m_data := [] }).m_data

/-- The header with its fields converted to their types: `type` to `uint8_t`, `length` to
`std::uint32_t`.  This is the header a source reads back from `h.bytes`. -/
def data_header.stored (h : data_header) : data_header :=
  { type := h.type % 256, length := h.length % 2 ^ 32 }

/-- The envelope header with its fields converted to their types; this is the header a
source reads back from `ph.bytes`. -/
def packer_header.stored (ph : packer_header) : packer_header :=
  { version := ph.version % 2 ^ 16, crc := ph.crc % 2 ^ 32, length := ph.length % 2 ^ 32 }

/-- A read operation `rd` run on a source whose unread bytes start with `bytes` returns
`v` and moves the cursor past exactly those bytes. -/
def reads_back (rd : bytes_reader → Option (Val × bytes_reader)) (bytes : List Nat)
    (v : Val) : Prop :=
  ∀ (r : bytes_reader) (rest : List Nat), r.m_data.drop r.m_pos = bytes ++ rest →
    rd r = some (v, { m_data := r.m_data, m_pos := r.m_pos + bytes.length })

/-! ### Values of the examples -/

/-- The type `std::tuple<std::string, uint32_t, std::string, uint32_t>` of `tuple_example`. -/
def example_tuple_type : Ty :=
  .tuple [.container .sequence (.scalar .byte8), .scalar .byte32,
    .container .sequence (.scalar .byte8), .scalar .byte32]

/-- The value `{"192.168.10.1", 3768, "202.113.76.68", 80}` of `tuple_example`. -/
def example_tuple : Val :=
  .tuple [.list ([49, 57, 50, 46, 49, 54, 56, 46, 49, 48, 46, 49].map .scalar), .scalar 3768,
    .list ([50, 48, 50, 46, 49, 49, 51, 46, 55, 54, 46, 54, 56].map .scalar), .scalar 80]

/-- The type `std::vector<int>` of the examples. -/
def int_vector : Ty := .container .sequence (.scalar .byte32)

/-- The vector `{1, 2, 3, 4}` of the examples. -/
def one_to_four : Val := .list [.scalar 1, .scalar 2, .scalar 3, .scalar 4]

/-! ### Values beyond the range of the 32-bit length fields -/

/-- The least element count that does not fit the `std::uint32_t` length field. -/
def wrapped_length : Nat := 2 ^ 32

/-- A container of `2 ^ 32` zero bytes: a `std::vector<uint8_t>`, a `std::deque<uint8_t>`
or a `std::forward_list<uint8_t>`, by the type it is used at. -/
def wrapped_zeros : Val := .list (List.replicate wrapped_length (.scalar 0))

/-- The type `std::vector<uint8_t>`. -/
def byte_vector : Ty := .container .byte_vector (.scalar .byte8)

/-- Four bytes that bring the CRC-32 state to 0 when they follow the data header of a byte
vector with stored length 4. -/
def steering_bytes : List Val := [.scalar 38, .scalar 57, .scalar 143, .scalar 161]

/-- A byte vector of `4 + 2 ^ 32` elements: the four steering bytes, then zeros. -/
def steered_vector : Val :=
  .list (steering_bytes ++ List.replicate wrapped_length (.scalar 0))

/-- The envelope of `steered_vector` under `crc32_checksum`: version 1, checksum
`0xFFFFFFFF`, stored payload length 9, then the payload. -/
def steered_envelope : List Nat :=
  [1, 0, 255, 255, 255, 255, 9, 0, 0, 0, 27, 4, 0, 0, 0, 38, 57, 143, 161]
    ++ List.replicate wrapped_length 0

/-! ### Notions for the CRC-32 proofs -/

/-- The index of the entry of `CRC32_TABLE` with a given most significant byte: the 256
entries have 256 different most significant bytes. -/
def crc32_index_of_top_byte : List Nat :=
  [
  0, 65, 195, 130, 134, 199, 69, 4, 77, 12, 142, 207, 203, 138, 8, 73, 154, 219, 89, 24,
   28, 93, 223, 158, 215, 150, 20, 85, 81, 16, 146, 211, 117, 52, 182, 247, 243, 178, 48,
   113, 56, 121, 251, 186, 190, 255, 125, 60, 239, 174, 44, 109, 105, 40, 170, 235, 162,
   227, 97, 32, 36, 101, 231, 166, 234, 171, 41, 104, 108, 45, 175, 238, 167, 230, 100,
   37, 33, 96, 226, 163, 112, 49, 179, 242, 246, 183, 53, 116, 61, 124, 254, 191, 187,
   250, 120, 57, 159, 222, 92, 29, 25, 88, 218, 155, 210, 147, 17, 80, 84, 21, 151, 214,
   5, 68, 198, 135, 131, 194, 64, 1, 72, 9, 139, 202, 206, 143, 13, 76, 149, 212, 86, 23,
   19, 82, 208, 145, 216, 153, 27, 90, 94, 31, 157, 220, 15, 78, 204, 141, 137, 200, 74,
   11, 66, 3, 129, 192, 196, 133, 7, 70, 224, 161, 35, 98, 102, 39, 165, 228, 173, 236,
   110, 47, 43, 106, 232, 169, 122, 59, 185, 248, 252, 189, 63, 126, 55, 118, 244, 181,
   177, 240, 114, 51, 127, 62, 188, 253, 249, 184, 58, 123, 50, 115, 241, 176, 180, 245,
   119, 54, 229, 164, 38, 103, 99, 34, 160, 225, 168, 233, 107, 42, 46, 111, 237, 172, 10,
   75, 201, 136, 140, 205, 79, 14, 71, 6, 132, 197, 193, 128, 2, 67, 144, 209, 83, 18, 22,
   87, 213, 148, 221, 156, 30, 95, 91, 26, 152, 217]

/-- The checksum state after a run of bytes: the loop of `crc32_checksum` as a fold. -/
def crc32_state (crc : Nat) (bytes : List Nat) : Nat := bytes.foldl crc32_update crc

/-! ### Notions for the later claims -/

/-- The target shapes whose branch of `deserialize_object` compares the main type of the
data header with the category of the target: pairs, sequence containers and associative
containers. -/
def Ty.checks_main_type : Ty → Bool
  | .pair _ _ => true
  | .container .sequence _ => true
  | .container .byte_vector _ => true
  | .container (.associated _) _ => true
  | _ => false

/-- The type `std::map<uint32_t, uint8_t>`. -/
def word_to_byte_map : Ty :=
  .container (.associated .map) (.pair (.scalar .byte32) (.scalar .byte8))

/-- The entries `(start, 0), (start + 1, 0), ...` of a map from `uint32_t` to `uint8_t`:
`count` entries with consecutive keys. -/
def consecutive_entries : Nat → Nat → List Val
  | _, 0 => []
  | start, count + 1 =>
      .pair (.scalar start) (.scalar 0) :: consecutive_entries (start + 1) count

/-- The map from `uint32_t` to `uint8_t` that holds every key: `2 ^ 32` entries. -/
def full_map : Val := .list (consecutive_entries 0 wrapped_length)

/-- The type `std::unordered_map<std::string, uint32_t>` of
`association_container_example`. -/
def score_map : Ty :=
  .container (.associated .map) (.pair (.container .sequence (.scalar .byte8)) (.scalar .byte32))

/-- The entry `{"Jacky", 68}` of `association_container_example`. -/
def score_of_jacky : Val := .pair (.list ([74, 97, 99, 107, 121].map .scalar)) (.scalar 68)

/-- The entry `{"Element", 97}` of `association_container_example`. -/
def score_of_element : Val :=
  .pair (.list ([69, 108, 101, 109, 101, 110, 116].map .scalar)) (.scalar 97)

/-- The entry `{"Bob", 45}` of `association_container_example`. -/
def score_of_bob : Val := .pair (.list ([66, 111, 98].map .scalar)) (.scalar 45)

/-! ## Cursor operations of the sources, the bounded source and the bounded sink -/

/-- The source's `bytes_reader::seek(pos)`: the guard is `pos < m_data->size() - count()`. -/
def bytes_reader.seek (r : bytes_reader) (pos : Nat) : bytes_reader :=
  if pos < r.m_data.length - r.count then { r with m_pos := pos } else r

/-- The source's `bytes_reader::read_bytes(count)`.  The number of bytes is
`min(count, m_data->size() - count)`, computed in `size_t` (64 bits, so the difference wraps
around when `count` exceeds the size); the result is the vector built from that many bytes
at the cursor.  There is no defined result when these bytes leave the buffer. -/
def bytes_reader.read_bytes (r : bytes_reader) (count : Nat) :
    Option (List Nat × bytes_reader) :=
  let available := min count ((r.m_data.length + 2 ^ 64 - count) % 2 ^ 64)
  if r.m_pos + available ≤ r.m_data.length then
    some ((r.m_data.drop r.m_pos).take available, { r with m_pos := r.m_pos + available })
  else none

/-- The difference `a - b` of two `size_t` values (64 bits): it wraps around when `b`
exceeds `a`. -/
def size_difference (a b : Nat) : Nat := if b ≤ a then a - b else 2 ^ 64 - (b - a)

/-- The class `bytes_reader_bounded`: the memory behind the pointer `m_data`, of which the
first `m_length` bytes are the buffer, and the read position.  Nothing keeps the position
inside the buffer: `read_bytes` can move it behind the end. -/
structure bytes_reader_bounded where
  m_data : List Nat
  m_length : Nat
  m_pos : Nat
  deriving DecidableEq, Repr

namespace bytes_reader_bounded

/-- The source's `remaining()`: `m_length - m_pos`, a difference of `size_t` values. -/
def remaining (r : bytes_reader_bounded) : Nat := size_difference r.m_length r.m_pos

def count (r : bytes_reader_bounded) : Nat := r.m_pos

/-- The source's `can_read<_Vty>()` with `size = sizeof(_Vty)`. -/
def can_read (r : bytes_reader_bounded) (size : Nat) : Bool := decide (r.remaining ≥ size)

/-- The trivially copyable branch of `read<_Vty>()` at the level of bytes. -/
def read_raw (r : bytes_reader_bounded) (size : Nat) :
    Option (List Nat) × bytes_reader_bounded :=
  if r.can_read size then
    (some ((r.m_data.drop r.m_pos).take size), { r with m_pos := r.m_pos + size })
  else (none, r)

/-- The call `read<_Vty>()` for a trivially copyable `_Vty` of the model. -/
def read_value (r : bytes_reader_bounded) (T : Ty) : Val × bytes_reader_bounded :=
  match r.read_raw T.sizeof with
  | (some bs, r) => (from_object_bytes T bs, r)
  | (none, r) => (default_value T, r)

/-- The member template `read<_Vty>()`; `des` is `deserialize_object<_Vty>` on this
source. -/
def read (r : bytes_reader_bounded) (T : Ty)
    (des : bytes_reader_bounded → Option (Val × bytes_reader_bounded)) :
    Option (Val × bytes_reader_bounded) :=
  if T.is_trivially_copyable then some (r.read_value T) else des r

/-- The source's `bytes_reader_bounded::seek(pos)`: the guard is
`pos < m_length - count()`. -/
def seek (r : bytes_reader_bounded) (pos : Nat) : bytes_reader_bounded :=
  if pos < size_difference r.m_length r.count then { r with m_pos := pos } else r

/-- The source's `bytes_reader_bounded::read_bytes(count)`, with
`available = min(count, m_length - count)` in `size_t` arithmetic.  Nothing compares the
bytes read with `m_length`: the result is made of the `available` bytes at the cursor,
inside the buffer or behind it, and there is no defined result only when they leave the
memory behind the pointer. -/
def read_bytes (r : bytes_reader_bounded) (count : Nat) :
    Option (List Nat × bytes_reader_bounded) :=
  let available := min count ((r.m_length + 2 ^ 64 - count) % 2 ^ 64)
  if r.m_pos + available ≤ r.m_data.length then
    some ((r.m_data.drop r.m_pos).take available, { r with m_pos := r.m_pos + available })
  else none

end bytes_reader_bounded

/-- The class `bytes_writer_bounded`: the memory behind the pointer `m_data`, of which the
first `m_length` bytes are the buffer, and the write position. -/
structure bytes_writer_bounded where
  m_data : List Nat
  m_pos : Nat
  m_length : Nat
  deriving DecidableEq, Repr

namespace bytes_writer_bounded

def count (w : bytes_writer_bounded) : Nat := w.m_pos

/-- The source's `remaining()`: `m_length - m_pos`. -/
def remaining (w : bytes_writer_bounded) : Nat := w.m_length - w.m_pos

/-- The source's `can_write<_Vty>()` with `size = sizeof(_Vty)`. -/
def can_write (w : bytes_writer_bounded) (size : Nat) : Bool := decide (w.remaining ≥ size)

/-- The bytes are stored at the cursor and the cursor moves behind them: the assignment
`*(_Vty *)(m_data + m_pos) = val` or the `memcpy`, followed by `m_pos += ...`. -/
def store (w : bytes_writer_bounded) (bytes : List Nat) : bytes_writer_bounded :=
  { w with
    m_data := w.m_data.take w.m_pos ++ bytes ++ w.m_data.drop (w.m_pos + bytes.length),
    m_pos := w.m_pos + bytes.length }

/-- The trivially copyable branch of `write<_Vty>(val)` applied to an object
representation: all of the bytes or none. -/
def write_raw (w : bytes_writer_bounded) (bytes : List Nat) : bytes_writer_bounded :=
  if w.can_write bytes.length then w.store bytes else w

/-- The overload `write(const uint8_t *data, size_t length)`; `data` is the memory behind
the pointer. -/
def write_ptr (w : bytes_writer_bounded) (data : List Nat) (length : Nat) :
    bytes_writer_bounded :=
  let _copy_len := min length (w.m_length - w.m_pos)
  if _copy_len > 0 then w.store (data.take _copy_len) else w

/-- The member template `write<_Vty>(val)`, which `operator<<` calls; `ser` is
`serialize_object<_Vty>` on this sink. -/
def write (w : bytes_writer_bounded) (T : Ty) (v : Val)
    (ser : Val → bytes_writer_bounded → bytes_writer_bounded) : bytes_writer_bounded :=
  if T.is_trivially_copyable then w.write_raw (object_bytes T v) else ser v w

end bytes_writer_bounded

/-- The call `writer.write(_partial)` of the branch for ranges without a size, on the
bounded sink.  `bytes_writer_bounded` has no overload for a vector, so the call is the member
template `write<std::vector<uint8_t>>`, which runs `serialize_object` on the vector: a data
header for a sequence of bytes, then the bytes one by one. -/
def serialize_scratch_bounded (scratch : List Nat) (writer : bytes_writer_bounded) :
    bytes_writer_bounded :=
  scratch.foldl (fun (w : bytes_writer_bounded) b => w.write_raw (to_bytes 1 b))
    (writer.write_raw (container_header .byte_vector (.scalar .byte8) scratch.length).bytes)

mutual
/-- The source's `serialize_object<_Ty, bytes_writer_bounded>(writer, object)`: the same
template as `serialize_object`, instantiated with the bounded sink. -/
def serialize_object_bounded : Ty → Val → bytes_writer_bounded → bytes_writer_bounded
  | .pair a b, .pair x y, writer =>
      let writer := writer.write_raw (data_header.bytes { type := d_pair, length := 2 })
      let writer := writer.write a x (fun v w => serialize_object_bounded a v w)
      writer.write b y (fun v w => serialize_object_bounded b v w)
  | .variant ts, .variant i x, writer =>
      let header : data_header := { type := d_variant, length := ts.length }
      let header := header.set_sub_type ((ts[i]?.map get_data_type).getD d_custom)
      let writer := writer.write_raw header.bytes
      let writer := writer.write_raw (to_bytes 4 i)
      detail.serialize_alternative_bounded ts i x writer
  | .tuple ts, .tuple xs, writer =>
      detail.serialize_tuple_impl_bounded ts xs
        (writer.write_raw (data_header.bytes { type := d_tuple, length := ts.length }))
  | .container k e, .list xs, writer =>
      if is_standard_container k then
        xs.foldl
          (fun (w : bytes_writer_bounded) x =>
            w.write e x (fun v w => serialize_object_bounded e v w))
          (writer.write_raw (container_header k e xs.length).bytes)
      else
        let scratch :=
          xs.foldl (fun (w : bytes_writer) x => w.write e x (fun v w => serialize_object e v w))
            { m_data := [] }
        serialize_scratch_bounded scratch.m_data
          (writer.write_raw (container_header k e xs.length).bytes)
  | .scalar k, object, writer => writer.write_raw (object_bytes (.scalar k) object)
  | .pod n, object, writer =>
      (writer.write_raw (data_header.bytes { type := d_pod, length := n % 2 ^ 32 })).write_raw
        (object_bytes (.pod n) object)
  | _, _, writer => writer
/-- The visitor of the variant branch on the bounded sink. -/
def detail.serialize_alternative_bounded :
    List Ty → Nat → Val → bytes_writer_bounded → bytes_writer_bounded
  | [], _, _, writer => writer
  | t :: _, 0, x, writer => writer.write t x (fun v w => serialize_object_bounded t v w)
  | _ :: ts, i + 1, x, writer => detail.serialize_alternative_bounded ts i x writer
/-- The source's `serialize_tuple_impl` on the bounded sink. -/
def detail.serialize_tuple_impl_bounded :
    List Ty → List Val → bytes_writer_bounded → bytes_writer_bounded
  | t :: ts, x :: xs, writer =>
      detail.serialize_tuple_impl_bounded ts xs
        (writer.write t x (fun v w => serialize_object_bounded t v w))
  | _, _, writer => writer
end

/-- The source's `serialize(buffer, bufsize, value, checksum)`: the value is written with
`writer << value` into the buffer, and the result is the envelope header followed by the
bytes written. -/
def serialize_bounded (buffer : List Nat) (bufsize : Nat) (T : Ty) (value : Val)
    (checksum : checksum_fn) : Option (List Nat) :=
  let writer : bytes_writer_bounded := { m_data := buffer, m_pos := 0, m_length := bufsize }
  let writer := writer.write T value (fun v w => serialize_object_bounded T v w)
  let length := writer.count
  match checksum writer.m_data length with
  | none => none
  | some crc =>
      let ph : packer_header := { version := 0, crc := 0, length := 0 }
      let ph := ph.set_version VERSION
      let ph := { ph with crc := crc % 2 ^ 32 }
      let ph := { ph with length := length % 2 ^ 32 }
      let data_writer : bytes_writer := { m_data := [] }
      let data_writer := data_writer.write_raw ph.bytes
      let data_writer := data_writer.write_raw (writer.m_data.take length)
      some data_writer.m_data

mutual
/-- The target types on which every call of `deserialize_object` returns: the types the
decoder can fill that hold no variant (the table of a variant decoder can be entered
behind its last entry). -/
def Ty.always_decodes : Ty → Bool
  | .scalar _ => true
  | .pod _ => true
  | .pair a b => a.always_decodes && b.always_decodes
  | .variant _ => false
  | .tuple ts => Ty.always_decodes_all ts
  | .container .sequence e => e.always_decodes
  | .container .byte_vector e => e.always_decodes
  | .container (.associated _) e => e.always_decodes
  | .container _ _ => false
/-- Every type of the list is one on which `deserialize_object` always returns. -/
def Ty.always_decodes_all : List Ty → Bool
  | [] => true
  | t :: ts => t.always_decodes && Ty.always_decodes_all ts
end

/-- A buffer of ten bytes `0, 1, ..., 9`. -/
def ten_bytes : List Nat := [0, 1, 2, 3, 4, 5, 6, 7, 8, 9]

/-! ### Notions for the claims on sizes and on the cursor -/

mutual
/-- The shapes built from scalars, pairs, tuples and sized containers, the sequence and the
associative ones: no variant, no POD record and no range without a size, at any depth.  A
`std::array` is left out: nested in another value it is, when trivially copyable, copied
as raw bytes like a POD record. -/
def Ty.sized_shape : Ty → Bool
  | .scalar _ => true
  | .pod _ => false
  | .pair a b => a.sized_shape && b.sized_shape
  | .variant _ => false
  | .tuple ts => Ty.sized_shape_all ts
  | .container k e => (is_sequence_container k || is_associated_container k) && e.sized_shape
/-- Every type of the list is built from scalars, pairs, tuples and sized containers. -/
def Ty.sized_shape_all : List Ty → Bool
  | [] => true
  | t :: ts => t.sized_shape && Ty.sized_shape_all ts
end

/-- The source's `bytes_reader::skip(count)`. -/
def bytes_reader.skip (r : bytes_reader) (count : Nat) : bytes_reader :=
  if r.remaining ≥ count then { r with m_pos := r.m_pos + count } else r

/-- The source's `bytes_reader_bounded::skip(count)`. -/
def bytes_reader_bounded.skip (r : bytes_reader_bounded) (count : Nat) :
    bytes_reader_bounded :=
  if r.remaining ≥ count then { r with m_pos := r.m_pos + count } else r

/-- A call that moves the cursor of a source: `read<T>()` for a trivially copyable `T` with
`sizeof(T) = size`, `skip(count)` or `seek(pos)`. -/
inductive source_call where
  | read (size : Nat)
  | skip (count : Nat)
  | seek (pos : Nat)
  deriving DecidableEq, Repr

/-- The unbounded source after one call. -/
def bytes_reader.call (r : bytes_reader) : source_call → bytes_reader
  | .read size => (r.read_raw size).2
  | .skip count => r.skip count
  | .seek pos => r.seek pos

/-- The unbounded source after a finite sequence of calls. -/
def bytes_reader.run (r : bytes_reader) (calls : List source_call) : bytes_reader :=
  calls.foldl bytes_reader.call r

/-- The bounded source after one call. -/
def bytes_reader_bounded.call (r : bytes_reader_bounded) : source_call → bytes_reader_bounded
  | .read size => (r.read_raw size).2
  | .skip count => r.skip count
  | .seek pos => r.seek pos

/-- The bounded source after a finite sequence of calls. -/
def bytes_reader_bounded.run (r : bytes_reader_bounded) (calls : List source_call) :
    bytes_reader_bounded :=
  calls.foldl bytes_reader_bounded.call r

/-! # Theorems -/

/-! ## Bytes and headers -/

theorem length_to_bytes (w n : Nat) : (to_bytes w n).length = w := by
  induction w generalizing n with
  | zero => rfl
  | succ w ih => simp [to_bytes, ih]

theorem from_bytes_to_bytes (w n : Nat) : from_bytes (to_bytes w n) = n % 256 ^ w := by
  induction w generalizing n with
  | zero => simp [to_bytes, from_bytes, Nat.mod_one]
  | succ w ih =>
      simp only [to_bytes, from_bytes, ih]
      rw [pow_succ, Nat.mul_comm (256 ^ w) 256, Nat.mod_mul]

theorem data_header.length_bytes (h : data_header) : h.bytes.length = 5 := by
  simp [data_header.bytes, length_to_bytes]

theorem data_header.of_bytes_bytes (h : data_header) :
    data_header.of_bytes h.bytes = h.stored := by
  simp only [data_header.bytes, data_header.of_bytes, data_header.stored, to_bytes, from_bytes,
    List.cons_append,
    List.nil_append, List.take, List.drop, data_header.mk.injEq]
  constructor <;> omega

theorem packer_header.length_packed (ph : packer_header) : ph.bytes.length = 10 := by
  simp [packer_header.bytes, length_to_bytes]

theorem packer_header.of_bytes_packed (ph : packer_header) :
    packer_header.of_bytes ph.bytes = ph.stored := by
  simp only [packer_header.bytes, packer_header.of_bytes, packer_header.stored, to_bytes,
    from_bytes, List.cons_append,
    List.nil_append, List.take, List.drop, packer_header.mk.injEq]
  refine ⟨?_, ?_, ?_⟩ <;> omega

/-! ## The byte source -/

theorem bytes_reader.read_raw_of_drop (r : bytes_reader) (bs rest : List Nat)
    (h : r.m_data.drop r.m_pos = bs ++ rest) :
    r.read_raw bs.length = (some bs, { m_data := r.m_data, m_pos := r.m_pos + bs.length }) := by
  have hlen : r.m_data.length - r.m_pos = bs.length + rest.length := by
    rw [← List.length_drop, h, List.length_append]
  simp [bytes_reader.read_raw, bytes_reader.can_read, bytes_reader.remaining, hlen, h]

theorem bytes_reader.drop_advance (r : bytes_reader) (bs rest : List Nat)
    (h : r.m_data.drop r.m_pos = bs ++ rest) :
    r.m_data.drop (r.m_pos + bs.length) = rest := by
  rw [← List.drop_drop, h, List.drop_left]

theorem bytes_reader.read_header_of_drop (r : bytes_reader) (h : data_header) (rest : List Nat)
    (hd : r.m_data.drop r.m_pos = h.bytes ++ rest) :
    r.read_header = (h.stored, { m_data := r.m_data, m_pos := r.m_pos + 5 }) := by
  have := r.read_raw_of_drop h.bytes rest hd
  rw [data_header.length_bytes] at this
  simp [bytes_reader.read_header, data_header.size, this, data_header.of_bytes_bytes]

theorem bytes_reader.read_uint32_of_drop (r : bytes_reader) (n : Nat) (rest : List Nat)
    (hd : r.m_data.drop r.m_pos = to_bytes 4 n ++ rest) :
    r.read_uint32 = (n % 2 ^ 32, { m_data := r.m_data, m_pos := r.m_pos + 4 }) := by
  have := r.read_raw_of_drop (to_bytes 4 n) rest hd
  rw [length_to_bytes] at this
  simp [bytes_reader.read_uint32, this, from_bytes_to_bytes]

theorem length_object_bytes (T : Ty) (v : Val) (ht : has_type T v = true)
    (hc : T.is_trivially_copyable = true) : (object_bytes T v).length = T.sizeof := by
  cases T <;> cases v <;> simp_all [has_type, Ty.is_trivially_copyable, object_bytes, Ty.sizeof,
    length_to_bytes]

theorem from_object_bytes_object_bytes (T : Ty) (v : Val) (ht : has_type T v = true)
    (hc : T.is_trivially_copyable = true) : from_object_bytes T (object_bytes T v) = v := by
  cases T <;> cases v <;> simp_all [has_type, Ty.is_trivially_copyable, object_bytes,
    from_object_bytes, from_bytes_to_bytes]
  rename_i k bits
  have : (256 : Nat) ^ k.size = 2 ^ (8 * k.size) := by
    rw [pow_mul]; norm_num
  rw [this]
  exact Nat.mod_eq_of_lt ht

theorem bytes_reader.read_value_of_drop (r : bytes_reader) (T : Ty) (v : Val) (rest : List Nat)
    (ht : has_type T v = true) (hc : T.is_trivially_copyable = true)
    (hd : r.m_data.drop r.m_pos = object_bytes T v ++ rest) :
    r.read_value T = (v, { m_data := r.m_data, m_pos := r.m_pos + (object_bytes T v).length }) := by
  have := r.read_raw_of_drop (object_bytes T v) rest hd
  rw [length_object_bytes T v ht hc] at this ⊢
  simp [bytes_reader.read_value, this, from_object_bytes_object_bytes T v ht hc]

/-! ## The encoder appends -/

theorem foldl_write_append (f : Val → bytes_writer → bytes_writer)
    (hf : ∀ v w, f v w = { m_data := w.m_data ++ (f v { m_data := [] }).m_data })
    (xs : List Val) (w : bytes_writer) :
    xs.foldl (fun w x => f x w) w
      = { m_data := w.m_data ++ (xs.foldl (fun w x => f x w) { m_data := [] }).m_data } := by
  induction xs using List.reverseRecOn with
  | nil => simp
  | append_singleton xs x ih =>
      simp only [List.foldl_append, List.foldl_cons, List.foldl_nil]
      rw [hf x (List.foldl _ w xs), ih, hf x (List.foldl _ _ xs)]
      simp

theorem write_append_of (T : Ty) (v : Val) (w : bytes_writer)
    (h : ∀ w, serialize_object T v w = { m_data := w.m_data ++ encoded T v }) :
    w.write T v (fun v w => serialize_object T v w) = { m_data := w.m_data ++ written T v } := by
  unfold written bytes_writer.write
  split
  · simp [bytes_writer.write_raw]
  · split
    · simp [bytes_writer.write_raw]
    · beta_reduce
      rw [h w, h { m_data := [] }]; simp

mutual
theorem serialize_object_append : ∀ (T : Ty) (v : Val) (w : bytes_writer),
    serialize_object T v w = { m_data := w.m_data ++ encoded T v }
  | .scalar k, v, w => by simp [encoded, serialize_object, bytes_writer.write_raw]
  | .pod n, v, w => by simp [encoded, serialize_object, bytes_writer.write_raw]
  | .pair a b, .pair x y, w => by
      have ha := fun w => write_append_of a x w (serialize_object_append a x)
      have hb := fun w => write_append_of b y w (serialize_object_append b y)
      simp only [encoded, serialize_object]
      rw [hb, ha, hb, ha]
      simp [bytes_writer.write_raw]
  | .variant ts, .variant i x, w => by
      simp only [encoded, serialize_object]
      rw [serialize_alternative_append ts i x, serialize_alternative_append ts i x (bytes_writer.write_raw _ _)]
      simp [bytes_writer.write_raw]
  | .tuple ts, .tuple xs, w => by
      simp only [encoded, serialize_object]
      rw [serialize_tuple_impl_append ts xs, serialize_tuple_impl_append ts xs (bytes_writer.write_raw _ _)]
      simp [bytes_writer.write_raw]
  | .container k e, .list xs, w => by
      have he : ∀ (v : Val) (w : bytes_writer),
          w.write e v (fun v w => serialize_object e v w)
            = { m_data := w.m_data ++
                (bytes_writer.write { m_data := [] } e v (fun v w => serialize_object e v w)).m_data } :=
        fun v w => write_append_of e v w (serialize_object_append e v)
      have hfold := foldl_write_append
        (fun v (w : bytes_writer) => w.write e v (fun v w => serialize_object e v w)) he xs
      simp only [encoded, serialize_object]
      split
      · rw [hfold, hfold (bytes_writer.write_raw _ _)]
        simp [bytes_writer.write_raw]
      · simp [bytes_writer.write_raw]
  | .pair _ _, .scalar _, w | .pair _ _, .pod _, w | .pair _ _, .variant _ _, w
  | .pair _ _, .tuple _, w | .pair _ _, .list _, w => by simp [encoded, serialize_object]
  | .variant _, .scalar _, w | .variant _, .pod _, w | .variant _, .pair _ _, w
  | .variant _, .tuple _, w | .variant _, .list _, w => by simp [encoded, serialize_object]
  | .tuple _, .scalar _, w | .tuple _, .pod _, w | .tuple _, .pair _ _, w
  | .tuple _, .variant _ _, w | .tuple _, .list _, w => by simp [encoded, serialize_object]
  | .container _ _, .scalar _, w | .container _ _, .pod _, w | .container _ _, .pair _ _, w
  | .container _ _, .variant _ _, w | .container _ _, .tuple _, w => by
      simp [encoded, serialize_object]
theorem serialize_alternative_append : ∀ (ts : List Ty) (i : Nat) (x : Val) (w : bytes_writer),
    detail.serialize_alternative ts i x w = { m_data := w.m_data ++ written_alternative ts i x }
  | [], _, _, w => by simp [written_alternative, detail.serialize_alternative]
  | t :: _, 0, x, w => by
      have ht := fun w => write_append_of t x w (serialize_object_append t x)
      simp only [written_alternative, detail.serialize_alternative]
      rw [ht, ht]; simp
  | _ :: ts, i + 1, x, w => by
      simp only [written_alternative, detail.serialize_alternative]
      rw [serialize_alternative_append ts i x]; rfl
theorem serialize_tuple_impl_append : ∀ (ts : List Ty) (xs : List Val) (w : bytes_writer),
    detail.serialize_tuple_impl ts xs w = { m_data := w.m_data ++ written_all ts xs }
  | t :: ts, x :: xs, w => by
      have ht := fun w => write_append_of t x w (serialize_object_append t x)
      simp only [written_all, detail.serialize_tuple_impl]
      rw [serialize_tuple_impl_append ts xs, serialize_tuple_impl_append ts xs (bytes_writer.write _ _ _ _), ht, ht]
      simp [written_all]
  | [], _, w => by simp [written_all, detail.serialize_tuple_impl]
  | _ :: _, [], w => by simp [written_all, detail.serialize_tuple_impl]
end

/-! ## What the encoder writes -/

theorem is_byte_vector_of_trivially_copyable (T : Ty) (hc : T.is_trivially_copyable = true) :
    T.is_byte_vector = false := by
  cases T <;> first | rfl | simp [Ty.is_trivially_copyable] at hc

theorem written_of_trivially_copyable (T : Ty) (v : Val) (hc : T.is_trivially_copyable = true) :
    written T v = object_bytes T v := by
  simp [written, bytes_writer.write, hc, bytes_writer.write_raw,
    is_byte_vector_of_trivially_copyable T hc]

/-- A nested `std::vector<uint8_t>` goes to the overload of the sink: its elements and no
data header. -/
theorem written_of_byte_vector (T : Ty) (v : Val) (hb : T.is_byte_vector = true) :
    written T v = vector_bytes v := by
  simp [written, bytes_writer.write, hb, bytes_writer.write_raw]

theorem written_of_not_trivially_copyable (T : Ty) (v : Val)
    (hc : T.is_trivially_copyable = false) (hb : T.is_byte_vector = false) :
    written T v = encoded T v := by
  simp [written, bytes_writer.write, hc, hb, encoded]

theorem write_append (T : Ty) (v : Val) (w : bytes_writer) :
    w.write T v (fun v w => serialize_object T v w) = { m_data := w.m_data ++ written T v } :=
  write_append_of T v w (serialize_object_append T v)

theorem foldl_write (e : Ty) (xs : List Val) (w : bytes_writer) :
    xs.foldl (fun (w : bytes_writer) x => w.write e x (fun v w => serialize_object e v w)) w
      = { m_data := w.m_data ++ xs.flatMap (written e) } := by
  induction xs generalizing w with
  | nil => simp
  | cons x xs ih =>
      rw [List.foldl_cons, write_append, ih]
      simp

theorem encoded_scalar (k : scalar_kind) (v : Val) :
    encoded (.scalar k) v = object_bytes (.scalar k) v := by
  simp [encoded, serialize_object, bytes_writer.write_raw]

theorem encoded_pod (n : Nat) (v : Val) :
    encoded (.pod n) v
      = data_header.bytes { type := d_pod, length := n % 2 ^ 32 } ++ object_bytes (.pod n) v := by
  simp [encoded, serialize_object, bytes_writer.write_raw]

theorem encoded_pair (a b : Ty) (x y : Val) :
    encoded (.pair a b) (.pair x y)
      = data_header.bytes { type := d_pair, length := 2 } ++ (written a x ++ written b y) := by
  simp [encoded, serialize_object, write_append, bytes_writer.write_raw]

theorem encoded_variant (ts : List Ty) (i : Nat) (x : Val) :
    encoded (.variant ts) (.variant i x)
      = (data_header.set_sub_type { type := d_variant, length := ts.length }
            ((ts[i]?.map get_data_type).getD d_custom)).bytes
          ++ (to_bytes 4 i ++ written_alternative ts i x) := by
  unfold encoded
  rw [serialize_object, serialize_alternative_append]
  simp only [bytes_writer.write_raw, List.nil_append, List.append_assoc]

theorem encoded_tuple (ts : List Ty) (xs : List Val) :
    encoded (.tuple ts) (.tuple xs)
      = data_header.bytes { type := d_tuple, length := ts.length } ++ written_all ts xs := by
  simp [encoded, serialize_object, serialize_tuple_impl_append, bytes_writer.write_raw]

theorem encoded_container (k : container_kind) (e : Ty) (xs : List Val) :
    encoded (.container k e) (.list xs)
      = (container_header k e xs.length).bytes ++ xs.flatMap (written e) := by
  simp only [encoded, serialize_object]
  split <;> simp [foldl_write, bytes_writer.write_raw]

theorem written_all_cons (t : Ty) (ts : List Ty) (x : Val) (xs : List Val) :
    written_all (t :: ts) (x :: xs) = written t x ++ written_all ts xs := by
  show (detail.serialize_tuple_impl (t :: ts) (x :: xs) { m_data := [] }).m_data = _
  rw [detail.serialize_tuple_impl, serialize_tuple_impl_append, write_append]
  simp

theorem written_all_nil : written_all [] [] = [] := by
  simp [written_all, detail.serialize_tuple_impl]

theorem written_alternative_zero (t : Ty) (ts : List Ty) (x : Val) :
    written_alternative (t :: ts) 0 x = written t x := by
  simp [written_alternative, detail.serialize_alternative, write_append]

theorem written_alternative_succ (t : Ty) (ts : List Ty) (i : Nat) (x : Val) :
    written_alternative (t :: ts) (i + 1) x = written_alternative ts i x := by
  simp [written_alternative, detail.serialize_alternative]

/-! ## The header of a container -/

theorem container_header_checks :
    ∀ dt < 16,
      (((data_header.set_sub_type (data_header.set_main_type { type := 0, length := 0 }
          d_seq_container) dt).type % 256) &&& 0x0f = d_seq_container) ∧
      (((data_header.set_sub_type (data_header.set_main_type { type := 0, length := 0 }
          d_aso_container) dt).type % 256) &&& 0x0f = d_aso_container) ∧
      (((data_header.set_sub_type (data_header.set_main_type { type := 0, length := 0 }
          d_seq_container) dt).type % 256) >>> 4 = dt) ∧
      (((data_header.set_sub_type (data_header.set_main_type { type := 0, length := 0 }
          d_aso_container) dt).type % 256) >>> 4 = dt) := by
  decide

theorem get_data_type_lt (T : Ty) : get_data_type T < 16 := by
  cases T with
  | scalar k => cases k <;> simp [get_data_type, d_byte8, d_byte16, d_byte32, d_byte64,
      d_float32, d_float64]
  | pod n => simp [get_data_type, d_custom]
  | pair a b => simp [get_data_type, d_pair]
  | variant ts => simp [get_data_type, d_variant]
  | tuple ts => simp [get_data_type, d_tuple]
  | container k e =>
      cases k <;> simp [get_data_type, is_sequence_container, is_associated_container,
        d_seq_container, d_aso_container, d_custom]

theorem is_subtype_compitable_self (t : Nat) (len : Nat) (dt : Nat) (h : t >>> 4 = dt) :
    data_header.is_subtype_compitable { type := t, length := len } dt = true := by
  simp [data_header.is_subtype_compitable, data_header.get_sub_type, h]

/-! ## Reading back what was written -/

theorem has_type_alternative_lt : ∀ (ts : List Ty) (i : Nat) (x : Val),
    has_type_alternative ts i x = true → i < ts.length
  | [], _, _, h => by simp [has_type_alternative] at h
  | _ :: _, 0, _, _ => by simp
  | _ :: ts, i + 1, x, h => by
      have := has_type_alternative_lt ts i x (by simpa [has_type_alternative] using h)
      simpa using this

theorem keys_distinct_split (a : aso_kind) : ∀ (l₁ : List Val) (x : Val) (l₂ : List Val),
    keys_distinct a (l₁ ++ x :: l₂) = true →
    l₁.any (fun y => Val.beq (a.key y) (a.key x)) = false
  | [], _, _, _ => rfl
  | y :: l₁, x, l₂, h => by
      simp only [List.cons_append, keys_distinct, Bool.and_eq_true, List.all_eq_true] at h
      have h1 := h.1 x (by simp)
      have h2 := keys_distinct_split a l₁ x l₂ h.2
      simp only [List.any_cons, h2, Bool.or_false]
      simpa using h1

theorem aso_insert_of_keys_distinct (a : aso_kind) (l₁ : List Val) (x : Val) (l₂ : List Val)
    (h : container_invariant (.associated a) (l₁ ++ x :: l₂) = true) :
    aso_insert a l₁ x = l₁ ++ [x] := by
  unfold aso_insert
  cases hu : a.unique_keys with
  | false => simp
  | true =>
      have hk : keys_distinct a (l₁ ++ x :: l₂) = true := by
        simpa [container_invariant, hu] using h
      simp [keys_distinct_split a l₁ x l₂ hk]

theorem is_byte_vector_of_plain_member (T : Ty) (h : T.plain_member = true) :
    T.is_byte_vector = false := by
  simp only [Ty.plain_member, Bool.and_eq_true, Bool.not_eq_true'] at h
  exact h.1

theorem reads_back_read (T : Ty) (v : Val) (ht : has_type T v = true)
    (hb : T.is_byte_vector = false)
    (h : reads_back (fun r => deserialize_object T r) (encoded T v) v) :
    reads_back (fun r => r.read T (fun r => deserialize_object T r)) (written T v) v := by
  intro r rest hd
  cases hc : T.is_trivially_copyable with
  | true =>
      rw [written_of_trivially_copyable T v hc] at hd ⊢
      simp only [bytes_reader.read, hc, if_true]
      rw [r.read_value_of_drop T v rest ht hc hd]
  | false =>
      rw [written_of_not_trivially_copyable T v hc hb] at hd ⊢
      simp only [bytes_reader.read, hc]
      exact h r rest hd

theorem read_elements_flatMap (rd : bytes_reader → Option (Val × bytes_reader))
    (put : List Val → Val → List Val) (enc : Val → List Nat) :
    ∀ (xs acc : List Val),
      (∀ x ∈ xs, reads_back rd (enc x) x) →
      (∀ l₁ x l₂, acc ++ xs = l₁ ++ x :: l₂ → put l₁ x = l₁ ++ [x]) →
      ∀ (r : bytes_reader) (rest : List Nat),
        r.m_data.drop r.m_pos = xs.flatMap enc ++ rest →
        read_elements rd put xs.length acc r
          = some (acc ++ xs,
              { m_data := r.m_data, m_pos := r.m_pos + (xs.flatMap enc).length })
  | [], acc, _, _, r, rest, _ => by simp [read_elements]
  | x :: xs, acc, hrd, hput, r, rest, hd => by
      have hx := hrd x (by simp) r (xs.flatMap enc ++ rest) (by simpa using hd)
      have hp := hput acc x xs rfl
      have hrest : (bytes_reader.mk r.m_data (r.m_pos + (enc x).length)).m_data.drop
          (bytes_reader.mk r.m_data (r.m_pos + (enc x).length)).m_pos
            = xs.flatMap enc ++ rest :=
        r.drop_advance (enc x) (xs.flatMap enc ++ rest) (by simpa using hd)
      have ih := read_elements_flatMap rd put enc xs (acc ++ [x])
        (fun y hy => hrd y (by simp [hy]))
        (fun l₁ y l₂ hl => hput l₁ y l₂ (by simpa using hl))
        _ rest hrest
      simp only [List.length_cons, read_elements, hx, hp, ih]
      simp [Nat.add_assoc]

theorem container_header_sequence (e : Ty) (n : Nat) (hn : n < 2 ^ 32) :
    (container_header .sequence e n).stored.get_main_type = d_seq_container ∧
    (container_header .sequence e n).stored.is_subtype_compitable (get_data_type e) = true ∧
    (container_header .sequence e n).stored.length = n := by
  have h := container_header_checks (get_data_type e) (get_data_type_lt e)
  refine ⟨?_, ?_, ?_⟩
  · simpa [container_header, is_sequence_container, data_header.get_main_type,
      data_header.stored] using h.1
  · apply is_subtype_compitable_self
    simpa [container_header, is_sequence_container, data_header.stored] using h.2.2.1
  · simp only [container_header, data_header.stored]
    omega

theorem container_header_byte_vector (e : Ty) (n : Nat) (hn : n < 2 ^ 32) :
    (container_header .byte_vector e n).stored.get_main_type = d_seq_container ∧
    (container_header .byte_vector e n).stored.is_subtype_compitable (get_data_type e) = true ∧
    (container_header .byte_vector e n).stored.length = n := by
  have h := container_header_checks (get_data_type e) (get_data_type_lt e)
  refine ⟨?_, ?_, ?_⟩
  · simpa [container_header, is_sequence_container, data_header.get_main_type,
      data_header.stored] using h.1
  · apply is_subtype_compitable_self
    simpa [container_header, is_sequence_container, data_header.stored] using h.2.2.1
  · simp only [container_header, data_header.stored]
    omega

theorem container_header_associated (a : aso_kind) (e : Ty) (n : Nat) (hn : n < 2 ^ 32) :
    (container_header (.associated a) e n).stored.get_main_type = d_aso_container ∧
    (container_header (.associated a) e n).stored.is_subtype_compitable (get_data_type e)
      = true ∧
    (container_header (.associated a) e n).stored.length = n := by
  have h := container_header_checks (get_data_type e) (get_data_type_lt e)
  refine ⟨?_, ?_, ?_⟩
  · simpa [container_header, is_sequence_container, is_associated_container,
      data_header.get_main_type, data_header.stored] using h.2.1
  · apply is_subtype_compitable_self
    simpa [container_header, is_sequence_container, is_associated_container,
      data_header.stored] using h.2.2.2
  · simp only [container_header, data_header.stored]
    omega

mutual
theorem deserialize_serialize : ∀ (T : Ty) (v : Val),
    has_type T v = true → wire_fits T v = true → T.decodable = true →
    T.plain_nesting = true →
    reads_back (fun r => deserialize_object T r) (encoded T v) v
  | .scalar k, .scalar bits, ht, _, _, _ => by
      intro r rest hd
      rw [encoded_scalar] at hd ⊢
      simp only [deserialize_object]
      rw [r.read_value_of_drop (.scalar k) (.scalar bits) rest ht rfl hd]
  | .pod n, .pod bytes, ht, hf, _, _ => by
      intro r rest hd
      rw [encoded_pod] at hd ⊢
      have hn : n < 2 ^ 32 := by simpa [wire_fits] using hf
      have hn32 : n % 2 ^ 32 = n := Nat.mod_eq_of_lt hn
      rw [hn32] at hd ⊢
      have hh := r.read_header_of_drop _ (object_bytes (.pod n) (.pod bytes) ++ rest)
        (by simpa using hd)
      have hv := bytes_reader.read_value_of_drop ⟨r.m_data, r.m_pos + 5⟩ (.pod n) (.pod bytes)
        rest ht rfl (by
          have := r.drop_advance _ (object_bytes (.pod n) (.pod bytes) ++ rest)
            (by simpa using hd)
          simpa [data_header.length_bytes] using this)
      simp only [deserialize_object, hh, data_header.stored, hn32, lt_irrefl, if_false, hv]
      simp [data_header.length_bytes, Nat.add_assoc]
  | .pair a b, .pair x y, ht, hf, hdec, hp => by
      intro r rest hd
      rw [encoded_pair] at hd ⊢
      simp only [has_type, wire_fits, Ty.decodable, Ty.plain_nesting, Bool.and_eq_true]
        at ht hf hdec hp
      have hh := r.read_header_of_drop _ (written a x ++ written b y ++ rest)
        (by simpa using hd)
      have h1 : (bytes_reader.mk r.m_data (r.m_pos + 5)).m_data.drop
          (bytes_reader.mk r.m_data (r.m_pos + 5)).m_pos
            = written a x ++ (written b y ++ rest) := by
        have := r.drop_advance _ (written a x ++ written b y ++ rest) (by simpa using hd)
        simpa [data_header.length_bytes] using this
      have ha := reads_back_read a x ht.1 (is_byte_vector_of_plain_member a hp.1.1)
        (deserialize_serialize a x ht.1 hf.1 hdec.1 hp.1.2) _ _ h1
      have h2 := bytes_reader.drop_advance _ _ _ h1
      have hb := reads_back_read b y ht.2 (is_byte_vector_of_plain_member b hp.2.1)
        (deserialize_serialize b y ht.2 hf.2 hdec.2 hp.2.2)
        ⟨r.m_data, r.m_pos + 5 + (written a x).length⟩ rest h2
      simp only [deserialize_object, hh]
      simp only [ha, hb]
      have h815 : (8 : Nat) &&& 15 = 8 := by decide
      simp [d_pair, data_header.get_main_type, data_header.length_bytes, Nat.add_assoc, h815,
        data_header.stored]
  | .variant ts, .variant i x, ht, hf, hdec, hp => by
      intro r rest hd
      rw [encoded_variant] at hd ⊢
      simp only [has_type, wire_fits, Ty.decodable, Ty.plain_nesting, Bool.and_eq_true,
        decide_eq_true_eq] at ht hf hdec hp
      have hi := has_type_alternative_lt ts i x ht.2
      have hh := r.read_header_of_drop _ (to_bytes 4 i ++ written_alternative ts i x ++ rest)
        (by simpa using hd)
      have h1 : (bytes_reader.mk r.m_data (r.m_pos + 5)).m_data.drop
          (bytes_reader.mk r.m_data (r.m_pos + 5)).m_pos
            = to_bytes 4 i ++ (written_alternative ts i x ++ rest) := by
        have := r.drop_advance _ (to_bytes 4 i ++ written_alternative ts i x ++ rest)
          (by simpa using hd)
        simpa [data_header.length_bytes] using this
      have hu := bytes_reader.read_uint32_of_drop _ i _ h1
      have h2 := bytes_reader.drop_advance _ _ _ h1
      rw [length_to_bytes] at h2
      have hx := deserialize_alternative ts i x ht.2 hf hdec hp ⟨r.m_data, r.m_pos + 5 + 4⟩ rest h2
      have hi32 : i % 2 ^ 32 = i := Nat.mod_eq_of_lt (by omega)
      have hl32 : ts.length % 2 ^ 32 = ts.length := Nat.mod_eq_of_lt ht.1
      simp only [deserialize_object, hh]
      simp only [data_header.set_sub_type, data_header.stored, hl32, ne_eq, not_true_eq_false,
        if_false, hu, hi32, gt_iff_lt, not_lt_of_gt hi, hx]
      simp only [List.length_append, data_header.length_bytes, length_to_bytes, Option.some.injEq,
        Prod.mk.injEq, bytes_reader.mk.injEq, true_and]
      omega
  | .tuple ts, .tuple xs, ht, hf, hdec, hp => by
      intro r rest hd
      rw [encoded_tuple] at hd ⊢
      simp only [has_type, wire_fits, Ty.decodable, Ty.plain_nesting, Bool.and_eq_true,
        decide_eq_true_eq] at ht hf hdec hp
      have hh := r.read_header_of_drop _ (written_all ts xs ++ rest) (by simpa using hd)
      have h1 : (bytes_reader.mk r.m_data (r.m_pos + 5)).m_data.drop
          (bytes_reader.mk r.m_data (r.m_pos + 5)).m_pos = written_all ts xs ++ rest := by
        have := r.drop_advance _ (written_all ts xs ++ rest) (by simpa using hd)
        simpa [data_header.length_bytes] using this
      have hx := deserialize_tuple_serialize ts xs ht.2 hf hdec hp _ _ h1
      have hl32 : ts.length % 2 ^ 32 = ts.length := Nat.mod_eq_of_lt ht.1
      simp only [deserialize_object, hh]
      simp only [data_header.stored, hl32, ne_eq, not_true_eq_false, if_false, hx]
      simp [data_header.length_bytes, Nat.add_assoc]
  | .container k e, .list xs, ht, hf, hdec, hp => by
      intro r rest hd
      rw [encoded_container] at hd ⊢
      simp only [has_type, wire_fits, Bool.and_eq_true, decide_eq_true_eq, List.all_eq_true]
        at ht hf
      simp only [Ty.plain_nesting, Bool.and_eq_true] at hp
      have hh := r.read_header_of_drop _ (xs.flatMap (written e) ++ rest) (by simpa using hd)
      have h1 : (bytes_reader.mk r.m_data (r.m_pos + 5)).m_data.drop
          (bytes_reader.mk r.m_data (r.m_pos + 5)).m_pos = xs.flatMap (written e) ++ rest := by
        have := r.drop_advance _ (xs.flatMap (written e) ++ rest) (by simpa using hd)
        simpa [data_header.length_bytes] using this
      cases k with
      | sequence =>
          have hdec : e.decodable = true := by simpa [Ty.decodable] using hdec
          have hel : ∀ x ∈ xs, reads_back (fun r => r.read e (fun r => deserialize_object e r))
              (written e x) x :=
            fun x hx => reads_back_read e x (ht.1 x hx) (is_byte_vector_of_plain_member e hp.1)
              (deserialize_serialize e x (ht.1 x hx) (hf.2 x hx) hdec hp.2)
          have hx := read_elements_flatMap _ push_back (written e) xs [] hel
            (fun l₁ x l₂ _ => rfl) ⟨r.m_data, r.m_pos + 5⟩ rest h1
          obtain ⟨hm, hs, hl⟩ := container_header_sequence e xs.length hf.1
          simp only [deserialize_object, is_standard_container, if_true, hh]
          simp only [hm, hs, hl, and_self, if_true, hx]
          simp [data_header.length_bytes, Nat.add_assoc]
      | byte_vector =>
          have hdec : e.decodable = true := by simpa [Ty.decodable] using hdec
          have hel : ∀ x ∈ xs, reads_back (fun r => r.read e (fun r => deserialize_object e r))
              (written e x) x :=
            fun x hx => reads_back_read e x (ht.1 x hx) (is_byte_vector_of_plain_member e hp.1)
              (deserialize_serialize e x (ht.1 x hx) (hf.2 x hx) hdec hp.2)
          have hx := read_elements_flatMap _ push_back (written e) xs [] hel
            (fun l₁ x l₂ _ => rfl) ⟨r.m_data, r.m_pos + 5⟩ rest h1
          obtain ⟨hm, hs, hl⟩ := container_header_byte_vector e xs.length hf.1
          simp only [deserialize_object, is_standard_container, if_true, hh]
          simp only [hm, hs, hl, and_self, if_true, hx]
          simp [data_header.length_bytes, Nat.add_assoc]
      | associated a =>
          have hdec : e.decodable = true := by simpa [Ty.decodable] using hdec
          have hel : ∀ x ∈ xs, reads_back (fun r => r.read e (fun r => deserialize_object e r))
              (written e x) x :=
            fun x hx => reads_back_read e x (ht.1 x hx) (is_byte_vector_of_plain_member e hp.1)
              (deserialize_serialize e x (ht.1 x hx) (hf.2 x hx) hdec hp.2)
          have hx := read_elements_flatMap _ (aso_insert a) (written e) xs [] hel
            (fun l₁ x l₂ hl => aso_insert_of_keys_distinct a l₁ x l₂ (by
              rw [← hl]; simpa using ht.2))
            ⟨r.m_data, r.m_pos + 5⟩ rest h1
          obtain ⟨hm, hs, hl⟩ := container_header_associated a e xs.length hf.1
          simp only [deserialize_object, is_standard_container, if_true, hh]
          simp only [hm, hs, hl, and_self, if_true, hx]
          simp [data_header.length_bytes, Nat.add_assoc]
      | fixed n => simp [Ty.decodable] at hdec
      | forward_only => simp [Ty.decodable] at hdec
  | .scalar _, .pod _, ht, _, _, _ | .scalar _, .pair _ _, ht, _, _, _
  | .scalar _, .variant _ _, ht, _, _, _ | .scalar _, .tuple _, ht, _, _, _
  | .scalar _, .list _, ht, _, _, _ => by simp [has_type] at ht
  | .pod _, .scalar _, ht, _, _, _ | .pod _, .pair _ _, ht, _, _, _
  | .pod _, .variant _ _, ht, _, _, _ | .pod _, .tuple _, ht, _, _, _
  | .pod _, .list _, ht, _, _, _ => by simp [has_type] at ht
  | .pair _ _, .scalar _, ht, _, _, _ | .pair _ _, .pod _, ht, _, _, _
  | .pair _ _, .variant _ _, ht, _, _, _ | .pair _ _, .tuple _, ht, _, _, _
  | .pair _ _, .list _, ht, _, _, _ => by simp [has_type] at ht
  | .variant _, .scalar _, ht, _, _, _ | .variant _, .pod _, ht, _, _, _
  | .variant _, .pair _ _, ht, _, _, _ | .variant _, .tuple _, ht, _, _, _
  | .variant _, .list _, ht, _, _, _ => by simp [has_type] at ht
  | .tuple _, .scalar _, ht, _, _, _ | .tuple _, .pod _, ht, _, _, _
  | .tuple _, .pair _ _, ht, _, _, _ | .tuple _, .variant _ _, ht, _, _, _
  | .tuple _, .list _, ht, _, _, _ => by simp [has_type] at ht
  | .container _ _, .scalar _, ht, _, _, _ | .container _ _, .pod _, ht, _, _, _
  | .container _ _, .pair _ _, ht, _, _, _ | .container _ _, .variant _ _, ht, _, _, _
  | .container _ _, .tuple _, ht, _, _, _ => by simp [has_type] at ht
theorem deserialize_alternative : ∀ (ts : List Ty) (i : Nat) (x : Val),
    has_type_alternative ts i x = true → wire_fits_alternative ts i x = true →
    Ty.decodable_all ts = true → Ty.plain_nesting_all ts = true →
    reads_back (fun r => detail.deserialize_variant_impl ts i r) (written_alternative ts i x) x
  | [], _, _, ht, _, _, _ => by simp [has_type_alternative] at ht
  | t :: ts, 0, x, ht, hf, hdec, hp => by
      simp only [has_type_alternative, wire_fits_alternative, Ty.decodable_all,
        Ty.plain_nesting_all, Bool.and_eq_true] at ht hf hdec hp
      intro r rest hd
      rw [written_alternative_zero] at hd ⊢
      simp only [detail.deserialize_variant_impl]
      exact reads_back_read t x ht (is_byte_vector_of_plain_member t hp.1.1)
        (deserialize_serialize t x ht hf hdec.1 hp.1.2) r rest hd
  | t :: ts, i + 1, x, ht, hf, hdec, hp => by
      simp only [has_type_alternative, wire_fits_alternative, Ty.decodable_all,
        Ty.plain_nesting_all, Bool.and_eq_true] at ht hf hdec hp
      intro r rest hd
      rw [written_alternative_succ] at hd ⊢
      simp only [detail.deserialize_variant_impl]
      exact deserialize_alternative ts i x ht hf hdec.2 hp.2 r rest hd
theorem deserialize_tuple_serialize : ∀ (ts : List Ty) (xs : List Val),
    has_type_all ts xs = true → wire_fits_all ts xs = true → Ty.decodable_all ts = true →
    Ty.plain_nesting_all ts = true →
    ∀ (r : bytes_reader) (rest : List Nat),
      r.m_data.drop r.m_pos = written_all ts xs ++ rest →
      detail.deserialize_tuple_impl ts r
        = some (xs, { m_data := r.m_data, m_pos := r.m_pos + (written_all ts xs).length })
  | [], [], _, _, _, _, r, _, _ => by
      simp [detail.deserialize_tuple_impl, written_all_nil]
  | [], _ :: _, ht, _, _, _, _, _, _ => by simp [has_type_all] at ht
  | _ :: _, [], ht, _, _, _, _, _, _ => by simp [has_type_all] at ht
  | t :: ts, x :: xs, ht, hf, hdec, hp, r, rest, hd => by
      simp only [has_type_all, wire_fits_all, Ty.decodable_all, Ty.plain_nesting_all,
        Bool.and_eq_true] at ht hf hdec hp
      rw [written_all_cons] at hd ⊢
      have hx := reads_back_read t x ht.1 (is_byte_vector_of_plain_member t hp.1.1)
        (deserialize_serialize t x ht.1 hf.1 hdec.1 hp.1.2) r
        (written_all ts xs ++ rest) (by simpa using hd)
      have h2 := r.drop_advance (written t x) (written_all ts xs ++ rest) (by simpa using hd)
      have hxs := deserialize_tuple_serialize ts xs ht.2 hf.2 hdec.2 hp.2
        ⟨r.m_data, r.m_pos + (written t x).length⟩ rest h2
      simp only [detail.deserialize_tuple_impl, hx, hxs]
      simp [Nat.add_assoc]
end

/-! ## Decoding a sequence container from a given header -/

mutual
theorem decodable_of_sequence_shape : ∀ (T : Ty), T.sequence_shape = true → T.decodable = true
  | .scalar _, _ => rfl
  | .pod _, _ => rfl
  | .pair a b, h => by
      simp only [Ty.sequence_shape, Bool.and_eq_true] at h
      simp [Ty.decodable, decodable_of_sequence_shape a h.1, decodable_of_sequence_shape b h.2]
  | .variant _, h => by simp [Ty.sequence_shape] at h
  | .tuple ts, h => by
      simp only [Ty.sequence_shape] at h
      simp [Ty.decodable, decodable_all_of_sequence_shape ts h]
  | .container .sequence e, h => by
      simp only [Ty.sequence_shape] at h
      simp [Ty.decodable, decodable_of_sequence_shape e h]
  | .container .byte_vector e, h => by
      simp only [Ty.sequence_shape] at h
      simp [Ty.decodable, decodable_of_sequence_shape e h]
  | .container (.associated _) _, h => by simp [Ty.sequence_shape] at h
  | .container (.fixed _) _, h => by simp [Ty.sequence_shape] at h
  | .container .forward_only _, h => by simp [Ty.sequence_shape] at h
theorem decodable_all_of_sequence_shape : ∀ (ts : List Ty),
    Ty.sequence_shape_all ts = true → Ty.decodable_all ts = true
  | [], _ => rfl
  | t :: ts, h => by
      simp only [Ty.sequence_shape_all, Bool.and_eq_true] at h
      simp [Ty.decodable_all, decodable_of_sequence_shape t h.1,
        decodable_all_of_sequence_shape ts h.2]
end

theorem container_header_stored (k : container_kind) (e : Ty) (n : Nat)
    (hk : is_associated_container k = false) :
    (container_header k e n).stored.get_main_type = d_seq_container ∧
    (container_header k e n).stored.get_sub_type = get_data_type e ∧
    (container_header k e n).stored.length = n % 2 ^ 32 := by
  have h := container_header_checks (get_data_type e) (get_data_type_lt e)
  refine ⟨?_, ?_, ?_⟩
  · cases hs : is_sequence_container k <;>
      simpa [container_header, hs, hk, data_header.get_main_type, data_header.stored] using h.1
  · cases hs : is_sequence_container k <;>
      simpa [container_header, hs, hk, data_header.get_sub_type, data_header.stored]
        using h.2.2.1
  · simp [container_header, data_header.stored]

theorem deserialize_sequence_of_header (e source : Ty) (k : container_kind) (n : Nat)
    (hk : is_associated_container k = false) (r : bytes_reader) (rest : List Nat)
    (hd : r.m_data.drop r.m_pos = (container_header k source n).bytes ++ rest) :
    deserialize_object (.container .sequence e) r =
      if (container_header k source n).stored.is_subtype_compitable (get_data_type e) = true then
        match read_elements (fun r => r.read e (fun r => deserialize_object e r)) push_back
            (n % 2 ^ 32) [] { m_data := r.m_data, m_pos := r.m_pos + 5 } with
        | none => none
        | some (xs, reader) => some (.list xs, reader)
      else some (.list [], { m_data := r.m_data, m_pos := r.m_pos + 5 }) := by
  have hh := r.read_header_of_drop _ rest hd
  obtain ⟨hm, _, hl⟩ := container_header_stored k source n hk
  simp only [deserialize_object, is_standard_container, if_true, hh, hm, hl, true_and]

theorem is_subtype_compitable_eq (h : data_header) (dt : Nat) :
    h.is_subtype_compitable dt =
      if dt < d_pod ∧ h.get_sub_type < d_pod then decide (h.get_sub_type ≥ dt)
      else decide (h.get_sub_type = dt) := rfl

/-! ## Round trip (C1) -/

theorem has_type_wrapped_zeros (k : container_kind) (hk : container_invariant k
    (List.replicate wrapped_length (.scalar 0)) = true) :
    has_type (.container k (.scalar .byte8)) wrapped_zeros = true := by
  simp only [wrapped_zeros, has_type, Bool.and_eq_true, List.all_eq_true, hk, and_true]
  intro x hx
  rw [List.eq_of_mem_replicate hx]
  simp [has_type, scalar_kind.size]

theorem wrapped_zeros_ne_nil : wrapped_zeros ≠ .list [] := by
  intro h
  have h1 : List.replicate wrapped_length (Val.scalar 0) = [] := by
    simpa only [wrapped_zeros, Val.list.injEq] using h
  have h2 := congrArg List.length h1
  rw [List.length_replicate] at h2
  exact absurd h2 (by decide)

/-- Decoding, as a byte vector, a byte sequence whose header was written for `2 ^ 32`
elements: the stored length is 0 and nothing is read. -/
theorem deserialize_wrapped_zeros_at (k : container_kind)
    (hk : is_associated_container k = false) (r : bytes_reader) (rest : List Nat)
    (hd : r.m_data.drop r.m_pos
      = (container_header k (.scalar .byte8) wrapped_length).bytes ++ rest) :
    deserialize_object (.container .sequence (.scalar .byte8)) r
      = some (.list [], { m_data := r.m_data, m_pos := r.m_pos + 5 }) := by
  rw [deserialize_sequence_of_header (.scalar .byte8) (.scalar .byte8) k wrapped_length hk
    r rest hd]
  obtain ⟨_, hs, _⟩ := container_header_stored k (.scalar .byte8) wrapped_length hk
  have hw : wrapped_length % 2 ^ 32 = 0 := by decide
  simp [is_subtype_compitable_eq, hs, get_data_type, d_byte8, d_pod, read_elements, hw]

theorem deserialize_wrapped_zeros (k : container_kind) (hk : is_associated_container k = false)
    (data rest : List Nat)
    (hd : data = (container_header k (.scalar .byte8) wrapped_length).bytes ++ rest) :
    (deserialize_object (.container .sequence (.scalar .byte8))
        { m_data := data, m_pos := 0 }).map Prod.fst = some (.list []) := by
  rw [deserialize_wrapped_zeros_at k hk { m_data := data, m_pos := 0 } rest (by simpa using hd)]
  rfl

theorem encoded_wrapped_zeros (k : container_kind) :
    encoded (.container k (.scalar .byte8)) wrapped_zeros
      = (container_header k (.scalar .byte8) wrapped_length).bytes
          ++ (List.replicate wrapped_length (Val.scalar 0)).flatMap
              (written (.scalar .byte8)) := by
  rw [wrapped_zeros, encoded_container, List.length_replicate]

/-- The length field of a container has 32 bits: a `std::deque<uint8_t>` of `2 ^ 32` zero
bytes is a value built from scalars and a sequence container, yet decoding the bytes
`serialize_object` wrote for it returns the empty deque: the element count is stored as
`static_cast<std::uint32_t>(object.size())`, which is 0. -/
theorem roundtrip_identity_fails_for_wrapped_length :
    (Ty.container .sequence (.scalar .byte8)).sequence_shape = true ∧
    has_type (.container .sequence (.scalar .byte8)) wrapped_zeros = true ∧
    (deserialize_object (.container .sequence (.scalar .byte8))
        { m_data := encoded (.container .sequence (.scalar .byte8)) wrapped_zeros,
          m_pos := 0 }).map Prod.fst
      = some (.list []) ∧
    (deserialize_object (.container .sequence (.scalar .byte8))
        { m_data := encoded (.container .sequence (.scalar .byte8)) wrapped_zeros,
          m_pos := 0 }).map Prod.fst
      ≠ some wrapped_zeros := by
  have h := deserialize_wrapped_zeros .sequence rfl _ _ (encoded_wrapped_zeros .sequence)
  refine ⟨rfl, has_type_wrapped_zeros .sequence rfl, h, ?_⟩
  rw [h]
  intro hc
  exact wrapped_zeros_ne_nil (Option.some.inj hc).symm

/-- The round trip on the shapes that keep clear of the overload of the sink: for every
value `v` whose shape is built from scalars, POD records, pairs, tuples and sequence
containers, with no `std::vector<uint8_t>` and no raw aggregate nested in it, in which
every sequence holds fewer than `2 ^ 32` elements and every POD record is smaller than
`2 ^ 32` bytes, `deserialize_object` at the type of `v` applied to the bytes that
`serialize_object` wrote for `v` into an empty unbounded sink returns `v`. -/
theorem roundtrip_identity (T : Ty) (v : Val) (hs : T.sequence_shape = true)
    (hp : T.plain_nesting = true)
    (ht : has_type T v = true) (hf : wire_fits T v = true) :
    (deserialize_object T { m_data := encoded T v, m_pos := 0 }).map Prod.fst = some v := by
  have h := deserialize_serialize T v ht hf (decodable_of_sequence_shape T hs) hp
    { m_data := encoded T v, m_pos := 0 } [] (by simp)
  simp only [] at h
  rw [h]; rfl

/-- The round trip of the pair of a vector of 32-bit integers and a tuple holding a POD
record of three bytes and a 16-bit scalar. -/
theorem roundtrip_identity_witness :
    (Ty.pair (.container .sequence (.scalar .byte32))
        (.tuple [.pod 3, .scalar .byte16])).sequence_shape = true ∧
    (Ty.pair (.container .sequence (.scalar .byte32))
        (.tuple [.pod 3, .scalar .byte16])).plain_nesting = true ∧
    has_type (.pair (.container .sequence (.scalar .byte32)) (.tuple [.pod 3, .scalar .byte16]))
      (.pair (.list [.scalar 1, .scalar 2]) (.tuple [.pod [7, 8, 9], .scalar 515])) = true ∧
    wire_fits (.pair (.container .sequence (.scalar .byte32)) (.tuple [.pod 3, .scalar .byte16]))
      (.pair (.list [.scalar 1, .scalar 2]) (.tuple [.pod [7, 8, 9], .scalar 515])) = true ∧
    (deserialize_object
        (.pair (.container .sequence (.scalar .byte32)) (.tuple [.pod 3, .scalar .byte16]))
        { m_data := encoded
            (.pair (.container .sequence (.scalar .byte32)) (.tuple [.pod 3, .scalar .byte16]))
            (.pair (.list [.scalar 1, .scalar 2]) (.tuple [.pod [7, 8, 9], .scalar 515])),
          m_pos := 0 }).map Prod.fst
      = some (.pair (.list [.scalar 1, .scalar 2]) (.tuple [.pod [7, 8, 9], .scalar 515])) :=
  ⟨by decide, by decide, by decide, by decide,
    roundtrip_identity _ _ (by decide) (by decide) (by decide) (by decide)⟩

/-! ## Variants (C4) -/

theorem encoded_variant_wrapped_zeros :
    encoded (.variant [.container .sequence (.scalar .byte8)]) (.variant 0 wrapped_zeros)
      = (data_header.set_sub_type { type := d_variant, length := 1 } d_seq_container).bytes
          ++ (to_bytes 4 0
            ++ ((container_header .sequence (.scalar .byte8) wrapped_length).bytes
              ++ (List.replicate wrapped_length (Val.scalar 0)).flatMap
                  (written (.scalar .byte8)))) := by
  rw [encoded_variant, written_alternative_zero,
    written_of_not_trivially_copyable (.container .sequence (.scalar .byte8)) wrapped_zeros rfl
      rfl,
    encoded_wrapped_zeros]
  rfl

theorem variant_of_wrapped_zeros (data rest : List Nat)
    (hd : data
      = (data_header.set_sub_type { type := d_variant, length := 1 } d_seq_container).bytes
          ++ (to_bytes 4 0
            ++ ((container_header .sequence (.scalar .byte8) wrapped_length).bytes ++ rest))) :
    (deserialize_object (.variant [.container .sequence (.scalar .byte8)])
        { m_data := data, m_pos := 0 }).map Prod.fst = some (.variant 0 (.list [])) := by
  have hh := bytes_reader.read_header_of_drop { m_data := data, m_pos := 0 } _ _
    (by simpa using hd)
  have h1 := bytes_reader.drop_advance { m_data := data, m_pos := 0 } _ _
    (by simpa using hd)
  rw [data_header.length_bytes] at h1
  have hu := bytes_reader.read_uint32_of_drop { m_data := data, m_pos := 0 + 5 } 0 _ h1
  have h2 := bytes_reader.drop_advance { m_data := data, m_pos := 0 + 5 } _ _ h1
  rw [length_to_bytes] at h2
  have hv := deserialize_wrapped_zeros_at .sequence rfl
    { m_data := data, m_pos := 0 + 5 + 4 } rest h2
  simp only [deserialize_object, hh, data_header.stored, data_header.set_sub_type]
  simp only [List.length_singleton, Nat.one_mod_two_pow_eq_one, ne_eq, not_true_eq_false,
    if_false, hu]
  simp [detail.deserialize_variant_impl, bytes_reader.read, Ty.is_trivially_copyable, hv]

/-- The length field of a container has 32 bits: the variant over the single alternative
`std::deque<uint8_t>` that holds `2 ^ 32` zero bytes is decoded with the right index 0 but
with an empty payload. -/
theorem variant_fidelity_fails_for_wrapped_length :
    has_type (.variant [.container .sequence (.scalar .byte8)]) (.variant 0 wrapped_zeros)
      = true ∧
    (deserialize_object (.variant [.container .sequence (.scalar .byte8)])
        { m_data := encoded (.variant [.container .sequence (.scalar .byte8)])
            (.variant 0 wrapped_zeros),
          m_pos := 0 }).map Prod.fst
      = some (.variant 0 (.list [])) ∧
    Val.variant 0 (.list []) ≠ .variant 0 wrapped_zeros := by
  refine ⟨?_, variant_of_wrapped_zeros _ _ encoded_variant_wrapped_zeros, ?_⟩
  · rw [has_type, has_type_alternative, has_type_wrapped_zeros .sequence rfl]
    decide
  · intro hc
    exact wrapped_zeros_ne_nil (Val.variant.inj hc).2.symm

/-- The fidelity of variants whose alternatives keep clear of the overload of the sink: for
every variant value `v` over a declared list of alternatives the decoder can fill, none
of them a `std::vector<uint8_t>` or a raw aggregate or holding one, and any active
alternative, in which every container holds fewer than `2 ^ 32` elements and every POD
record is smaller than `2 ^ 32` bytes, `deserialize_object` applied to the bytes
`serialize_object` wrote for `v` returns a variant with the active index of `v` and an
active payload equal to that of `v`. -/
theorem variant_fidelity (ts : List Ty) (i : Nat) (x : Val)
    (hd : Ty.decodable_all ts = true) (hp : Ty.plain_nesting_all ts = true)
    (ht : has_type (.variant ts) (.variant i x) = true)
    (hf : wire_fits (.variant ts) (.variant i x) = true) :
    (deserialize_object (.variant ts)
        { m_data := encoded (.variant ts) (.variant i x), m_pos := 0 }).map Prod.fst
      = some (.variant i x) := by
  have h := deserialize_serialize (.variant ts) (.variant i x) ht hf
    (by simpa [Ty.decodable] using hd) (by simpa [Ty.plain_nesting] using hp)
    { m_data := encoded (.variant ts) (.variant i x), m_pos := 0 } [] (by simp)
  simp only [] at h
  rw [h]; rfl

/-- The variant `<int32, char, wstring>` of the example, holding the wide string "hi" at
index 2, is decoded with its index and its payload. -/
theorem variant_fidelity_witness :
    Ty.decodable_all
      [.scalar .byte32, .scalar .byte8, .container .sequence (.scalar .byte16)] = true ∧
    Ty.plain_nesting_all
      [.scalar .byte32, .scalar .byte8, .container .sequence (.scalar .byte16)] = true ∧
    has_type (.variant [.scalar .byte32, .scalar .byte8, .container .sequence (.scalar .byte16)])
      (.variant 2 (.list [.scalar 104, .scalar 105])) = true ∧
    wire_fits (.variant [.scalar .byte32, .scalar .byte8, .container .sequence (.scalar .byte16)])
      (.variant 2 (.list [.scalar 104, .scalar 105])) = true ∧
    (deserialize_object
        (.variant [.scalar .byte32, .scalar .byte8, .container .sequence (.scalar .byte16)])
        { m_data := encoded
            (.variant [.scalar .byte32, .scalar .byte8, .container .sequence (.scalar .byte16)])
            (.variant 2 (.list [.scalar 104, .scalar 105])),
          m_pos := 0 }).map Prod.fst
      = some (.variant 2 (.list [.scalar 104, .scalar 105])) :=
  ⟨by decide, by decide, by decide, by decide,
    variant_fidelity _ _ _ (by decide) (by decide) (by decide) (by decide)⟩

/-! ## Sequence containers of one family (C5) -/

theorem container_header_of_not_associated (k : container_kind) (e : Ty) (n : Nat)
    (hk : is_associated_container k = false) :
    container_header k e n = container_header .sequence e n := by
  cases hs : is_sequence_container k <;>
    simp [container_header, hs, hk, is_sequence_container]

theorem encoded_of_not_associated (k : container_kind) (e : Ty) (xs : List Val)
    (hk : is_associated_container k = false) :
    encoded (.container k e) (.list xs) = encoded (.container .sequence e) (.list xs) := by
  rw [encoded_container, encoded_container, container_header_of_not_associated k e _ hk]

/-- The length field of a container has 32 bits: a fixed array of `2 ^ 32` zero bytes,
encoded and decoded into a deque of bytes, yields the empty deque and not the elements
of the array. -/
theorem cross_container_fails_for_wrapped_length :
    has_type (.container (.fixed wrapped_length) (.scalar .byte8)) wrapped_zeros = true ∧
    (deserialize_object (.container .sequence (.scalar .byte8))
        { m_data := encoded (.container (.fixed wrapped_length) (.scalar .byte8)) wrapped_zeros,
          m_pos := 0 }).map Prod.fst
      = some (.list []) ∧
    Val.list [] ≠ wrapped_zeros := by
  refine ⟨has_type_wrapped_zeros _ ?_,
    deserialize_wrapped_zeros (.fixed wrapped_length) rfl _ _ (encoded_wrapped_zeros _),
    fun hc => wrapped_zeros_ne_nil hc.symm⟩
  simp only [container_invariant, List.length_replicate, decide_True]

/-- The interchange of the sequence family on element types that keep clear of the overload
of the sink: for every element type `E` the decoder can fill, not a `std::vector<uint8_t>`
or a raw aggregate and holding none, and every sequence `a` of fewer than `2 ^ 32`
elements of `E` (with sizes inside the elements below `2 ^ 32` too), encoded from a range
that is not an associative container (linked list, fixed array, growable array, deque),
decoding the bytes into a sequence container of `E` yields the elements of `a` in the
same order. -/
theorem cross_container_interchange (k : container_kind) (e : Ty) (xs : List Val)
    (hk : is_associated_container k = false) (he : e.decodable = true)
    (hp : (e.plain_member && e.plain_nesting) = true)
    (ht : has_type (.container k e) (.list xs) = true)
    (hf : wire_fits (.container k e) (.list xs) = true) :
    (deserialize_object (.container .sequence e)
        { m_data := encoded (.container k e) (.list xs), m_pos := 0 }).map Prod.fst
      = some (.list xs) := by
  have ht' : has_type (.container .sequence e) (.list xs) = true := by
    simp only [has_type, Bool.and_eq_true] at ht ⊢
    exact ⟨ht.1, rfl⟩
  have hf' : wire_fits (.container .sequence e) (.list xs) = true := by
    simpa only [wire_fits] using hf
  rw [encoded_of_not_associated k e xs hk]
  have h := deserialize_serialize (.container .sequence e) (.list xs) ht' hf'
    (by simpa [Ty.decodable] using he) (by simpa [Ty.plain_nesting] using hp)
    { m_data := encoded (.container .sequence e) (.list xs), m_pos := 0 } [] (by simp)
  simp only [] at h
  rw [h]; rfl

/-- The array `{1, 2, 3, 4, 5}` of the example, decoded into a vector. -/
theorem cross_container_interchange_witness :
    is_associated_container (.fixed 5) = false ∧
    (Ty.scalar .byte32).decodable = true ∧
    ((Ty.scalar .byte32).plain_member && (Ty.scalar .byte32).plain_nesting) = true ∧
    has_type (.container (.fixed 5) (.scalar .byte32))
      (.list [.scalar 1, .scalar 2, .scalar 3, .scalar 4, .scalar 5]) = true ∧
    wire_fits (.container (.fixed 5) (.scalar .byte32))
      (.list [.scalar 1, .scalar 2, .scalar 3, .scalar 4, .scalar 5]) = true ∧
    (deserialize_object (.container .sequence (.scalar .byte32))
        { m_data := encoded (.container (.fixed 5) (.scalar .byte32))
            (.list [.scalar 1, .scalar 2, .scalar 3, .scalar 4, .scalar 5]),
          m_pos := 0 }).map Prod.fst
      = some (.list [.scalar 1, .scalar 2, .scalar 3, .scalar 4, .scalar 5]) :=
  ⟨by decide, by decide, by decide, by decide, by decide,
    cross_container_interchange _ _ _ (by decide) (by decide) (by decide) (by decide)
      (by decide)⟩

/-! ## The sub-type check between scalar kinds (C6, C7) -/

/-- C6, counterexample: the one-element sequence `[1]` of 16-bit integers, decoded into a
sequence of 32-bit integers, yields the empty sequence and not `[1]`. -/
theorem widening_fails_for_singleton :
    has_type (.container .sequence (.scalar .byte16)) (.list [.scalar 1]) = true ∧
    (deserialize_object (.container .sequence (.scalar .byte32))
        { m_data := encoded (.container .sequence (.scalar .byte16)) (.list [.scalar 1]),
          m_pos := 0 }).map Prod.fst
      = some (.list []) ∧
    Val.list [] ≠ .list [.scalar 1] :=
  ⟨by decide, rfl, by simp⟩

/-- C6, amended: for every sequence `s` of 16-bit integers, decoding the bytes
`serialize_object` wrote for `s` into a sequence of 32-bit integers yields the empty
container: `is_subtype_compitable` accepts a scalar sub-type only when its code is at least
the code of the target element type, and the code of a 16-bit integer is below the code of
a 32-bit integer.  The source is left right behind the data header. -/
theorem widening_refused (xs : List Val) :
    deserialize_object (.container .sequence (.scalar .byte32))
        { m_data := encoded (.container .sequence (.scalar .byte16)) (.list xs), m_pos := 0 }
      = some (.list [],
          { m_data := encoded (.container .sequence (.scalar .byte16)) (.list xs),
            m_pos := 5 }) := by
  rw [deserialize_sequence_of_header (.scalar .byte32) (.scalar .byte16) .sequence xs.length
    rfl _ (xs.flatMap (written (.scalar .byte16))) (by simp [encoded_container])]
  obtain ⟨_, hs, _⟩ := container_header_stored .sequence (.scalar .byte16) xs.length rfl
  simp [is_subtype_compitable_eq, hs, get_data_type, d_byte16, d_byte32, d_pod]

theorem read_elements_push_back_length (T : Ty) (hT : T.is_trivially_copyable = true) :
    ∀ (n : Nat) (acc : List Val) (r : bytes_reader),
      ∃ ys r', read_elements (fun r => r.read T (fun r => deserialize_object T r)) push_back
          n acc r = some (ys, r') ∧ ys.length = acc.length + n
  | 0, acc, r => ⟨acc, r, by simp [read_elements]⟩
  | n + 1, acc, r => by
      obtain ⟨ys, r', h, hl⟩ := read_elements_push_back_length T hT n
        (push_back acc (r.read_value T).1) (r.read_value T).2
      refine ⟨ys, r', ?_, ?_⟩
      · simp only [read_elements, bytes_reader.read, hT, if_true] at h ⊢
        exact h
      · simp only [push_back, List.length_append, List.length_singleton] at hl
        omega

/-- C7, counterexample: the one-element sequence `[1]` of 32-bit integers, decoded into a
sequence of 16-bit integers, yields the one-element sequence `[1]`, not the empty one. -/
theorem narrowing_not_refused_for_singleton :
    has_type (.container .sequence (.scalar .byte32)) (.list [.scalar 1]) = true ∧
    (deserialize_object (.container .sequence (.scalar .byte16))
        { m_data := encoded (.container .sequence (.scalar .byte32)) (.list [.scalar 1]),
          m_pos := 0 }).map Prod.fst
      = some (.list [.scalar 1]) ∧
    Val.list [.scalar 1] ≠ .list [] :=
  ⟨by decide, rfl, by simp⟩

/-- C7, amended: for every sequence `s` of fewer than `2 ^ 32` 32-bit integers, decoding the
bytes `serialize_object` wrote for `s` into a sequence of 16-bit integers passes the
sub-type check and yields a container with exactly as many elements as `s`, so the empty
container only when `s` is empty. -/
theorem narrowing_keeps_length (xs : List Val) (hl : xs.length < 2 ^ 32) :
    ∃ ys r', deserialize_object (.container .sequence (.scalar .byte16))
        { m_data := encoded (.container .sequence (.scalar .byte32)) (.list xs), m_pos := 0 }
      = some (.list ys, r') ∧ ys.length = xs.length := by
  rw [deserialize_sequence_of_header (.scalar .byte16) (.scalar .byte32) .sequence xs.length
    rfl _ (xs.flatMap (written (.scalar .byte32))) (by simp [encoded_container])]
  obtain ⟨_, hs, _⟩ := container_header_stored .sequence (.scalar .byte32) xs.length rfl
  obtain ⟨ys, r', h, hlen⟩ := read_elements_push_back_length (.scalar .byte16) rfl
    (xs.length % 2 ^ 32) []
    { m_data := encoded (.container .sequence (.scalar .byte32)) (.list xs), m_pos := 5 }
  have hc : (container_header .sequence (.scalar .byte32) xs.length).stored.is_subtype_compitable
      (get_data_type (.scalar .byte16)) = true := by
    simp [is_subtype_compitable_eq, hs, get_data_type, d_byte16, d_byte32, d_pod]
  refine ⟨ys, r', ?_, ?_⟩
  · simp only [Nat.zero_add]
    rw [if_pos hc, h]
  · rw [hlen, Nat.mod_eq_of_lt hl]; simp

/-- C7, witness: the sequence `[1, 2]`. -/
theorem narrowing_keeps_length_witness :
    [Val.scalar 1, Val.scalar 2].length < 2 ^ 32 ∧
    ∃ ys r', deserialize_object (.container .sequence (.scalar .byte16))
        { m_data := encoded (.container .sequence (.scalar .byte32))
            (.list [Val.scalar 1, Val.scalar 2]), m_pos := 0 }
      = some (.list ys, r') ∧ ys.length = [Val.scalar 1, Val.scalar 2].length :=
  ⟨by decide, narrowing_keeps_length [Val.scalar 1, Val.scalar 2] (by decide)⟩

/-! ## The envelope -/

theorem VERSION_stored : VERSION % 2 ^ 16 = VERSION := by decide

theorem bytes_reader.read_packer_header_of_drop (r : bytes_reader) (ph : packer_header)
    (rest : List Nat) (hd : r.m_data.drop r.m_pos = ph.bytes ++ rest) :
    r.read_packer_header = (ph.stored, { m_data := r.m_data, m_pos := r.m_pos + 10 }) := by
  have := r.read_raw_of_drop ph.bytes rest hd
  rw [packer_header.length_packed] at this
  simp [bytes_reader.read_packer_header, packer_header.size, this,
    packer_header.of_bytes_packed]

/-- The bytes `serialize` returns: the envelope header followed by the payload. -/
theorem serialize_eq_some (T : Ty) (v : Val) (c : checksum_fn) (P : List Nat)
    (h : serialize T v c = some P) :
    ∃ crc, c (encoded T v) (encoded T v).length = some crc ∧
      P = (packer_header.mk VERSION (crc % 2 ^ 32) ((encoded T v).length % 2 ^ 32)).bytes
            ++ encoded T v := by
  unfold serialize at h
  simp only [] at h
  change (match c (encoded T v) (encoded T v).length with
    | none => none
    | some crc => _) = some P at h
  cases hc : c (encoded T v) (encoded T v).length with
  | none => simp [hc] at h
  | some crc =>
      refine ⟨crc, rfl, ?_⟩
      simp only [hc, Option.some.injEq] at h
      rw [← h]
      have hV : VERSION % 65536 = VERSION := by decide
      simp [bytes_writer.write_raw, packer_header.set_version, hV, encoded]

/-- What `deserialize` does with an envelope header of the current version followed by
a payload. -/
theorem deserialize_envelope (T : Ty) (c : checksum_fn) (ph : packer_header)
    (payload : List Nat) (hv : ph.version % 2 ^ 16 = VERSION) :
    deserialize T (ph.bytes ++ payload) c =
      match c payload (ph.length % 2 ^ 32) with
      | none => none
      | some crc =>
          if crc % 2 ^ 32 ≠ ph.crc % 2 ^ 32 then some (default_value T)
          else (deserialize_object T
            { m_data := ph.bytes ++ payload, m_pos := 10 }).map Prod.fst := by
  have hh := bytes_reader.read_packer_header_of_drop
    { m_data := ph.bytes ++ payload, m_pos := 0 } ph payload (by simp)
  have hdrop : List.drop packer_header.size (ph.bytes ++ payload) = payload := by
    rw [packer_header.size, ← packer_header.length_packed ph, List.drop_left]
  simp only [deserialize, hh, packer_header.stored, hv, ne_eq, not_true_eq_false, if_false,
    hdrop, Nat.zero_add]

/-! ## Envelope round trip (C2) -/

theorem serialize_empty_checksum (T : Ty) (v : Val) :
    serialize T v empty_checksum
      = some ((packer_header.mk VERSION 0 ((encoded T v).length % 2 ^ 32)).bytes
          ++ encoded T v) := by
  have hV : VERSION % 65536 = VERSION := by decide
  simp [serialize, empty_checksum, bytes_writer.write_raw, packer_header.set_version, encoded,
    hV]

theorem drop_envelope (ph : packer_header) (payload : List Nat) :
    List.drop 10 (ph.bytes ++ payload) = payload := by
  rw [← packer_header.length_packed ph, List.drop_left]

/-- The length field of a container has 32 bits: with the default checksum, `serialize` of a
`std::deque<uint8_t>` of `2 ^ 32` zero bytes returns an envelope from which `deserialize`
returns the empty deque. -/
theorem envelope_roundtrip_fails_for_wrapped_length :
    has_type (.container .sequence (.scalar .byte8)) wrapped_zeros = true ∧
    ∃ P, serialize (.container .sequence (.scalar .byte8)) wrapped_zeros empty_checksum
        = some P ∧
      deserialize (.container .sequence (.scalar .byte8)) P empty_checksum
        = some (.list []) ∧
      Val.list [] ≠ wrapped_zeros := by
  refine ⟨has_type_wrapped_zeros .sequence rfl, _, serialize_empty_checksum _ _, ?_,
    fun hc => wrapped_zeros_ne_nil hc.symm⟩
  rw [deserialize_envelope _ _ _ _ VERSION_stored]
  have h := deserialize_wrapped_zeros_at .sequence rfl
    { m_data := (packer_header.mk VERSION 0
        ((encoded (.container .sequence (.scalar .byte8)) wrapped_zeros).length % 2 ^ 32)).bytes
        ++ encoded (.container .sequence (.scalar .byte8)) wrapped_zeros, m_pos := 10 }
    ((List.replicate wrapped_length (Val.scalar 0)).flatMap (written (.scalar .byte8)))
    (by
      simp only [drop_envelope]
      exact encoded_wrapped_zeros .sequence)
  simp only [empty_checksum, ne_eq, not_true_eq_false, if_false]
  rw [h]; rfl

/-- The envelope round trip on the types that keep clear of the overload of the sink: for
every value `v` of a type the decoder can fill, with no `std::vector<uint8_t>` and no raw
aggregate nested in it, whose encoded payload is shorter than `2 ^ 32` bytes, with every
container length and POD size inside `v` below `2 ^ 32`, and for every checksum function
`c`, `deserialize<T>(serialize(v, c), c)` equals `v`. -/
theorem envelope_roundtrip (T : Ty) (v : Val) (c : checksum_fn) (P : List Nat)
    (hdec : T.decodable = true) (hp : T.plain_nesting = true)
    (ht : has_type T v = true) (hf : wire_fits T v = true)
    (hlen : (encoded T v).length < 2 ^ 32) (hs : serialize T v c = some P) :
    deserialize T P c = some v := by
  obtain ⟨crc, hc, hP⟩ := serialize_eq_some T v c P hs
  rw [hP, deserialize_envelope T c _ _ VERSION_stored]
  simp only [Nat.mod_mod, Nat.mod_eq_of_lt hlen, hc, ne_eq, not_true_eq_false, if_false]
  have h := deserialize_serialize T v ht hf hdec hp
    { m_data := (packer_header.mk VERSION (crc % 2 ^ 32) ((encoded T v).length)).bytes
        ++ encoded T v, m_pos := 10 } []
    (by simp only [List.append_nil, drop_envelope])
  simp only [] at h
  rw [h]; rfl

/-- The tuple `("192.168.10.1", 3768, "202.113.76.68", 80)` of `tuple_example`, serialized
with the default checksum, and read back. -/
theorem envelope_roundtrip_witness :
    example_tuple_type.decodable = true ∧
    example_tuple_type.plain_nesting = true ∧
    has_type example_tuple_type example_tuple = true ∧
    wire_fits example_tuple_type example_tuple = true ∧
    (encoded example_tuple_type example_tuple).length < 2 ^ 32 ∧
    serialize example_tuple_type example_tuple empty_checksum = some [
      1, 0, 0, 0, 0, 0, 48, 0, 0, 0, 10, 4, 0, 0, 0, 27, 12, 0, 0, 0, 49, 57, 50, 46,
      49, 54, 56, 46, 49, 48, 46, 49, 184, 14, 0, 0, 27, 13, 0, 0, 0, 50, 48, 50, 46,
      49, 49, 51, 46, 55, 54, 46, 54, 56, 80, 0, 0, 0] ∧
    deserialize example_tuple_type [
      1, 0, 0, 0, 0, 0, 48, 0, 0, 0, 10, 4, 0, 0, 0, 27, 12, 0, 0, 0, 49, 57, 50, 46,
      49, 54, 56, 46, 49, 48, 46, 49, 184, 14, 0, 0, 27, 13, 0, 0, 0, 50, 48, 50, 46,
      49, 49, 51, 46, 55, 54, 46, 54, 56, 80, 0, 0, 0] empty_checksum = some example_tuple :=
  ⟨by decide, by decide, by decide, by decide, by decide, by decide,
    envelope_roundtrip _ _ _ _ (by decide) (by decide) (by decide) (by decide) (by decide)
      (by decide)⟩

/-! ## Size pass against encoder (C3) -/

/-- C3, the code at two failing inputs.  For the variant `<int32, char>` holding the 32-bit
integer 5, `get_size` returns 9 while `serialize_object` writes 13 bytes (the size pass
leaves out the four bytes of the index).  For a vector of two POD records of three bytes,
`get_size` returns 21 while `serialize_object` writes 11 bytes (the size pass counts a
data header for each element, the sink copies the elements as raw bytes). -/
theorem get_size_differs_from_encoded_length :
    get_size (.variant [.scalar .byte32, .scalar .byte8]) (.variant 0 (.scalar 5)) = 9 ∧
    (encoded (.variant [.scalar .byte32, .scalar .byte8]) (.variant 0 (.scalar 5))).length
      = 13 ∧
    get_size (.container .sequence (.pod 3)) (.list [.pod [1, 2, 3], .pod [4, 5, 6]]) = 21 ∧
    (encoded (.container .sequence (.pod 3)) (.list [.pod [1, 2, 3], .pod [4, 5, 6]])).length
      = 11 := by
  decide

/-! ## Truncated input (C8, C9) -/

theorem bytes_reader.read_raw_short (r : bytes_reader) (size : Nat) (h : r.remaining < size) :
    r.read_raw size = (none, r) := by
  simp [bytes_reader.read_raw, bytes_reader.can_read, Nat.not_le.mpr h]

theorem bytes_reader.read_header_short (r : bytes_reader) (h : r.remaining < 5) :
    r.read_header = ({ type := 0, length := 0 }, r) := by
  simp [bytes_reader.read_header, data_header.size, r.read_raw_short 5 h]

theorem deserialize_short (T : Ty) (data : List Nat) (c : checksum_fn) (h : data.length < 10) :
    deserialize T data c = some (default_value T) := by
  have hr := bytes_reader.read_raw_short { m_data := data, m_pos := 0 } 10
    (by simpa [bytes_reader.remaining] using h)
  have hV : (0 : Nat) ≠ VERSION := by decide
  simp [deserialize, bytes_reader.read_packer_header, packer_header.size, hr, hV]

/-- A source with fewer unread bytes than a data header (than the scalar, for a scalar
target) decodes to the default value. -/
theorem deserialize_object_truncated (T : Ty) (v : Val) (r : bytes_reader)
    (hdec : T.decodable = true) (ht : has_type T v = true)
    (hr : r.remaining < (if T.is_compound then 5 else T.sizeof)) :
    (deserialize_object T r).map Prod.fst = some (default_value T) := by
  cases T with
  | scalar k =>
      have hr' : r.remaining < k.size := by simpa [Ty.is_compound, Ty.sizeof] using hr
      simp [deserialize_object, bytes_reader.read_value, Ty.sizeof, r.read_raw_short _ hr']
  | pod n =>
      have hr' : r.remaining < 5 := by simpa [Ty.is_compound] using hr
      simp only [deserialize_object, r.read_header_short hr']
      by_cases hn : 0 < n
      · simp [hn]
      · have hn0 : n = 0 := by omega
        subst hn0
        simp [bytes_reader.read_value, Ty.sizeof, bytes_reader.read_raw, bytes_reader.can_read,
          from_object_bytes, default_value]
  | pair a b =>
      have hr' : r.remaining < 5 := by simpa [Ty.is_compound] using hr
      simp [deserialize_object, r.read_header_short hr']
  | variant ts =>
      have hr' : r.remaining < 5 := by simpa [Ty.is_compound] using hr
      cases v with
      | variant i x =>
          simp only [has_type, Bool.and_eq_true] at ht
          have hi := has_type_alternative_lt ts i x ht.2
          have hne : ¬ (0 = ts.length) := by omega
          simp [deserialize_object, r.read_header_short hr', hne]
      | scalar _ => simp [has_type] at ht
      | pod _ => simp [has_type] at ht
      | pair _ _ => simp [has_type] at ht
      | tuple _ => simp [has_type] at ht
      | list _ => simp [has_type] at ht
  | tuple ts =>
      have hr' : r.remaining < 5 := by simpa [Ty.is_compound] using hr
      simp only [deserialize_object, r.read_header_short hr']
      cases ts with
      | nil => simp [detail.deserialize_tuple_impl, default_value, default_value_all]
      | cons t ts => simp
  | container k e =>
      have hr' : r.remaining < 5 := by simpa [Ty.is_compound] using hr
      cases k with
      | sequence =>
          simp [deserialize_object, is_standard_container, r.read_header_short hr',
            data_header.get_main_type, d_seq_container, default_value]
      | byte_vector =>
          simp [deserialize_object, is_standard_container, r.read_header_short hr',
            data_header.get_main_type, d_seq_container, default_value]
      | associated a =>
          simp [deserialize_object, is_standard_container, r.read_header_short hr',
            data_header.get_main_type, d_aso_container, default_value]
      | fixed n => simp [Ty.decodable] at hdec
      | forward_only => simp [Ty.decodable] at hdec

/-- A POD record whose data header is followed by fewer bytes than the record has decodes
to the default value. -/
theorem deserialize_pod_truncated (n : Nat) (r : bytes_reader) (h : data_header)
    (rest : List Nat) (hd : r.m_data.drop r.m_pos = h.bytes ++ rest) (hr : rest.length < n) :
    (deserialize_object (.pod n) r).map Prod.fst = some (default_value (.pod n)) := by
  have hh := r.read_header_of_drop h rest hd
  have hlen : r.m_data.length - r.m_pos = 5 + rest.length := by
    have := congrArg List.length hd
    simpa [data_header.length_bytes] using this
  have hshort : (bytes_reader.mk r.m_data (r.m_pos + 5)).remaining < n := by
    simp only [bytes_reader.remaining]
    omega
  simp only [deserialize_object, hh]
  split
  · rfl
  · simp [bytes_reader.read_value, Ty.sizeof, bytes_reader.read_raw_short _ n hshort]

/-- C8, counterexample: the envelope of the vector `{1, 2, 3, 4}` has 31 bytes; cut after
19 bytes (inside the second element) it decodes to `{1, 0, 0, 0}`, which is not the
default-constructed (empty) vector. -/
theorem truncation_keeps_elements_read :
    has_type int_vector one_to_four = true ∧
    serialize int_vector one_to_four empty_checksum
      = some [1, 0, 0, 0, 0, 0, 21, 0, 0, 0, 59, 4, 0, 0, 0, 1, 0, 0, 0, 2, 0, 0, 0, 3, 0, 0, 0,
          4, 0, 0, 0] ∧
    deserialize int_vector
        (List.take 19 [1, 0, 0, 0, 0, 0, 21, 0, 0, 0, 59, 4, 0, 0, 0, 1, 0, 0, 0, 2, 0, 0, 0,
          3, 0, 0, 0, 4, 0, 0, 0]) empty_checksum
      = some (.list [.scalar 1, .scalar 0, .scalar 0, .scalar 0]) ∧
    Val.list [.scalar 1, .scalar 0, .scalar 0, .scalar 0] ≠ default_value int_vector :=
  ⟨by decide, by decide, rfl, by simp [default_value, int_vector]⟩

theorem length_encoded_scalar (k : scalar_kind) (v : Val)
    (ht : has_type (.scalar k) v = true) : (encoded (.scalar k) v).length = k.size := by
  rw [encoded_scalar, length_object_bytes _ _ ht rfl]
  rfl

/-- C8, amended: for every value `v` of a type the decoder can fill, with
`P = serialize(v)` under the default checksum, and for every `k < len(P)` that cuts `P`
inside the envelope header, inside the data header that follows it (`k < 15`) or, for a
scalar or a POD record `v`, anywhere, `deserialize<T>` applied to the first `k` bytes of
`P` returns the default-constructed `T`. -/
theorem truncation_inside_header (T : Ty) (v : Val) (P : List Nat) (k : Nat)
    (hdec : T.decodable = true) (ht : has_type T v = true)
    (hs : serialize T v empty_checksum = some P) (hk : k < P.length)
    (hcut : k < 15 ∨ T.is_trivially_copyable = true) :
    deserialize T (P.take k) empty_checksum = some (default_value T) := by
  rw [serialize_empty_checksum, Option.some.injEq] at hs
  subst hs
  by_cases h10 : k < 10
  · exact deserialize_short T _ _ (by rw [List.length_take]; omega)
  · have hph := packer_header.length_packed
      (packer_header.mk VERSION 0 ((encoded T v).length % 2 ^ 32))
    rw [List.length_append, hph] at hk
    rw [List.take_append_eq_append_take, List.take_of_length_le (by omega), hph,
      deserialize_envelope T _ _ _ VERSION_stored]
    simp only [empty_checksum, ne_eq, not_true_eq_false, if_false]
    have hrem : (bytes_reader.mk ((packer_header.mk VERSION 0
        ((encoded T v).length % 2 ^ 32)).bytes ++ List.take (k - 10) (encoded T v)) 10).remaining
          = k - 10 := by
      simp only [bytes_reader.remaining, List.length_append, hph, List.length_take]
      omega
    by_cases h15 : k < 15
    · apply deserialize_object_truncated T v _ hdec ht
      rw [hrem]
      cases hc : T.is_compound with
      | true => simp only [if_true]; omega
      | false =>
          cases T with
          | scalar kind =>
              have := length_encoded_scalar kind v ht
              simp only [Ty.sizeof, Bool.false_eq_true, if_false]
              omega
          | pod _ => simp [Ty.is_compound] at hc
          | pair _ _ => simp [Ty.is_compound] at hc
          | variant _ => simp [Ty.is_compound] at hc
          | tuple _ => simp [Ty.is_compound] at hc
          | container _ _ => simp [Ty.is_compound] at hc
    · have htc : T.is_trivially_copyable = true := by
        rcases hcut with hcut | hcut
        · exact absurd hcut h15
        · exact hcut
      cases T with
      | scalar kind =>
          apply deserialize_object_truncated (.scalar kind) v _ hdec ht
          rw [hrem]
          have := length_encoded_scalar kind v ht
          simp only [Ty.is_compound, Ty.sizeof, Bool.false_eq_true, if_false]
          omega
      | pod n =>
          have hlen : (object_bytes (.pod n) v).length = n := length_object_bytes _ _ ht rfl
          rw [encoded_pod, List.length_append, data_header.length_bytes, hlen] at hk
          apply deserialize_pod_truncated n _ (data_header.mk d_pod (n % 2 ^ 32))
            (List.take (k - 15) (object_bytes (.pod n) v))
          · show List.drop 10 (_ ++ List.take (k - 10) (encoded (.pod n) v)) = _
            rw [drop_envelope, encoded_pod, List.take_append_eq_append_take,
              List.take_of_length_le (by rw [data_header.length_bytes]; omega),
              data_header.length_bytes]
            congr 2
          · rw [List.length_take]
            omega
      | pair _ _ => simp [Ty.is_trivially_copyable] at htc
      | variant _ => simp [Ty.is_trivially_copyable] at htc
      | tuple _ => simp [Ty.is_trivially_copyable] at htc
      | container _ _ => simp [Ty.is_trivially_copyable] at htc

/-- C8, witness: the envelope of a POD record of three bytes, 18 bytes long, cut after 16
bytes, inside the record. -/
theorem truncation_inside_header_witness :
    (Ty.pod 3).decodable = true ∧ has_type (.pod 3) (.pod [7, 8, 9]) = true ∧
    serialize (.pod 3) (.pod [7, 8, 9]) empty_checksum
      = some [1, 0, 0, 0, 0, 0, 8, 0, 0, 0, 7, 3, 0, 0, 0, 7, 8, 9] ∧
    16 < [1, 0, 0, 0, 0, 0, 8, 0, 0, 0, 7, 3, 0, 0, 0, 7, 8, 9].length ∧
    ((16 : Nat) < 15 ∨ (Ty.pod 3).is_trivially_copyable = true) ∧
    deserialize (.pod 3)
        (List.take 16 [1, 0, 0, 0, 0, 0, 8, 0, 0, 0, 7, 3, 0, 0, 0, 7, 8, 9]) empty_checksum
      = some (default_value (.pod 3)) :=
  ⟨by decide, by decide, by decide, by decide, by decide,
    truncation_inside_header (.pod 3) (.pod [7, 8, 9]) _ 16 (by decide) (by decide)
      (by decide) (by decide) (by decide)⟩

/-- C9, the code at a failing input: the envelope of the vector `{1, 2, 3, 4}` written
with `crc32_checksum` declares a payload of 21 bytes; when only the first 12 bytes of the
envelope are passed to `deserialize`, the version check passes and `crc32_checksum` is
handed the 2 bytes behind the envelope header with length 21, so it reads `data[2]`
onwards outside the vector: the call has no defined result. -/
theorem deserialize_truncated_reads_past_end :
    serialize int_vector one_to_four crc32_checksum
      = some [1, 0, 201, 13, 151, 206, 21, 0, 0, 0, 59, 4, 0, 0, 0, 1, 0, 0, 0, 2, 0, 0, 0, 3,
          0, 0, 0, 4, 0, 0, 0] ∧
    (packer_header.of_bytes (List.take 10 [1, 0, 201, 13, 151, 206, 21, 0, 0, 0, 59, 4])).length
      = 21 ∧
    (List.drop packer_header.size [1, 0, 201, 13, 151, 206, 21, 0, 0, 0, 59, 4]).length = 2 ∧
    crc32_checksum (List.drop packer_header.size [1, 0, 201, 13, 151, 206, 21, 0, 0, 0, 59, 4])
      21 = none ∧
    deserialize int_vector [1, 0, 201, 13, 151, 206, 21, 0, 0, 0, 59, 4] crc32_checksum
      = none :=
  ⟨by decide, by decide, by decide, by decide, rfl⟩

/-! ## CRC-32 detects a change of one byte (C10) -/

theorem CRC32_TABLE_getD (i : Nat) (h : i < 256) : CRC32_TABLE.getD i 0 = entry_crc32 i := by
  have hl : i < CRC32_TABLE.length := by simpa [CRC32_TABLE, generate_crc32_table] using h
  rw [List.getD_eq_getElem _ _ hl]
  simp [CRC32_TABLE, generate_crc32_table]

set_option maxRecDepth 100000 in
theorem entry_crc32_facts :
    ∀ i < 256, entry_crc32 i < 2 ^ 32 ∧
      crc32_index_of_top_byte.getD (entry_crc32 i / 2 ^ 24) 0 = i := by
  decide

theorem entry_crc32_top_injective (i j : Nat) (hi : i < 256) (hj : j < 256)
    (h : entry_crc32 i / 2 ^ 24 = entry_crc32 j / 2 ^ 24) : i = j := by
  have h1 := (entry_crc32_facts i hi).2
  have h2 := (entry_crc32_facts j hj).2
  rw [h] at h1
  rw [← h1, h2]

theorem shiftRight_xor (a b n : Nat) : (a ^^^ b) >>> n = (a >>> n) ^^^ (b >>> n) := by
  apply Nat.eq_of_testBit_eq
  intro i
  simp [Nat.testBit_shiftRight, Nat.testBit_xor]

theorem and_255 (x : Nat) : x &&& 0xFF = x % 256 :=
  Nat.and_pow_two_sub_one_eq_mod x 8

theorem crc32_update_eq (crc b : Nat) :
    crc32_update crc b = (crc / 256) ^^^ entry_crc32 ((crc ^^^ b) % 256) := by
  unfold crc32_update
  rw [and_255, CRC32_TABLE_getD _ (Nat.mod_lt _ (by decide)), Nat.shiftRight_eq_div_pow]

theorem crc32_update_lt (crc b : Nat) (h : crc < 2 ^ 32) : crc32_update crc b < 2 ^ 32 := by
  rw [crc32_update_eq]
  apply Nat.xor_lt_two_pow
  · omega
  · exact (entry_crc32_facts _ (Nat.mod_lt _ (by decide))).1

theorem crc32_update_top (crc b : Nat) (h : crc < 2 ^ 32) :
    crc32_update crc b / 2 ^ 24 = entry_crc32 ((crc ^^^ b) % 256) / 2 ^ 24 := by
  rw [crc32_update_eq, ← Nat.shiftRight_eq_div_pow, shiftRight_xor,
    Nat.shiftRight_eq_div_pow, Nat.shiftRight_eq_div_pow]
  have : crc / 256 / 2 ^ 24 = 0 := by omega
  rw [this, Nat.zero_xor]

theorem xor_mod_256 (a b : Nat) : (a ^^^ b) % 256 = (a % 256) ^^^ (b % 256) := by
  rw [← and_255, ← and_255, ← and_255, Nat.and_xor_distrib_right]

/-- Two states that the same byte sends to the same state are equal. -/
theorem crc32_update_state_injective (c₁ c₂ b : Nat) (h₁ : c₁ < 2 ^ 32) (h₂ : c₂ < 2 ^ 32)
    (h : crc32_update c₁ b = crc32_update c₂ b) : c₁ = c₂ := by
  have ht : entry_crc32 ((c₁ ^^^ b) % 256) / 2 ^ 24 = entry_crc32 ((c₂ ^^^ b) % 256) / 2 ^ 24 := by
    rw [← crc32_update_top c₁ b h₁, ← crc32_update_top c₂ b h₂, h]
  have hidx := entry_crc32_top_injective _ _ (Nat.mod_lt _ (by decide))
    (Nat.mod_lt _ (by decide)) ht
  rw [crc32_update_eq, crc32_update_eq, hidx] at h
  have hhigh : c₁ / 256 = c₂ / 256 := Nat.xor_left_injective h
  rw [xor_mod_256, xor_mod_256] at hidx
  have hlow : c₁ % 256 = c₂ % 256 := Nat.xor_left_injective hidx
  omega

/-- Two bytes that send the same state to the same state are equal. -/
theorem crc32_update_byte_injective (c b₁ b₂ : Nat) (h₁ : b₁ < 256) (h₂ : b₂ < 256)
    (h : crc32_update c b₁ = crc32_update c b₂) : b₁ = b₂ := by
  rw [crc32_update_eq, crc32_update_eq] at h
  have he : entry_crc32 ((c ^^^ b₁) % 256) = entry_crc32 ((c ^^^ b₂) % 256) :=
    Nat.xor_right_injective h
  have hidx := entry_crc32_top_injective ((c ^^^ b₁) % 256) ((c ^^^ b₂) % 256)
    (Nat.mod_lt _ (by decide)) (Nat.mod_lt _ (by decide)) (by rw [he])
  rw [xor_mod_256, xor_mod_256] at hidx
  have := Nat.xor_right_injective hidx
  omega

theorem crc32_state_lt (bytes : List Nat) : ∀ (crc : Nat), crc < 2 ^ 32 →
    crc32_state crc bytes < 2 ^ 32 := by
  induction bytes with
  | nil => intro crc h; exact h
  | cons b bs ih => intro crc h; exact ih _ (crc32_update_lt crc b h)

theorem crc32_state_injective (bytes : List Nat) : ∀ (c₁ c₂ : Nat), c₁ < 2 ^ 32 → c₂ < 2 ^ 32 →
    crc32_state c₁ bytes = crc32_state c₂ bytes → c₁ = c₂ := by
  induction bytes with
  | nil => intro c₁ c₂ _ _ h; exact h
  | cons b bs ih =>
      intro c₁ c₂ h₁ h₂ h
      exact crc32_update_state_injective c₁ c₂ b h₁ h₂
        (ih _ _ (crc32_update_lt c₁ b h₁) (crc32_update_lt c₂ b h₂) h)

theorem crc32_state_append (crc : Nat) (xs ys : List Nat) :
    crc32_state crc (xs ++ ys) = crc32_state (crc32_state crc xs) ys := by
  simp [crc32_state, List.foldl_append]

/-- Replacing one byte of a run of bytes by a different byte changes the final state. -/
theorem crc32_state_set_ne (bytes : List Nat) (j b crc : Nat) (hc : crc < 2 ^ 32)
    (hj : j < bytes.length) (hb : b < 256) (hold : bytes[j] < 256) (hne : b ≠ bytes[j]) :
    crc32_state crc (bytes.set j b) ≠ crc32_state crc bytes := by
  have hsplit : bytes = bytes.take j ++ bytes[j] :: bytes.drop (j + 1) := by
    rw [← List.drop_eq_getElem_cons hj, List.take_append_drop]
  have hset : bytes.set j b = bytes.take j ++ b :: bytes.drop (j + 1) := by
    rw [List.set_eq_take_append_cons_drop, if_pos hj]
  intro h
  rw [hset] at h
  conv at h => rhs; rw [hsplit]
  rw [crc32_state_append, crc32_state_append] at h
  have hs := crc32_state_lt (bytes.take j) crc hc
  have h' : crc32_update (crc32_state crc (List.take j bytes)) b
      = crc32_update (crc32_state crc (List.take j bytes)) bytes[j] :=
    crc32_state_injective (bytes.drop (j + 1)) _ _ (crc32_update_lt _ _ hs)
      (crc32_update_lt _ _ hs) h
  exact hne (crc32_update_byte_injective _ _ _ hb hold h')

theorem crc32_loop_eq (data : List Nat) : ∀ (n i crc : Nat), i + n ≤ data.length →
    crc32_loop data n i crc = some (crc32_state crc ((data.drop i).take n))
  | 0, i, crc, _ => by simp [crc32_loop, crc32_state]
  | n + 1, i, crc, h => by
      have hi : i < data.length := by omega
      have ih := crc32_loop_eq data n (i + 1) (crc32_update crc data[i]) (by omega)
      rw [crc32_loop, List.getElem?_eq_getElem hi]
      simp only [ih]
      rw [List.drop_eq_getElem_cons hi, List.take_succ_cons]
      rfl

theorem crc32_checksum_eq (data : List Nat) (n : Nat) (h : n ≤ data.length) :
    crc32_checksum data n = some (crc32_state 0xFFFFFFFF (data.take n) ^^^ 0xFFFFFFFF) := by
  simp [crc32_checksum, crc32_loop_eq data n 0 _ (by omega)]

/-- Two different states give different checksums, also after the conversion to
`std::uint32_t`. -/
theorem crc32_final_ne (s₁ s₂ : Nat) (h₁ : s₁ < 2 ^ 32) (h₂ : s₂ < 2 ^ 32) (h : s₁ ≠ s₂) :
    (s₁ ^^^ 0xFFFFFFFF) % 2 ^ 32 ≠ (s₂ ^^^ 0xFFFFFFFF) % 2 ^ 32 := by
  have hF : (0xFFFFFFFF : Nat) < 2 ^ 32 := by decide
  rw [Nat.mod_eq_of_lt (Nat.xor_lt_two_pow h₁ hF), Nat.mod_eq_of_lt (Nat.xor_lt_two_pow h₂ hF)]
  exact fun hc => h (Nat.xor_left_injective hc)

/-! ### The encoder writes bytes -/

theorem to_bytes_lt : ∀ (w n : Nat), ∀ x ∈ to_bytes w n, x < 256
  | 0, _, x, h => by simp [to_bytes] at h
  | w + 1, n, x, h => by
      simp only [to_bytes, List.mem_cons] at h
      rcases h with h | h
      · omega
      · exact to_bytes_lt w _ x h

theorem data_header.bytes_lt (h : data_header) : ∀ x ∈ h.bytes, x < 256 := by
  intro x hx
  simp only [data_header.bytes, List.mem_append] at hx
  rcases hx with hx | hx <;> exact to_bytes_lt _ _ x hx

theorem object_bytes_lt (T : Ty) (v : Val) (ht : has_type T v = true) :
    ∀ x ∈ object_bytes T v, x < 256 := by
  intro x hx
  cases T <;> cases v <;> simp [object_bytes] at hx
  · exact to_bytes_lt _ _ x hx
  · simp only [has_type, Bool.and_eq_true, List.all_eq_true, decide_eq_true_eq] at ht
    exact ht.2 x hx

theorem eq_of_is_byte_vector (T : Ty) (h : T.is_byte_vector = true) :
    T = .container .byte_vector (.scalar .byte8) := by
  unfold Ty.is_byte_vector at h
  split at h
  · rfl
  · cases h

theorem vector_bytes_lt (v : Val)
    (ht : has_type (.container .byte_vector (.scalar .byte8)) v = true) :
    ∀ x ∈ vector_bytes v, x < 256 := by
  cases v with
  | list xs =>
      simp only [has_type, Bool.and_eq_true, List.all_eq_true] at ht
      intro x hx
      simp only [vector_bytes, List.mem_flatMap] at hx
      obtain ⟨y, hy, hxy⟩ := hx
      exact object_bytes_lt (.scalar .byte8) y (ht.1 y hy) x hxy
  | scalar _ => simp [has_type] at ht
  | pod _ => simp [has_type] at ht
  | pair _ _ => simp [has_type] at ht
  | variant _ _ => simp [has_type] at ht
  | tuple _ => simp [has_type] at ht

theorem written_lt_of (T : Ty) (v : Val) (ht : has_type T v = true)
    (h : ∀ x ∈ encoded T v, x < 256) : ∀ x ∈ written T v, x < 256 := by
  cases hb : T.is_byte_vector with
  | true =>
      rw [written_of_byte_vector T v hb]
      rw [eq_of_is_byte_vector T hb] at ht
      exact vector_bytes_lt v ht
  | false =>
      cases hc : T.is_trivially_copyable with
      | true => rw [written_of_trivially_copyable T v hc]; exact object_bytes_lt T v ht
      | false => rw [written_of_not_trivially_copyable T v hc hb]; exact h

mutual
theorem encoded_lt : ∀ (T : Ty) (v : Val), has_type T v = true → ∀ x ∈ encoded T v, x < 256
  | .scalar k, v, ht => by
      rw [encoded_scalar]; exact object_bytes_lt _ _ ht
  | .pod n, v, ht => by
      rw [encoded_pod]
      intro x hx
      rcases List.mem_append.mp hx with hx | hx
      · exact data_header.bytes_lt _ x hx
      · exact object_bytes_lt _ _ ht x hx
  | .pair a b, .pair x y, ht => by
      simp only [has_type, Bool.and_eq_true] at ht
      rw [encoded_pair]
      intro z hz
      simp only [List.mem_append] at hz
      rcases hz with hz | hz | hz
      · exact data_header.bytes_lt _ z hz
      · exact written_lt_of a x ht.1 (encoded_lt a x ht.1) z hz
      · exact written_lt_of b y ht.2 (encoded_lt b y ht.2) z hz
  | .variant ts, .variant i x, ht => by
      simp only [has_type, Bool.and_eq_true] at ht
      rw [encoded_variant]
      intro z hz
      simp only [List.mem_append] at hz
      rcases hz with hz | hz | hz
      · exact data_header.bytes_lt _ z hz
      · exact to_bytes_lt _ _ z hz
      · exact written_alternative_lt ts i x ht.2 z hz
  | .tuple ts, .tuple xs, ht => by
      simp only [has_type, Bool.and_eq_true] at ht
      rw [encoded_tuple]
      intro z hz
      simp only [List.mem_append] at hz
      rcases hz with hz | hz
      · exact data_header.bytes_lt _ z hz
      · exact written_all_lt ts xs ht.2 z hz
  | .container k e, .list xs, ht => by
      simp only [has_type, Bool.and_eq_true, List.all_eq_true] at ht
      rw [encoded_container]
      intro z hz
      simp only [List.mem_append, List.mem_flatMap] at hz
      rcases hz with hz | ⟨x, hx, hz⟩
      · exact data_header.bytes_lt _ z hz
      · exact written_lt_of e x (ht.1 x hx) (encoded_lt e x (ht.1 x hx)) z hz
  | .pair _ _, .scalar _, ht | .pair _ _, .pod _, ht | .pair _ _, .variant _ _, ht
  | .pair _ _, .tuple _, ht | .pair _ _, .list _, ht => by simp [has_type] at ht
  | .variant _, .scalar _, ht | .variant _, .pod _, ht | .variant _, .pair _ _, ht
  | .variant _, .tuple _, ht | .variant _, .list _, ht => by simp [has_type] at ht
  | .tuple _, .scalar _, ht | .tuple _, .pod _, ht | .tuple _, .pair _ _, ht
  | .tuple _, .variant _ _, ht | .tuple _, .list _, ht => by simp [has_type] at ht
  | .container _ _, .scalar _, ht | .container _ _, .pod _, ht | .container _ _, .pair _ _, ht
  | .container _ _, .variant _ _, ht | .container _ _, .tuple _, ht => by
      simp [has_type] at ht
theorem written_alternative_lt : ∀ (ts : List Ty) (i : Nat) (x : Val),
    has_type_alternative ts i x = true → ∀ z ∈ written_alternative ts i x, z < 256
  | [], _, _, ht => by simp [has_type_alternative] at ht
  | t :: _, 0, x, ht => by
      simp only [has_type_alternative] at ht
      rw [written_alternative_zero]
      exact written_lt_of t x ht (encoded_lt t x ht)
  | _ :: ts, i + 1, x, ht => by
      simp only [has_type_alternative] at ht
      rw [written_alternative_succ]
      exact written_alternative_lt ts i x ht
theorem written_all_lt : ∀ (ts : List Ty) (xs : List Val),
    has_type_all ts xs = true → ∀ z ∈ written_all ts xs, z < 256
  | [], [], _ => by simp [written_all_nil]
  | [], _ :: _, ht => by simp [has_type_all] at ht
  | _ :: _, [], ht => by simp [has_type_all] at ht
  | t :: ts, x :: xs, ht => by
      simp only [has_type_all, Bool.and_eq_true] at ht
      rw [written_all_cons]
      intro z hz
      rcases List.mem_append.mp hz with hz | hz
      · exact written_lt_of t x ht.1 (encoded_lt t x ht.1) z hz
      · exact written_all_lt ts xs ht.2 z hz
end

/-- C10, amended: for every value `v` whose encoded payload is shorter than `2 ^ 32` bytes,
with `P = serialize(v, crc32_checksum)`, for every index `i` inside the payload part of `P`
and every byte `b` different from `P[i]`, `deserialize<T>` applied to `P` with byte `i`
replaced by `b`, under `crc32_checksum`, returns the default-constructed `T`. -/
theorem checksum_rejection (T : Ty) (v : Val) (P : List Nat) (i b : Nat)
    (ht : has_type T v = true) (hlen : (encoded T v).length < 2 ^ 32)
    (hs : serialize T v crc32_checksum = some P)
    (hlo : packer_header.size ≤ i) (hhi : i < P.length) (hb : b < 256)
    (hne : P[i]? ≠ some b) :
    deserialize T (P.set i b) crc32_checksum = some (default_value T) := by
  obtain ⟨crc, hc, hP⟩ := serialize_eq_some T v crc32_checksum P hs
  subst hP
  have hph := packer_header.length_packed
    (packer_header.mk VERSION (crc % 2 ^ 32) ((encoded T v).length % 2 ^ 32))
  rw [packer_header.size] at hlo
  rw [List.length_append, hph] at hhi
  have hj : i - 10 < (encoded T v).length := by omega
  rw [List.getElem?_append_right (by omega), hph, List.getElem?_eq_getElem hj] at hne
  have hold : (encoded T v)[i - 10] < 256 := encoded_lt T v ht _ (List.getElem_mem hj)
  have hstate := crc32_state_set_ne (encoded T v) (i - 10) b 0xFFFFFFFF (by decide) hj hb hold
    (fun h => hne (by rw [h]))
  rw [crc32_checksum_eq _ _ (le_refl _), List.take_length, Option.some.injEq] at hc
  rw [List.set_append, if_neg (by omega), hph, deserialize_envelope T _ _ _ VERSION_stored]
  simp only [Nat.mod_mod, Nat.mod_eq_of_lt hlen]
  have hlen' : ((encoded T v).set (i - 10) b).length = (encoded T v).length :=
    List.length_set _ _ _
  rw [crc32_checksum_eq _ _ (by rw [hlen']), ← hlen', List.take_length]
  simp only []
  rw [if_pos]
  rw [← hc]
  exact crc32_final_ne _ _ (crc32_state_lt _ _ (by decide)) (crc32_state_lt _ _ (by decide))
    hstate

/-- C10, witness: the envelope of the vector `{1, 2, 3, 4}` under `crc32_checksum`, with
the first payload byte behind the data header (index 15, value 1) replaced by 9. -/
theorem checksum_rejection_witness :
    has_type int_vector one_to_four = true ∧
    (encoded int_vector one_to_four).length < 2 ^ 32 ∧
    serialize int_vector one_to_four crc32_checksum
      = some [1, 0, 201, 13, 151, 206, 21, 0, 0, 0, 59, 4, 0, 0, 0, 1, 0, 0, 0, 2, 0, 0, 0, 3,
          0, 0, 0, 4, 0, 0, 0] ∧
    packer_header.size ≤ 15 ∧
    15 < [1, 0, 201, 13, 151, 206, 21, 0, 0, 0, 59, 4, 0, 0, 0, 1, 0, 0, 0, 2, 0, 0, 0, 3,
          0, 0, 0, 4, 0, 0, 0].length ∧
    9 < 256 ∧
    [1, 0, 201, 13, 151, 206, 21, 0, 0, 0, 59, 4, 0, 0, 0, 1, 0, 0, 0, 2, 0, 0, 0, 3,
          0, 0, 0, 4, 0, 0, 0][15]? ≠ some 9 ∧
    deserialize int_vector
        (List.set [1, 0, 201, 13, 151, 206, 21, 0, 0, 0, 59, 4, 0, 0, 0, 1, 0, 0, 0, 2, 0, 0, 0,
          3, 0, 0, 0, 4, 0, 0, 0] 15 9) crc32_checksum
      = some (default_value int_vector) :=
  ⟨by decide, by decide, by decide, by decide, by decide, by decide, by decide,
    checksum_rejection int_vector one_to_four _ 15 9 (by decide) (by decide) (by decide)
      (by decide) (by decide) (by decide) (by decide)⟩

/-! ### Beyond the range of the length field -/

theorem flatMap_written_zero_bytes (n : Nat) :
    (List.replicate n (Val.scalar 0)).flatMap (written (.scalar .byte8)) = List.replicate n 0 := by
  induction n with
  | zero => rfl
  | succ n ih =>
      rw [List.replicate_succ, List.flatMap_cons, ih, List.replicate_succ]
      rfl

theorem crc32_state_zeros (n : Nat) : crc32_state 0 (List.replicate n 0) = 0 := by
  induction n with
  | zero => rfl
  | succ n ih =>
      rw [List.replicate_succ, crc32_state, List.foldl_cons]
      have h0 : crc32_update 0 0 = 0 := by decide
      rw [h0]
      exact ih

theorem encoded_steered_vector :
    encoded byte_vector steered_vector
      = encoded byte_vector (.list steering_bytes) ++ List.replicate wrapped_length 0 := by
  unfold byte_vector steered_vector
  rw [encoded_container, encoded_container, List.flatMap_append, flatMap_written_zero_bytes,
    List.length_append, List.length_replicate, ← List.append_assoc]
  rfl

theorem crc32_state_steering :
    crc32_state 0xFFFFFFFF (encoded byte_vector (.list steering_bytes)) = 0 := by
  decide

theorem length_encoded_steering : (encoded byte_vector (.list steering_bytes)).length = 9 := by
  decide

theorem serialize_of_checksum (T : Ty) (v : Val) (c : checksum_fn) (crc : Nat)
    (h : c (encoded T v) (encoded T v).length = some crc) :
    serialize T v c
      = some ((packer_header.mk VERSION (crc % 2 ^ 32) ((encoded T v).length % 2 ^ 32)).bytes
          ++ encoded T v) := by
  have hV : VERSION % 65536 = VERSION := by decide
  unfold encoded at h
  simp [serialize, h, bytes_writer.write_raw, packer_header.set_version, encoded, hV]

theorem serialize_steered_vector :
    serialize byte_vector steered_vector crc32_checksum = some steered_envelope := by
  have hc : crc32_checksum (encoded byte_vector steered_vector)
      (encoded byte_vector steered_vector).length = some 0xFFFFFFFF := by
    rw [crc32_checksum_eq _ _ (le_refl _), List.take_length, encoded_steered_vector,
      crc32_state_append, crc32_state_steering, crc32_state_zeros]
    rfl
  have hl : (encoded byte_vector steered_vector).length % 2 ^ 32 = 9 := by
    rw [encoded_steered_vector, List.length_append, length_encoded_steering,
      List.length_replicate]
    decide
  rw [serialize_of_checksum _ _ _ _ hc, hl, encoded_steered_vector, ← List.append_assoc]
  rfl

/-- Bytes behind the declared payload are neither covered by the checksum nor read by the
decoder. -/
theorem deserialize_ignores_trailing_bytes (T : Ty) (v : Val) (crc : Nat) (rest : List Nat)
    (hdec : T.decodable = true) (hp : T.plain_nesting = true)
    (ht : has_type T v = true) (hf : wire_fits T v = true)
    (hlen : (encoded T v).length < 2 ^ 32)
    (hc : crc32_checksum (encoded T v) (encoded T v).length = some crc) :
    deserialize T
        ((packer_header.mk VERSION (crc % 2 ^ 32) (encoded T v).length).bytes
          ++ (encoded T v ++ rest)) crc32_checksum = some v := by
  rw [deserialize_envelope T _ _ _ VERSION_stored]
  simp only [Nat.mod_eq_of_lt hlen]
  rw [crc32_checksum_eq _ _ (le_refl _), List.take_length, Option.some.injEq] at hc
  rw [crc32_checksum_eq _ _ (by simp), List.take_left]
  simp only [hc, Nat.mod_mod, ne_eq, not_true_eq_false, if_false]
  have h := deserialize_serialize T v ht hf hdec hp
    { m_data := (packer_header.mk VERSION (crc % 2 ^ 32) (encoded T v).length).bytes
        ++ (encoded T v ++ rest), m_pos := 10 } rest
    (by simp only [drop_envelope])
  simp only [] at h
  rw [h]; rfl

/-- C10, counterexample: the byte vector `steered_vector` has `4 + 2 ^ 32` elements, so its
payload has `9 + 2 ^ 32` bytes and the envelope stores the payload length 9.  Replacing the
zero byte at index 19 of the envelope (inside the payload) by 1 is not detected:
`deserialize` computes the CRC-32 of the first 9 payload bytes only, which equals the
stored checksum, and returns the vector of the four steering bytes, not the empty
vector. -/
theorem checksum_rejection_fails_beyond_length_field :
    has_type byte_vector steered_vector = true ∧
    serialize byte_vector steered_vector crc32_checksum = some steered_envelope ∧
    packer_header.size ≤ 19 ∧ 19 < steered_envelope.length ∧
    steered_envelope[19]? = some 0 ∧
    deserialize byte_vector (steered_envelope.set 19 1) crc32_checksum
      = some (.list steering_bytes) ∧
    Val.list steering_bytes ≠ default_value byte_vector := by
  have hw : 0 < wrapped_length := by decide
  refine ⟨?_, serialize_steered_vector, by decide, ?_, ?_, ?_, by
    simp [default_value, byte_vector, steering_bytes]⟩
  · simp only [byte_vector, steered_vector, has_type, List.all_append, Bool.and_eq_true,
      List.all_eq_true]
    refine ⟨⟨by decide, ?_⟩, rfl⟩
    intro x hx
    rw [List.eq_of_mem_replicate hx]
    decide
  · rw [steered_envelope, List.length_append, List.length_replicate]
    simp only [List.length_cons, List.length_nil]
    omega
  · rw [steered_envelope, List.getElem?_append_right (by simp)]
    simp only [List.length_cons, List.length_nil, Nat.sub_self]
    rw [List.getElem?_replicate, if_pos hw]
  · have hset : steered_envelope.set 19 1
        = (packer_header.mk VERSION (0xFFFFFFFF % 2 ^ 32)
            (encoded byte_vector (.list steering_bytes)).length).bytes
          ++ (encoded byte_vector (.list steering_bytes)
            ++ (List.replicate wrapped_length 0).set 0 1) := by
      rw [steered_envelope, List.set_append, if_neg (by simp), ← List.append_assoc]
      rfl
    rw [hset]
    exact deserialize_ignores_trailing_bytes byte_vector (.list steering_bytes) 0xFFFFFFFF _
      (by decide) (by decide) (by decide) (by decide) (by decide) (by decide)

/-! ## Version check (C11) -/

/-- C11: for every byte vector whose first two bytes, read as the `uint16_t` version field,
differ from `VERSION`, `deserialize<T>` returns the default-constructed `T`, whatever the
rest of the input, the target type and the checksum function (which is not called). -/
theorem version_rejection (T : Ty) (data : List Nat) (c : checksum_fn)
    (h : from_bytes (data.take 2) ≠ VERSION) :
    deserialize T data c = some (default_value T) := by
  by_cases hl : data.length < 10
  · exact deserialize_short T data c hl
  · have hr : bytes_reader.read_raw { m_data := data, m_pos := 0 } 10
        = (some (data.take 10), { m_data := data, m_pos := 0 + 10 }) := by
      simp [bytes_reader.read_raw, bytes_reader.can_read, bytes_reader.remaining]
      omega
    have hv : (packer_header.of_bytes (data.take 10)).version = from_bytes (data.take 2) := by
      simp [packer_header.of_bytes, List.take_take]
    simp [deserialize, bytes_reader.read_packer_header, packer_header.size, hr, hv, h]

/-- C11, witness: an envelope of the vector `{1, 2, 3, 4}` whose version bytes are `02 00`. -/
theorem version_rejection_witness :
    from_bytes (List.take 2 [2, 0, 0, 0, 0, 0, 21, 0, 0, 0, 59, 4, 0, 0, 0, 1, 0, 0, 0, 2, 0, 0,
      0, 3, 0, 0, 0, 4, 0, 0, 0]) ≠ VERSION ∧
    deserialize int_vector [2, 0, 0, 0, 0, 0, 21, 0, 0, 0, 59, 4, 0, 0, 0, 1, 0, 0, 0, 2, 0, 0,
      0, 3, 0, 0, 0, 4, 0, 0, 0] empty_checksum = some (default_value int_vector) :=
  ⟨by decide, version_rejection int_vector _ empty_checksum (by decide)⟩

/-! ## The index of a variant (C12) -/

/-- The table of `deserialize_variant_impl` has one entry per alternative: an index that is
not below the number of alternatives selects no entry. -/
theorem deserialize_variant_impl_out_of_range : ∀ (ts : List Ty) (index : Nat) (r : bytes_reader),
    ts.length ≤ index → detail.deserialize_variant_impl ts index r = none
  | [], _, _, _ => by simp [detail.deserialize_variant_impl]
  | _ :: _, 0, _, h => by simp at h
  | _ :: ts, i + 1, r, h => by
      rw [detail.deserialize_variant_impl]
      exact deserialize_variant_impl_out_of_range ts i r (by simpa using h)

/-- The variant decoder on a data header with the declared number of alternatives followed
by an index: an index above the number of alternatives yields the default variant, an index
equal to it passes the test `_index > _header.length` and is dispatched. -/
theorem deserialize_variant_of_index (ts : List Ty) (type index : Nat) (r : bytes_reader)
    (rest : List Nat) (hN : ts.length < 2 ^ 32) (hi : index < 2 ^ 32)
    (hd : r.m_data.drop r.m_pos
      = (data_header.mk type ts.length).bytes ++ (to_bytes 4 index ++ rest)) :
    deserialize_object (.variant ts) r =
      if index > ts.length then
        some (default_value (.variant ts), { m_data := r.m_data, m_pos := r.m_pos + 5 + 4 })
      else
        match detail.deserialize_variant_impl ts index
            { m_data := r.m_data, m_pos := r.m_pos + 5 + 4 } with
        | none => none
        | some (x, reader) => some (.variant index x, reader) := by
  have hh := r.read_header_of_drop _ _ hd
  have h1 := r.drop_advance _ _ hd
  rw [data_header.length_bytes] at h1
  have hu := bytes_reader.read_uint32_of_drop { m_data := r.m_data, m_pos := r.m_pos + 5 }
    index rest h1
  simp only [deserialize_object, hh, data_header.stored, Nat.mod_eq_of_lt hN, ne_eq,
    not_true_eq_false, if_false, hu, Nat.mod_eq_of_lt hi]

/-- C12, the code at the failing input: the target is the variant `<int32, char>` with two
alternatives and the input holds a data header with length 2 followed by the index 2.  The
test `_index > _header.length` lets the index pass and `_table[2]` is called, an entry
that does not exist: the call has no defined result.  The index 3 is refused. -/
theorem variant_index_equal_to_count_is_dispatched :
    deserialize_object (.variant [.scalar .byte32, .scalar .byte8])
        { m_data := [57, 2, 0, 0, 0, 2, 0, 0, 0, 5, 0, 0, 0], m_pos := 0 } = none ∧
    (deserialize_object (.variant [.scalar .byte32, .scalar .byte8])
        { m_data := [57, 2, 0, 0, 0, 3, 0, 0, 0, 5, 0, 0, 0], m_pos := 0 }).map Prod.fst
      = some (default_value (.variant [.scalar .byte32, .scalar .byte8])) :=
  ⟨rfl, rfl⟩

/-! ## The main type of the data header (C13) -/

/-- C13, counterexample: three targets that carry a data header accept a header of another
main type.  The bytes of the pair `(1, 2)` of two bytes decode, at the tuple type of two
bytes, to the tuple `(1, 2)`; a header of main type `tuple` with length 2, the index 1 and
the byte 7 decode, at the variant `<int32, char>`, to the variant holding the char 7; a
header of main type `pair` with length 3 and three bytes decode, at a POD type of three
bytes, to that record.  None of the three results is the default value. -/
theorem main_type_not_checked_for_tuple_variant_pod :
    (data_header.get_main_type { type := 8, length := 2 } ≠ d_tuple ∧
      deserialize_object (.tuple [.scalar .byte8, .scalar .byte8])
          { m_data := [8, 2, 0, 0, 0, 1, 2], m_pos := 0 }
        = some (.tuple [.scalar 1, .scalar 2], { m_data := [8, 2, 0, 0, 0, 1, 2], m_pos := 7 }) ∧
      Val.tuple [.scalar 1, .scalar 2]
        ≠ default_value (.tuple [.scalar .byte8, .scalar .byte8])) ∧
    (data_header.get_main_type { type := 10, length := 2 } ≠ d_variant ∧
      deserialize_object (.variant [.scalar .byte32, .scalar .byte8])
          { m_data := [10, 2, 0, 0, 0, 1, 0, 0, 0, 7], m_pos := 0 }
        = some (.variant 1 (.scalar 7),
            { m_data := [10, 2, 0, 0, 0, 1, 0, 0, 0, 7], m_pos := 10 }) ∧
      Val.variant 1 (.scalar 7)
        ≠ default_value (.variant [.scalar .byte32, .scalar .byte8])) ∧
    (data_header.get_main_type { type := 8, length := 3 } ≠ d_pod ∧
      deserialize_object (.pod 3) { m_data := [8, 3, 0, 0, 0, 1, 2, 3], m_pos := 0 }
        = some (.pod [1, 2, 3], { m_data := [8, 3, 0, 0, 0, 1, 2, 3], m_pos := 8 }) ∧
      Val.pod [1, 2, 3] ≠ default_value (.pod 3)) :=
  ⟨⟨by decide, rfl, by simp [default_value, default_value_all]⟩,
    ⟨by decide, rfl, by simp [default_value]⟩,
    ⟨by decide, rfl, by simp [default_value]⟩⟩

/-- C13, amended: for every pair, sequence-container or associative-container target and
every input whose data header (the default header, when fewer than five bytes are left) has
a main-type nibble different from the category code of the target, `deserialize_object`
returns the default-constructed target value and leaves the source behind the header. -/
theorem main_type_mismatch (T : Ty) (r : bytes_reader) (hT : T.checks_main_type = true)
    (hm : r.read_header.1.get_main_type ≠ get_data_type T) :
    deserialize_object T r = some (default_value T, r.read_header.2) := by
  cases T with
  | scalar k => simp [Ty.checks_main_type] at hT
  | pod n => simp [Ty.checks_main_type] at hT
  | variant ts => simp [Ty.checks_main_type] at hT
  | tuple ts => simp [Ty.checks_main_type] at hT
  | pair a b =>
      have hm' : ¬ r.read_header.1.get_main_type = d_pair := by simpa [get_data_type] using hm
      simp [deserialize_object, hm']
  | container k e =>
      cases k with
      | sequence =>
          have hm' : ¬ r.read_header.1.get_main_type = d_seq_container := by
            simpa [get_data_type, is_sequence_container] using hm
          simp [deserialize_object, is_standard_container, hm', default_value]
      | byte_vector =>
          have hm' : ¬ r.read_header.1.get_main_type = d_seq_container := by
            simpa [get_data_type, is_sequence_container] using hm
          simp [deserialize_object, is_standard_container, hm', default_value]
      | associated a =>
          have hm' : ¬ r.read_header.1.get_main_type = d_aso_container := by
            simpa [get_data_type, is_sequence_container, is_associated_container] using hm
          simp [deserialize_object, is_standard_container, hm', default_value]
      | fixed n => simp [Ty.checks_main_type] at hT
      | forward_only => simp [Ty.checks_main_type] at hT

/-- C13, witness: the bytes of the tuple `(1, 2)` of two bytes, decoded at the type of a pair
of two bytes. -/
theorem main_type_mismatch_witness :
    (Ty.pair (.scalar .byte8) (.scalar .byte8)).checks_main_type = true ∧
    (bytes_reader.read_header { m_data := [10, 2, 0, 0, 0, 1, 2], m_pos := 0 }).1.get_main_type
      ≠ get_data_type (.pair (.scalar .byte8) (.scalar .byte8)) ∧
    deserialize_object (.pair (.scalar .byte8) (.scalar .byte8))
        { m_data := [10, 2, 0, 0, 0, 1, 2], m_pos := 0 }
      = some (default_value (.pair (.scalar .byte8) (.scalar .byte8)),
          (bytes_reader.read_header { m_data := [10, 2, 0, 0, 0, 1, 2], m_pos := 0 }).2) :=
  ⟨by decide, by decide, main_type_mismatch _ _ (by decide) (by decide)⟩

/-! ## The two container families (C14) -/

theorem length_consecutive_entries : ∀ (count start : Nat),
    (consecutive_entries start count).length = count
  | 0, _ => rfl
  | count + 1, start => by
      rw [consecutive_entries, List.length_cons, length_consecutive_entries count (start + 1)]

theorem mem_consecutive_entries : ∀ (count start : Nat) (x : Val),
    x ∈ consecutive_entries start count →
      ∃ k, start ≤ k ∧ k < start + count ∧ x = .pair (.scalar k) (.scalar 0)
  | 0, _, _, h => by simp [consecutive_entries] at h
  | count + 1, start, x, h => by
      rw [consecutive_entries, List.mem_cons] at h
      rcases h with h | h
      · exact ⟨start, Nat.le_refl _, by omega, h⟩
      · obtain ⟨k, h1, h2, h3⟩ := mem_consecutive_entries count (start + 1) x h
        exact ⟨k, by omega, by omega, h3⟩

theorem keys_distinct_consecutive_entries : ∀ (count start : Nat),
    keys_distinct .map (consecutive_entries start count) = true
  | 0, _ => rfl
  | count + 1, start => by
      rw [consecutive_entries, keys_distinct, keys_distinct_consecutive_entries count (start + 1),
        Bool.and_true, List.all_eq_true]
      intro y hy
      obtain ⟨k, h1, _, h3⟩ := mem_consecutive_entries count (start + 1) y hy
      subst h3
      have hne : ¬ start = k := by omega
      simp [aso_kind.key, Val.beq, hne]

theorem has_type_consecutive_entries (count start : Nat) (h : start + count ≤ 2 ^ 32) :
    has_type word_to_byte_map (.list (consecutive_entries start count)) = true := by
  simp only [word_to_byte_map, has_type, container_invariant,
    keys_distinct_consecutive_entries, Bool.or_true, Bool.and_true, List.all_eq_true]
  intro x hx
  obtain ⟨k, _, h2, h3⟩ := mem_consecutive_entries count start x hx
  subst h3
  have hk : k < 4294967296 := by omega
  simp [has_type, scalar_kind.size, hk]

theorem has_type_full_map : has_type word_to_byte_map full_map = true :=
  has_type_consecutive_entries wrapped_length 0 (by decide)

theorem full_map_ne_nil : full_map ≠ .list [] := by
  intro h
  have h1 : consecutive_entries 0 wrapped_length = [] := by
    simpa only [full_map, Val.list.injEq] using h
  have h2 := congrArg List.length h1
  rw [length_consecutive_entries] at h2
  exact absurd h2 (by decide)

/-- Decoding an associative container from a data header whose stored length is 0: nothing
is read and the container stays empty. -/
theorem deserialize_associated_of_wrapped (a : aso_kind) (e : Ty) (n : Nat)
    (hn : n % 2 ^ 32 = 0) (r : bytes_reader) (rest : List Nat)
    (hd : r.m_data.drop r.m_pos = (container_header (.associated a) e n).bytes ++ rest) :
    deserialize_object (.container (.associated a) e) r
      = some (.list [], { m_data := r.m_data, m_pos := r.m_pos + 5 }) := by
  have hh := r.read_header_of_drop _ rest hd
  have hl : (container_header (.associated a) e n).stored.length = 0 := by
    simp only [container_header, data_header.stored]
    omega
  simp only [deserialize_object, is_standard_container, if_true, hh, hl, read_elements]
  split <;> rfl

/-- The length field of a container has 32 bits: the map from `uint32_t` to `uint8_t` that
holds each of the `2 ^ 32` keys once has distinct keys, yet `deserialize` at its type applied to `serialize` of it
returns the empty map: the number of entries is stored as
`static_cast<std::uint32_t>(object.size())`, which is 0. -/
theorem map_roundtrip_fails_for_wrapped_length :
    has_type word_to_byte_map full_map = true ∧
    ∃ P, serialize word_to_byte_map full_map empty_checksum = some P ∧
      deserialize word_to_byte_map P empty_checksum = some (.list []) ∧
      Val.list [] ≠ full_map := by
  refine ⟨has_type_full_map, _, serialize_empty_checksum _ _, ?_,
    fun hc => full_map_ne_nil hc.symm⟩
  rw [deserialize_envelope _ _ _ _ VERSION_stored]
  have h := deserialize_associated_of_wrapped .map (.pair (.scalar .byte32) (.scalar .byte8))
    wrapped_length (by decide)
    { m_data := (packer_header.mk VERSION 0
        ((encoded word_to_byte_map full_map).length % 2 ^ 32)).bytes
        ++ encoded word_to_byte_map full_map, m_pos := 10 }
    ((consecutive_entries 0 wrapped_length).flatMap
      (written (.pair (.scalar .byte32) (.scalar .byte8))))
    (by
      simp only [drop_envelope]
      rw [full_map, word_to_byte_map, encoded_container, length_consecutive_entries])
  simp only [empty_checksum, ne_eq, not_true_eq_false, if_false]
  rw [word_to_byte_map] at h ⊢
  rw [h]; rfl

/-- The round trip of maps whose keys and values keep clear of the overload of the sink:
for every map type whose key and value types the decoder can fill, neither of them a
`std::vector<uint8_t>` or a raw aggregate or holding one, every arrangement `order` of the
entries of a map with distinct keys in which the encoder may iterate, with fewer than
`2 ^ 32` entries, every container length and POD size inside below `2 ^ 32` and an encoded
payload shorter than `2 ^ 32` bytes, and for every checksum function `c`: `deserialize` at
the map type applied to `serialize(m, c)` returns a map that holds exactly the entries of
`m`. -/
theorem map_roundtrip (K V : Ty) (entries order : List Val) (c : checksum_fn) (P : List Nat)
    (hdec : (Ty.pair K V).decodable = true) (hpl : (Ty.pair K V).plain_nesting = true)
    (hp : order.Perm entries)
    (ht : has_type (.container (.associated .map) (.pair K V)) (.list order) = true)
    (hf : wire_fits (.container (.associated .map) (.pair K V)) (.list order) = true)
    (hlen : (encoded (.container (.associated .map) (.pair K V)) (.list order)).length < 2 ^ 32)
    (hs : serialize (.container (.associated .map) (.pair K V)) (.list order) c = some P) :
    ∃ result, deserialize (.container (.associated .map) (.pair K V)) P c
        = some (.list result) ∧ result.Perm entries := by
  refine ⟨order, ?_, hp⟩
  obtain ⟨crc, hc, hP⟩ := serialize_eq_some _ _ c P hs
  rw [hP, deserialize_envelope _ c _ _ VERSION_stored]
  simp only [Nat.mod_mod, Nat.mod_eq_of_lt hlen, hc, ne_eq, not_true_eq_false, if_false]
  have h := deserialize_serialize _ _ ht hf (by simpa [Ty.decodable] using hdec)
    (by
      rw [Ty.plain_nesting, hpl]
      rfl)
    { m_data := (packer_header.mk VERSION (crc % 2 ^ 32)
        ((encoded (.container (.associated .map) (.pair K V)) (.list order)).length)).bytes
        ++ encoded (.container (.associated .map) (.pair K V)) (.list order), m_pos := 10 } []
    (by simp only [List.append_nil, drop_envelope])
  simp only [] at h
  rw [h]; rfl

/-- The map `{"Jacky": 68, "Element": 97, "Bob": 45}` of `association_container_example`,
iterated by the encoder in the order Bob, Jacky, Element, and read back. -/
theorem map_roundtrip_witness :
    (Ty.pair (.container .sequence (.scalar .byte8)) (.scalar .byte32)).decodable = true ∧
    (Ty.pair (.container .sequence (.scalar .byte8)) (.scalar .byte32)).plain_nesting = true ∧
    [score_of_bob, score_of_jacky, score_of_element].Perm
      [score_of_jacky, score_of_element, score_of_bob] ∧
    has_type score_map (.list [score_of_bob, score_of_jacky, score_of_element]) = true ∧
    wire_fits score_map (.list [score_of_bob, score_of_jacky, score_of_element]) = true ∧
    (encoded score_map (.list [score_of_bob, score_of_jacky, score_of_element])).length
      < 2 ^ 32 ∧
    serialize score_map (.list [score_of_bob, score_of_jacky, score_of_element]) empty_checksum
      = some [1, 0, 0, 0, 0, 0, 62, 0, 0, 0, 140, 3, 0, 0, 0, 8, 2, 0, 0, 0, 27, 3, 0, 0, 0, 66,
        111, 98, 45, 0, 0, 0, 8, 2, 0, 0, 0, 27, 5, 0, 0, 0, 74, 97, 99, 107, 121, 68, 0, 0, 0,
        8, 2, 0, 0, 0, 27, 7, 0, 0, 0, 69, 108, 101, 109, 101, 110, 116, 97, 0, 0, 0] ∧
    ∃ result, deserialize score_map
        [1, 0, 0, 0, 0, 0, 62, 0, 0, 0, 140, 3, 0, 0, 0, 8, 2, 0, 0, 0, 27, 3, 0, 0, 0, 66,
          111, 98, 45, 0, 0, 0, 8, 2, 0, 0, 0, 27, 5, 0, 0, 0, 74, 97, 99, 107, 121, 68, 0, 0, 0,
          8, 2, 0, 0, 0, 27, 7, 0, 0, 0, 69, 108, 101, 109, 101, 110, 116, 97, 0, 0, 0]
        empty_checksum = some (.list result) ∧
      result.Perm [score_of_jacky, score_of_element, score_of_bob] :=
  ⟨by decide, by decide,
    (List.perm_append_comm : ([score_of_bob] ++ [score_of_jacky, score_of_element]).Perm
      ([score_of_jacky, score_of_element] ++ [score_of_bob])),
    by decide, by decide, by decide, by decide,
    map_roundtrip (.container .sequence (.scalar .byte8)) (.scalar .byte32)
      [score_of_jacky, score_of_element, score_of_bob]
      [score_of_bob, score_of_jacky, score_of_element] empty_checksum _ (by decide)
      (by decide)
      (List.perm_append_comm : ([score_of_bob] ++ [score_of_jacky, score_of_element]).Perm
        ([score_of_jacky, score_of_element] ++ [score_of_bob]))
      (by decide) (by decide) (by decide) (by decide)⟩

/-! ## Ranges without a size (C16) -/

/-- C16, counterexample, in two parts.  A forward list of `2 ^ 32` zero bytes: the data
header `serialize_object` writes for it reads back with length 0, not `2 ^ 32` (the counter
`_size` is a `std::uint32_t`), and decoding the bytes into a deque of bytes yields the empty
deque, not the elements of the list.  A forward list holding the one element
`std::vector<uint8_t>{1, 2}`: the element is written through the overload of the sink as
the two bytes `1, 2` without a data header, and decoding the seven bytes into a deque of
`std::vector<uint8_t>` yields one empty vector, not the element of the list. -/
theorem lazy_range_fails_for_wrapped_length :
    has_type (.container .forward_only (.scalar .byte8)) wrapped_zeros = true ∧
    (data_header.of_bytes
        ((encoded (.container .forward_only (.scalar .byte8)) wrapped_zeros).take 5)).length
      = 0 ∧
    (deserialize_object (.container .sequence (.scalar .byte8))
        { m_data := encoded (.container .forward_only (.scalar .byte8)) wrapped_zeros,
          m_pos := 0 }).map Prod.fst
      = some (.list []) ∧
    Val.list [] ≠ wrapped_zeros ∧
    has_type (.container .forward_only byte_vector) (.list [.list [.scalar 1, .scalar 2]])
      = true ∧
    encoded (.container .forward_only byte_vector) (.list [.list [.scalar 1, .scalar 2]])
      = [0xBB, 1, 0, 0, 0, 1, 2] ∧
    (deserialize_object (.container .sequence byte_vector)
        { m_data := encoded (.container .forward_only byte_vector)
            (.list [.list [.scalar 1, .scalar 2]]),
          m_pos := 0 }).map Prod.fst
      = some (.list [.list []]) ∧
    Val.list [.list []] ≠ .list [.list [.scalar 1, .scalar 2]] := by
  refine ⟨has_type_wrapped_zeros _ rfl, ?_,
    deserialize_wrapped_zeros .forward_only rfl _ _ (encoded_wrapped_zeros _),
    fun hc => wrapped_zeros_ne_nil hc.symm, by decide, by decide, rfl, by simp⟩
  rw [encoded_wrapped_zeros, ← data_header.length_bytes
    (container_header .forward_only (.scalar .byte8) wrapped_length), List.take_left,
    data_header.of_bytes_bytes]
  have hw : wrapped_length % 2 ^ 32 = 0 := by decide
  rw [(container_header_stored .forward_only (.scalar .byte8) wrapped_length rfl).2.2, hw]

/-- C16, amended: for every forward list of fewer than `2 ^ 32` elements `e1..en` of a type
the decoder can fill that is not `std::vector<uint8_t>` and holds none (nor a raw
aggregate), with sizes inside the elements below `2 ^ 32` too,
`serialize_object` writes a data header with main type `d_seq_container`, sub type the
category of the element type and length `n`, followed by the bytes of the elements in
order; these are exactly the bytes written for a sized sequence container holding
`e1..en`, and decoding them into a deque yields `e1..en` in order. -/
theorem lazy_range_encoding (e : Ty) (xs : List Val) (he : e.decodable = true)
    (hp : (e.plain_member && e.plain_nesting) = true)
    (ht : has_type (.container .forward_only e) (.list xs) = true)
    (hf : wire_fits (.container .forward_only e) (.list xs) = true) :
    encoded (.container .forward_only e) (.list xs)
      = (container_header .forward_only e xs.length).bytes ++ xs.flatMap (written e) ∧
    (container_header .forward_only e xs.length).stored.get_main_type = d_seq_container ∧
    (container_header .forward_only e xs.length).stored.get_sub_type = get_data_type e ∧
    (container_header .forward_only e xs.length).stored.length = xs.length ∧
    encoded (.container .forward_only e) (.list xs)
      = encoded (.container .sequence e) (.list xs) ∧
    (deserialize_object (.container .sequence e)
        { m_data := encoded (.container .forward_only e) (.list xs), m_pos := 0 }).map Prod.fst
      = some (.list xs) := by
  have hlen : xs.length < 2 ^ 32 := by
    simp only [wire_fits, Bool.and_eq_true, decide_eq_true_eq] at hf
    exact hf.1
  obtain ⟨hm, hsub, hl⟩ := container_header_stored .forward_only e xs.length rfl
  refine ⟨encoded_container _ _ _, hm, hsub, by rw [hl, Nat.mod_eq_of_lt hlen],
    encoded_of_not_associated _ _ _ rfl, ?_⟩
  have ht' : has_type (.container .sequence e) (.list xs) = true := by
    simp only [has_type, Bool.and_eq_true] at ht ⊢
    exact ⟨ht.1, rfl⟩
  have hf' : wire_fits (.container .sequence e) (.list xs) = true := by
    simpa only [wire_fits] using hf
  rw [encoded_of_not_associated .forward_only e xs rfl]
  have h := deserialize_serialize (.container .sequence e) (.list xs) ht' hf'
    (by simpa [Ty.decodable] using he) (by simpa [Ty.plain_nesting] using hp)
    { m_data := encoded (.container .sequence e) (.list xs), m_pos := 0 } [] (by simp)
  simp only [] at h
  rw [h]; rfl

/-- C16, witness: the forward list `{1, 2, 3, 4}` of `forward_list_example`, decoded into a
deque of 32-bit integers. -/
theorem lazy_range_encoding_witness :
    (Ty.scalar .byte32).decodable = true ∧
    ((Ty.scalar .byte32).plain_member && (Ty.scalar .byte32).plain_nesting) = true ∧
    has_type (.container .forward_only (.scalar .byte32)) one_to_four = true ∧
    wire_fits (.container .forward_only (.scalar .byte32)) one_to_four = true ∧
    encoded (.container .forward_only (.scalar .byte32)) one_to_four
      = [59, 4, 0, 0, 0, 1, 0, 0, 0, 2, 0, 0, 0, 3, 0, 0, 0, 4, 0, 0, 0] ∧
    encoded (.container .forward_only (.scalar .byte32)) one_to_four
      = encoded (.container .sequence (.scalar .byte32)) one_to_four ∧
    (deserialize_object (.container .sequence (.scalar .byte32))
        { m_data := encoded (.container .forward_only (.scalar .byte32)) one_to_four,
          m_pos := 0 }).map Prod.fst
      = some one_to_four :=
  ⟨by decide, by decide, by decide, by decide, by decide,
    (lazy_range_encoding (.scalar .byte32)
      [.scalar 1, .scalar 2, .scalar 3, .scalar 4] (by decide) (by decide) (by decide)
      (by decide)).2.2.2.2⟩

/-! ## Wire format of a sequence of scalars (C17) -/

theorem to_bytes_mod (w n : Nat) : to_bytes w (n % 256 ^ w) = to_bytes w n := by
  induction w generalizing n with
  | zero => rfl
  | succ w ih =>
      have h1 : n % 256 ^ (w + 1) % 256 = n % 256 :=
        Nat.mod_mod_of_dvd n (Dvd.intro_left (256 ^ w) rfl)
      have h2 : n % 256 ^ (w + 1) / 256 = n / 256 % 256 ^ w := by
        rw [pow_succ, Nat.mul_comm (256 ^ w) 256, Nat.mod_mul_right_div_self]
      simp only [to_bytes, h1, h2, ih]

theorem flatMap_written_int (ns : List Nat) :
    (ns.map Val.scalar).flatMap (written (.scalar .byte32)) = ns.flatMap (to_bytes 4) := by
  induction ns with
  | nil => rfl
  | cons n ns ih =>
      simp only [List.map_cons, List.flatMap_cons, ih]
      rw [written_of_trivially_copyable (.scalar .byte32) (.scalar n) rfl]
      rfl

/-- C17: for every sequence of `n < 2 ^ 32` 32-bit integers, `serialize_object` writes, on a
little-endian host, the type byte `0x3B` (main type 11, sub type 3), then the four bytes of
`n`, least significant first, then the four bytes of each element, least significant first,
in iteration order, and nothing else; the four bytes of `n` and of each element read back,
least significant byte first, as `n` and as the element. -/
theorem wire_format_of_int_sequence (ns : List Nat) (hn : ns.length < 2 ^ 32)
    (hb : ∀ x ∈ ns, x < 2 ^ 32) :
    encoded int_vector (.list (ns.map .scalar))
      = 0x3B :: (to_bytes 4 ns.length ++ ns.flatMap (to_bytes 4)) ∧
    data_header.get_main_type { type := 0x3B, length := ns.length } = d_seq_container ∧
    data_header.get_sub_type { type := 0x3B, length := ns.length } = d_byte32 ∧
    from_bytes (to_bytes 4 ns.length) = ns.length ∧
    (∀ x ∈ ns, from_bytes (to_bytes 4 x) = x) ∧
    (encoded int_vector (.list (ns.map .scalar))).length = 5 + 4 * ns.length := by
  have henc : encoded int_vector (.list (ns.map .scalar))
      = 0x3B :: (to_bytes 4 ns.length ++ ns.flatMap (to_bytes 4)) := by
    rw [int_vector, encoded_container, flatMap_written_int, List.length_map]
    have hh : (container_header .sequence (.scalar .byte32) ns.length).bytes
        = 0x3B :: to_bytes 4 ns.length := by
      have h := to_bytes_mod 4 ns.length
      simp only [container_header, data_header.bytes]
      rw [show (256 : Nat) ^ 4 = 2 ^ 32 by decide] at h
      rw [h]
      rfl
    rw [hh]
    rfl
  refine ⟨henc, by simp only [data_header.get_main_type]; decide,
    by simp only [data_header.get_sub_type]; decide, ?_, ?_, ?_⟩
  · rw [from_bytes_to_bytes]
    exact Nat.mod_eq_of_lt (by simpa using hn)
  · intro x hx
    rw [from_bytes_to_bytes]
    exact Nat.mod_eq_of_lt (by simpa using hb x hx)
  · rw [henc]
    have hl : ∀ l : List Nat, (l.flatMap (to_bytes 4)).length = 4 * l.length := by
      intro l
      induction l with
      | nil => rfl
      | cons a l ih => simp only [List.flatMap_cons, List.length_append, length_to_bytes, ih,
          List.length_cons]; omega
    simp only [List.length_cons, List.length_append, length_to_bytes, hl]
    omega

/-- C17, witness: the vector `{1, 2, 3, 4}` is written as `3B 04 00 00 00` followed by
`01 00 00 00 02 00 00 00 03 00 00 00 04 00 00 00`. -/
theorem wire_format_of_int_sequence_witness :
    [1, 2, 3, 4].length < 2 ^ 32 ∧ (∀ x ∈ [1, 2, 3, 4], x < 2 ^ 32) ∧
    encoded int_vector (.list ([1, 2, 3, 4].map .scalar))
      = [0x3B, 0x04, 0x00, 0x00, 0x00, 0x01, 0x00, 0x00, 0x00, 0x02, 0x00, 0x00, 0x00,
          0x03, 0x00, 0x00, 0x00, 0x04, 0x00, 0x00, 0x00] :=
  ⟨by decide, by decide,
    (wire_format_of_int_sequence [1, 2, 3, 4] (by decide) (by decide)).1⟩

/-! ## Wire format of a variant (C18) -/

/-- C19, the code at a failing input: for the variant `<int32, char, std::string>` holding the
string `"hi"` at index 2, `get_size` of the string is 7 and `get_size` of the variant is
12, that is 5 plus 7: the four bytes of the index, which `serialize_object` writes, are not
counted, and the 16 bytes written exceed the size returned. -/
theorem get_size_of_variant_omits_index :
    get_size (.container .sequence (.scalar .byte8)) (.list [.scalar 104, .scalar 105]) = 7 ∧
    get_size (.variant [.scalar .byte32, .scalar .byte8, .container .sequence (.scalar .byte8)])
      (.variant 2 (.list [.scalar 104, .scalar 105])) = 12 ∧
    get_size (.variant [.scalar .byte32, .scalar .byte8, .container .sequence (.scalar .byte8)])
        (.variant 2 (.list [.scalar 104, .scalar 105]))
      ≠ 5 + get_size (.container .sequence (.scalar .byte8)) (.list [.scalar 104, .scalar 105])
          + 4 ∧
    (encoded (.variant [.scalar .byte32, .scalar .byte8, .container .sequence (.scalar .byte8)])
      (.variant 2 (.list [.scalar 104, .scalar 105]))).length = 16 := by
  decide

/-! ## Layout of the envelope (C20) -/

theorem length_encoded_wrapped_zeros :
    (encoded byte_vector wrapped_zeros).length = 5 + wrapped_length := by
  rw [byte_vector, encoded_wrapped_zeros, List.length_append, data_header.length_bytes,
    flatMap_written_zero_bytes, List.length_replicate]

/-- C20, counterexample: for the vector of `2 ^ 32` zero bytes and the default checksum, the
payload has `5 + 2 ^ 32` bytes, yet the length field of the envelope header that `serialize`
writes in front of it holds 5: the field is `static_cast<std::uint32_t>(data.size())`. -/
theorem envelope_length_wraps :
    has_type byte_vector wrapped_zeros = true ∧
    (encoded byte_vector wrapped_zeros).length = 5 + 2 ^ 32 ∧
    ∃ P, serialize byte_vector wrapped_zeros empty_checksum = some P ∧
      (packer_header.of_bytes (P.take 10)).length = 5 ∧
      P.drop 10 = encoded byte_vector wrapped_zeros := by
  refine ⟨has_type_wrapped_zeros .sequence rfl, length_encoded_wrapped_zeros, _,
    serialize_empty_checksum _ _, ?_, drop_envelope _ _⟩
  have hw : (5 + wrapped_length) % 2 ^ 32 = 5 := by decide
  rw [← packer_header.length_packed (packer_header.mk VERSION 0
      ((encoded byte_vector wrapped_zeros).length % 2 ^ 32)), List.take_left,
    packer_header.of_bytes_packed, length_encoded_wrapped_zeros, hw]
  rfl

/-- C20, amended: for every value `v` whose payload (the bytes `serialize_object` writes for
`v`) is shorter than `2 ^ 32` bytes and every checksum function `c` that returns the value
`crc` on the payload, `serialize(v, c)` returns the ten raw bytes of the envelope header
followed by the payload, and the header held by the ten bytes has the version field
`VERSION` (1), the crc field `crc` (as a `std::uint32_t`) and the length field equal to
the number of payload bytes. -/
theorem envelope_layout (T : Ty) (v : Val) (c : checksum_fn) (crc : Nat)
    (hlen : (encoded T v).length < 2 ^ 32)
    (hc : c (encoded T v) (encoded T v).length = some crc) :
    serialize T v c
      = some ((packer_header.mk VERSION (crc % 2 ^ 32) (encoded T v).length).bytes
          ++ encoded T v) ∧
    (packer_header.mk VERSION (crc % 2 ^ 32) (encoded T v).length).bytes.length = 10 ∧
    packer_header.of_bytes
        (packer_header.mk VERSION (crc % 2 ^ 32) (encoded T v).length).bytes
      = packer_header.mk VERSION (crc % 2 ^ 32) (encoded T v).length ∧
    VERSION = 1 := by
  refine ⟨?_, packer_header.length_packed _, ?_, rfl⟩
  · rw [serialize_of_checksum T v c crc hc, Nat.mod_eq_of_lt hlen]
  · rw [packer_header.of_bytes_packed]
    simp only [packer_header.stored, VERSION_stored, Nat.mod_mod, Nat.mod_eq_of_lt hlen]

/-- C20, witness: the envelope of the vector `{1, 2, 3, 4}` under `crc32_checksum`: the
version `01 00`, the checksum `C9 0D 97 CE`, the length `15 00 00 00` and the 21 bytes of
the payload. -/
theorem envelope_layout_witness :
    (encoded int_vector one_to_four).length < 2 ^ 32 ∧
    crc32_checksum (encoded int_vector one_to_four) (encoded int_vector one_to_four).length
      = some 0xCE970DC9 ∧
    serialize int_vector one_to_four crc32_checksum
      = some ([0x01, 0x00, 0xC9, 0x0D, 0x97, 0xCE, 0x15, 0x00, 0x00, 0x00]
          ++ encoded int_vector one_to_four) :=
  ⟨by decide, by decide,
    (envelope_layout int_vector one_to_four crc32_checksum 0xCE970DC9 (by decide)
      (by decide)).1⟩

/-! ## Size of the envelope header (C21) -/

/-- C21, counterexample: the envelope of the vector `{1, 2, 3, 4}`, whose payload has 21
bytes, has 31 bytes and not 32: `sizeof(packer_header)` is 10, the payload starts at offset
10, and what starts at offset 11 is the payload without its first byte. -/
theorem envelope_header_is_not_eleven_bytes :
    packer_header.size = 10 ∧
    (encoded int_vector one_to_four).length = 21 ∧
    (serialize int_vector one_to_four empty_checksum).map List.length = some 31 ∧
    (serialize int_vector one_to_four empty_checksum).map List.length
      ≠ some (11 + (encoded int_vector one_to_four).length) ∧
    (serialize int_vector one_to_four empty_checksum).map (List.drop 10)
      = some (encoded int_vector one_to_four) ∧
    (serialize int_vector one_to_four empty_checksum).map (List.drop 11)
      ≠ some (encoded int_vector one_to_four) := by
  decide

/-- C21, amended: the envelope header is a packed structure of 10 bytes (a `uint16_t`
version, the four bytes of the `crc` union and a `uint32_t` length), so for every value `v`
and every checksum function that returns on the payload, `serialize(v)` returns a vector
whose length is 10 plus the number of bytes `serialize_object` writes for `v`, and the
payload starts at byte offset 10. -/
theorem envelope_size (T : Ty) (v : Val) (c : checksum_fn) (crc : Nat)
    (hc : c (encoded T v) (encoded T v).length = some crc) :
    packer_header.size = 10 ∧
    ∃ P, serialize T v c = some P ∧ P.length = 10 + (encoded T v).length ∧
      P.drop 10 = encoded T v := by
  refine ⟨rfl, _, serialize_of_checksum T v c crc hc, ?_, drop_envelope _ _⟩
  rw [List.length_append, packer_header.length_packed]

/-- C21, witness: the tuple of `tuple_example` under the default checksum. -/
theorem envelope_size_witness :
    empty_checksum (encoded example_tuple_type example_tuple)
      (encoded example_tuple_type example_tuple).length = some 0 ∧
    (packer_header.size = 10 ∧
      ∃ P, serialize example_tuple_type example_tuple empty_checksum = some P ∧
        P.length = 10 + (encoded example_tuple_type example_tuple).length ∧
        P.drop 10 = encoded example_tuple_type example_tuple) :=
  ⟨rfl, envelope_size example_tuple_type example_tuple empty_checksum 0 rfl⟩

/-! ## Reading a value of fixed size (C22) -/

/-- C22: for every trivially copyable type `T` of the model, with `w = sizeof(T)`, and
every cursor state of either source.  The unbounded source (its cursor never leaves the
vector): `remaining()` is the number of bytes behind the cursor; when `remaining() >= w`,
`read<T>()` returns the value formed by the `w` bytes at the cursor and advances the
cursor by `w`, otherwise it returns the default value of `T` and leaves the cursor where
it was.  The bounded source, whatever its cursor: `remaining()` is `m_length - m_pos`
computed in `size_t`, the number of bytes of the buffer behind the cursor while the cursor
is inside the buffer, and a wrapped difference once `read_bytes` has moved the cursor
behind the end; when `remaining() < w`, `read<T>()` returns the default value of `T` and
leaves the cursor where it was; when `remaining() >= w` and the `w` bytes at the cursor
are in the memory behind the pointer, it returns the value formed by these `w` bytes and
advances the cursor by `w`. -/
theorem read_fixed_size (T : Ty) (r : bytes_reader) (b : bytes_reader_bounded)
    (des : bytes_reader → Option (Val × bytes_reader))
    (des_bounded : bytes_reader_bounded → Option (Val × bytes_reader_bounded))
    (hT : T.is_trivially_copyable = true) (hr : r.m_pos ≤ r.m_data.length) :
    r.remaining + r.m_pos = r.m_data.length ∧
    r.read T des = some
      (if r.remaining ≥ T.sizeof then
        (from_object_bytes T ((r.m_data.drop r.m_pos).take T.sizeof),
          bytes_reader.mk r.m_data (r.m_pos + T.sizeof))
      else (default_value T, r)) ∧
    (r.remaining ≥ T.sizeof →
      ((r.m_data.drop r.m_pos).take T.sizeof).length = T.sizeof ∧
      r.m_pos + T.sizeof ≤ r.m_data.length) ∧
    (b.m_pos ≤ b.m_length → b.remaining + b.m_pos = b.m_length) ∧
    (b.m_length < b.m_pos → b.m_pos < 2 ^ 64 →
      b.remaining + (b.m_pos - b.m_length) = 2 ^ 64) ∧
    (b.remaining < T.sizeof → b.read T des_bounded = some (default_value T, b)) ∧
    (b.remaining ≥ T.sizeof → b.m_pos + T.sizeof ≤ b.m_data.length →
      b.read T des_bounded = some
        (from_object_bytes T ((b.m_data.drop b.m_pos).take T.sizeof),
          bytes_reader_bounded.mk b.m_data b.m_length (b.m_pos + T.sizeof)) ∧
      ((b.m_data.drop b.m_pos).take T.sizeof).length = T.sizeof) := by
  refine ⟨?_, ?_, ?_, ?_, ?_, ?_, ?_⟩
  · simp only [bytes_reader.remaining]
    omega
  · by_cases h : r.remaining ≥ T.sizeof
    · simp [bytes_reader.read, hT, bytes_reader.read_value, bytes_reader.read_raw,
        bytes_reader.can_read, h]
    · simp [bytes_reader.read, hT, bytes_reader.read_value, bytes_reader.read_raw,
        bytes_reader.can_read, h]
  · intro h
    simp only [bytes_reader.remaining] at h
    simp only [List.length_take, List.length_drop]
    omega
  · intro h
    simp only [bytes_reader_bounded.remaining, size_difference, h, if_true]
    omega
  · intro h h64
    simp only [bytes_reader_bounded.remaining, size_difference, Nat.not_le.mpr h, if_false]
    omega
  · intro h
    simp [bytes_reader_bounded.read, hT, bytes_reader_bounded.read_value,
      bytes_reader_bounded.read_raw, bytes_reader_bounded.can_read, Nat.not_le.mpr h]
  · intro h hm
    refine ⟨?_, ?_⟩
    · simp [bytes_reader_bounded.read, hT, bytes_reader_bounded.read_value,
        bytes_reader_bounded.read_raw, bytes_reader_bounded.can_read, h]
    · simp only [List.length_take, List.length_drop]
      omega

/-- C22, witness: a `uint32_t` read at four states.  The unbounded source over
`01 00 00 00 02` at position 0 has five bytes left: the value is 1 and the cursor moves to
4.  The bounded source over a buffer of five bytes, `01 00 00 00 02`, in a memory of seven
bytes: at position 0 five bytes are left, the value is 1 and the cursor moves to 4; at
position 4 one byte is left, the value is 0 and the cursor stays at 4.  The bounded source
over a buffer of two bytes in the same memory with the cursor at 3, behind the end of the
buffer: `remaining()` is `2 ^ 64 - 1`, the value read is that of the bytes `00 02 09 09`
at positions 3 to 6 and the cursor moves to 7. -/
theorem read_fixed_size_witness :
    (Ty.scalar .byte32).is_trivially_copyable = true ∧
    (bytes_reader.mk [1, 0, 0, 0, 2] 0).m_pos ≤ (bytes_reader.mk [1, 0, 0, 0, 2] 0).m_data.length ∧
    (bytes_reader.mk [1, 0, 0, 0, 2] 0).remaining = 5 ∧
    (bytes_reader.mk [1, 0, 0, 0, 2] 0).read (.scalar .byte32) (fun _ => none)
      = some (.scalar 1, bytes_reader.mk [1, 0, 0, 0, 2] 4) ∧
    (bytes_reader_bounded.mk [1, 0, 0, 0, 2, 9, 9] 5 0).remaining = 5 ∧
    (bytes_reader_bounded.mk [1, 0, 0, 0, 2, 9, 9] 5 0).read (.scalar .byte32) (fun _ => none)
      = some (.scalar 1, bytes_reader_bounded.mk [1, 0, 0, 0, 2, 9, 9] 5 4) ∧
    (bytes_reader_bounded.mk [1, 0, 0, 0, 2, 9, 9] 5 4).remaining = 1 ∧
    (bytes_reader_bounded.mk [1, 0, 0, 0, 2, 9, 9] 5 4).read (.scalar .byte32) (fun _ => none)
      = some (.scalar 0, bytes_reader_bounded.mk [1, 0, 0, 0, 2, 9, 9] 5 4) ∧
    (bytes_reader_bounded.mk [1, 0, 0, 0, 2, 9, 9] 2 3).remaining = 2 ^ 64 - 1 ∧
    (bytes_reader_bounded.mk [1, 0, 0, 0, 2, 9, 9] 2 3).read (.scalar .byte32) (fun _ => none)
      = some (.scalar 151585280, bytes_reader_bounded.mk [1, 0, 0, 0, 2, 9, 9] 2 7) :=
  ⟨rfl, by decide,
    by decide,
    (read_fixed_size (.scalar .byte32) (bytes_reader.mk [1, 0, 0, 0, 2] 0)
      (bytes_reader_bounded.mk [1, 0, 0, 0, 2, 9, 9] 5 0) (fun _ => none) (fun _ => none)
      rfl (by decide)).2.1,
    by decide,
    ((read_fixed_size (.scalar .byte32) (bytes_reader.mk [1, 0, 0, 0, 2] 0)
      (bytes_reader_bounded.mk [1, 0, 0, 0, 2, 9, 9] 5 0) (fun _ => none) (fun _ => none)
      rfl (by decide)).2.2.2.2.2.2 (by decide) (by decide)).1,
    by decide,
    (read_fixed_size (.scalar .byte32) (bytes_reader.mk [1, 0, 0, 0, 2] 0)
      (bytes_reader_bounded.mk [1, 0, 0, 0, 2, 9, 9] 5 4) (fun _ => none) (fun _ => none)
      rfl (by decide)).2.2.2.2.2.1 (by decide),
    by decide,
    ((read_fixed_size (.scalar .byte32) (bytes_reader.mk [1, 0, 0, 0, 2] 0)
      (bytes_reader_bounded.mk [1, 0, 0, 0, 2, 9, 9] 2 3) (fun _ => none) (fun _ => none)
      rfl (by decide)).2.2.2.2.2.2 (by decide) (by decide)).1⟩

/-! ## The bounded sink (C23) -/

/-- C23: for every state of the bounded sink with the cursor inside the buffer and every
value of a trivially copyable type `T` of the model: `write(val)` with
`remaining() < sizeof(T)` leaves the sink, cursor and bytes, as it was; with
`remaining() >= sizeof(T)` it replaces the `sizeof(T)` bytes at the cursor by the bytes of
the value, leaves every other byte alone and advances `count()` by `sizeof(T)`.
`write(ptr, n)` replaces the `min(n, remaining())` bytes at the cursor by the first
`min(n, remaining())` bytes behind `ptr` and advances `count()` by that amount.  No write
moves the cursor out of the buffer or changes the size of the memory. -/
theorem bounded_write (T : Ty) (v : Val) (w : bytes_writer_bounded)
    (ser : Val → bytes_writer_bounded → bytes_writer_bounded) (data : List Nat) (n : Nat)
    (hT : T.is_trivially_copyable = true) (hv : has_type T v = true)
    (hw : w.m_pos ≤ w.m_length) (hm : w.m_length ≤ w.m_data.length)
    (hn : n ≤ data.length) :
    w.write T v ser =
      (if w.remaining ≥ T.sizeof then
        bytes_writer_bounded.mk
          (w.m_data.take w.m_pos ++ object_bytes T v ++ w.m_data.drop (w.m_pos + T.sizeof))
          (w.m_pos + T.sizeof) w.m_length
      else w) ∧
    (object_bytes T v).length = T.sizeof ∧
    (w.write T v ser).count = w.count + (if w.remaining ≥ T.sizeof then T.sizeof else 0) ∧
    (w.write T v ser).m_pos ≤ (w.write T v ser).m_length ∧
    (w.write T v ser).m_data.length = w.m_data.length ∧
    w.write_ptr data n =
      bytes_writer_bounded.mk
        (w.m_data.take w.m_pos ++ data.take (min n w.remaining)
          ++ w.m_data.drop (w.m_pos + min n w.remaining))
        (w.m_pos + min n w.remaining) w.m_length ∧
    (data.take (min n w.remaining)).length = min n w.remaining ∧
    (w.write_ptr data n).count = w.count + min n w.remaining ∧
    (w.write_ptr data n).m_pos ≤ (w.write_ptr data n).m_length ∧
    (w.write_ptr data n).m_data.length = w.m_data.length := by
  have hlen := length_object_bytes T v hv hT
  have hwrite : w.write T v ser =
      (if w.remaining ≥ T.sizeof then
        bytes_writer_bounded.mk
          (w.m_data.take w.m_pos ++ object_bytes T v ++ w.m_data.drop (w.m_pos + T.sizeof))
          (w.m_pos + T.sizeof) w.m_length
      else w) := by
    by_cases h : w.remaining ≥ T.sizeof
    · simp [bytes_writer_bounded.write, hT, bytes_writer_bounded.write_raw,
        bytes_writer_bounded.can_write, bytes_writer_bounded.store, hlen, h]
    · simp [bytes_writer_bounded.write, hT, bytes_writer_bounded.write_raw,
        bytes_writer_bounded.can_write, hlen, h]
  have hptr : w.write_ptr data n =
      bytes_writer_bounded.mk
        (w.m_data.take w.m_pos ++ data.take (min n w.remaining)
          ++ w.m_data.drop (w.m_pos + min n w.remaining))
        (w.m_pos + min n w.remaining) w.m_length := by
    have htake : (data.take (min n w.remaining)).length = min n w.remaining := by
      rw [List.length_take]; omega
    by_cases h : min n (w.m_length - w.m_pos) > 0
    · simp only [bytes_writer_bounded.write_ptr, h, if_true, bytes_writer_bounded.store,
        bytes_writer_bounded.remaining] at htake ⊢
      rw [htake]
    · have h0 : min n (w.m_length - w.m_pos) = 0 := by omega
      simp only [bytes_writer_bounded.write_ptr, h, if_false, bytes_writer_bounded.remaining,
        h0, List.take_zero, List.append_nil, Nat.add_zero, List.take_append_drop]
      all_goals rfl
  refine ⟨hwrite, hlen, ?_, ?_, ?_, hptr, ?_, ?_, ?_, ?_⟩
  · rw [hwrite]
    by_cases h : w.remaining ≥ T.sizeof <;> simp [h, bytes_writer_bounded.count]
  · rw [hwrite]
    by_cases h : w.remaining ≥ T.sizeof
    · simp only [h, if_true]
      simp only [bytes_writer_bounded.remaining] at h
      omega
    · simpa [h] using hw
  · rw [hwrite]
    by_cases h : w.remaining ≥ T.sizeof
    · simp only [h, if_true, List.length_append, List.length_take, List.length_drop, hlen]
      simp only [bytes_writer_bounded.remaining] at h
      omega
    · simp [h]
  · rw [List.length_take]; omega
  · rw [hptr]; rfl
  · rw [hptr]
    simp only [bytes_writer_bounded.remaining]
    omega
  · rw [hptr]
    simp only [List.length_append, List.length_take, List.length_drop,
      bytes_writer_bounded.remaining]
    omega

/-- C23, witness: a bounded sink over eight bytes `9` with the cursor at 5.  Writing the
`uint32_t` 1 changes nothing (three bytes remain); `write(ptr, 4)` with `1 2 3 4` behind
the pointer stores `1 2 3` and the cursor reaches 8. -/
theorem bounded_write_witness :
    (Ty.scalar .byte32).is_trivially_copyable = true ∧
    has_type (.scalar .byte32) (.scalar 1) = true ∧
    (bytes_writer_bounded.mk [9, 9, 9, 9, 9, 9, 9, 9] 5 8).m_pos
      ≤ (bytes_writer_bounded.mk [9, 9, 9, 9, 9, 9, 9, 9] 5 8).m_length ∧
    (bytes_writer_bounded.mk [9, 9, 9, 9, 9, 9, 9, 9] 5 8).m_length
      ≤ (bytes_writer_bounded.mk [9, 9, 9, 9, 9, 9, 9, 9] 5 8).m_data.length ∧
    4 ≤ [1, 2, 3, 4].length ∧
    (bytes_writer_bounded.mk [9, 9, 9, 9, 9, 9, 9, 9] 5 8).write (.scalar .byte32) (.scalar 1)
        (fun _ w => w)
      = bytes_writer_bounded.mk [9, 9, 9, 9, 9, 9, 9, 9] 5 8 ∧
    (bytes_writer_bounded.mk [9, 9, 9, 9, 9, 9, 9, 9] 5 8).write_ptr [1, 2, 3, 4] 4
      = bytes_writer_bounded.mk [9, 9, 9, 9, 9, 1, 2, 3] 8 8 :=
  ⟨rfl, by decide, by decide, by decide, by decide,
    (bounded_write (.scalar .byte32) (.scalar 1)
      (bytes_writer_bounded.mk [9, 9, 9, 9, 9, 9, 9, 9] 5 8) (fun _ w => w) [1, 2, 3, 4] 4
      rfl (by decide) (by decide) (by decide) (by decide)).1,
    (bounded_write (.scalar .byte32) (.scalar 1)
      (bytes_writer_bounded.mk [9, 9, 9, 9, 9, 9, 9, 9] 5 8) (fun _ w => w) [1, 2, 3, 4] 4
      rfl (by decide) (by decide) (by decide) (by decide)).2.2.2.2.2.1⟩

/-! ## Seeking (C24) -/

/-- C24, the code at a failing input: a source over ten bytes with the cursor at 6.  The
position 5 is inside the buffer (`5 < 10`), yet `seek(5)` leaves the cursor at 6, for the
unbounded and for the bounded source: the guard compares `pos` with
`size - count()`, which is 4.  From the cursor 0 the same call moves the cursor to 5. -/
theorem seek_compares_with_remaining :
    5 < ten_bytes.length ∧
    ((bytes_reader.mk ten_bytes 6).seek 5).count = 6 ∧
    ((bytes_reader_bounded.mk ten_bytes 10 6).seek 5).count = 6 ∧
    ((bytes_reader.mk ten_bytes 0).seek 5).count = 5 ∧
    ((bytes_reader_bounded.mk ten_bytes 10 0).seek 5).count = 5 := by
  decide

/-! ## Reading a run of bytes (C25) -/

/-- C25, the code at two failing inputs, for the unbounded and for the bounded source over
the ten bytes `0, ..., 9`.  With the cursor at 0, `read_bytes(8)` returns the two bytes
`0, 1` and not the eight bytes that are there: the number of bytes is
`min(count, size - count) = min(8, 2)`.  With the cursor at 8, `read_bytes(5)` takes
`min(5, 5) = 5` bytes from position 8, three of them behind the end of the buffer: the call
has no defined result, where `min(count, n - pos)` is 2. -/
theorem read_bytes_ignores_cursor :
    (bytes_reader.mk ten_bytes 0).read_bytes 8 = some ([0, 1], bytes_reader.mk ten_bytes 2) ∧
    (bytes_reader_bounded.mk ten_bytes 10 0).read_bytes 8
      = some ([0, 1], bytes_reader_bounded.mk ten_bytes 10 2) ∧
    min 8 (ten_bytes.length - 0) = 8 ∧
    (bytes_reader.mk ten_bytes 8).read_bytes 5 = none ∧
    (bytes_reader_bounded.mk ten_bytes 10 8).read_bytes 5 = none ∧
    min 5 (ten_bytes.length - 8) = 2 := by
  decide

/-! ## The rule of sub-type compatibility (C26) -/

/-- C26: for every data header (every type byte) and every category code `t`, in particular
`t = get_data_type<T>()` of a target element type, `is_subtype_compitable` returns true
exactly when the sub-type nibble `s` of the header and `t` are both below `d_pod` (7) and
`s >= t`, or `s = t`. -/
theorem subtype_compatibility_rule (h : data_header) (t : Nat) (T : Ty) :
    (h.is_subtype_compitable t = true ↔
      (h.get_sub_type < d_pod ∧ t < d_pod ∧ h.get_sub_type ≥ t) ∨ h.get_sub_type = t) ∧
    (h.is_subtype_compitable (get_data_type T) = true ↔
      (h.get_sub_type < d_pod ∧ get_data_type T < d_pod ∧ h.get_sub_type ≥ get_data_type T)
        ∨ h.get_sub_type = get_data_type T) ∧
    d_pod = 7 := by
  have key : ∀ t : Nat, h.is_subtype_compitable t = true ↔
      (h.get_sub_type < d_pod ∧ t < d_pod ∧ h.get_sub_type ≥ t) ∨ h.get_sub_type = t := by
    intro t
    rw [is_subtype_compitable_eq]
    by_cases hc : t < d_pod ∧ h.get_sub_type < d_pod
    · rw [if_pos hc, decide_eq_true_eq]
      constructor
      · intro hge
        exact Or.inl ⟨hc.2, hc.1, hge⟩
      · rintro (⟨_, _, hge⟩ | heq)
        · exact hge
        · omega
    · rw [if_neg hc, decide_eq_true_eq]
      constructor
      · intro heq
        exact Or.inr heq
      · rintro (⟨h1, h2, _⟩ | heq)
        · exact absurd ⟨h2, h1⟩ hc
        · exact heq
  exact ⟨key t, key (get_data_type T), rfl⟩

/-! ## The bounded `serialize` against the unbounded one (C27) -/

set_option maxRecDepth 100000 in
theorem serialize_bounded_forward_list :
    serialize_bounded (List.replicate 30 0) 30 (.container .forward_only (.scalar .byte32))
        one_to_four empty_checksum
      = some [1, 0, 0, 0, 0, 0, 26, 0, 0, 0, 59, 4, 0, 0, 0, 27, 16, 0, 0, 0, 1, 0, 0, 0, 2, 0,
          0, 0, 3, 0, 0, 0, 4, 0, 0, 0] := by
  decide

/-- C27, the code at two failing inputs.  For the POD record of the three bytes `1, 2, 3`
the unbounded `serialize` returns the envelope header and the eight bytes
`07 03 00 00 00 01 02 03`; the bounded `serialize`, given a buffer of eight bytes, returns
the envelope header and the three bytes `01 02 03` (it runs `writer << value`, which copies
a trivially copyable value without a data header), and `deserialize` of that result returns
the record of three zero bytes.  For the forward list `{1, 2, 3, 4}` and a buffer of 30
bytes the bounded `serialize` writes a second data header, `1B 10 00 00 00`, in front of the
elements. -/
theorem bounded_serialize_differs :
    serialize (.pod 3) (.pod [1, 2, 3]) empty_checksum
      = some [1, 0, 0, 0, 0, 0, 8, 0, 0, 0, 7, 3, 0, 0, 0, 1, 2, 3] ∧
    (encoded (.pod 3) (.pod [1, 2, 3])).length ≤ 8 ∧
    serialize_bounded (List.replicate 8 0) 8 (.pod 3) (.pod [1, 2, 3]) empty_checksum
      = some [1, 0, 0, 0, 0, 0, 3, 0, 0, 0, 1, 2, 3] ∧
    deserialize (.pod 3) [1, 0, 0, 0, 0, 0, 3, 0, 0, 0, 1, 2, 3] empty_checksum
      = some (.pod [0, 0, 0]) ∧
    serialize (.container .forward_only (.scalar .byte32)) one_to_four empty_checksum
      = some [1, 0, 0, 0, 0, 0, 21, 0, 0, 0, 59, 4, 0, 0, 0, 1, 0, 0, 0, 2, 0, 0, 0, 3, 0, 0,
          0, 4, 0, 0, 0] ∧
    serialize_bounded (List.replicate 30 0) 30 (.container .forward_only (.scalar .byte32))
        one_to_four empty_checksum
      = some [1, 0, 0, 0, 0, 0, 26, 0, 0, 0, 59, 4, 0, 0, 0, 27, 16, 0, 0, 0, 1, 0, 0, 0, 2, 0,
          0, 0, 3, 0, 0, 0, 4, 0, 0, 0] :=
  ⟨by decide, by decide, by decide, rfl, by decide, serialize_bounded_forward_list⟩

/-! ## A sequence of POD records (C28) -/

theorem flatMap_written_of_trivially_copyable (T : Ty) (hT : T.is_trivially_copyable = true)
    (xs : List Val) : xs.flatMap (written T) = xs.flatMap (object_bytes T) := by
  induction xs with
  | nil => rfl
  | cons x xs ih =>
      simp only [List.flatMap_cons, ih, written_of_trivially_copyable T x hT]

theorem length_flatMap_of_length (f : Val → List Nat) (w : Nat) : ∀ (xs : List Val),
    (∀ x ∈ xs, (f x).length = w) → (xs.flatMap f).length = w * xs.length
  | [], _ => rfl
  | x :: xs, h => by
      rw [List.flatMap_cons, List.length_append, h x (by simp),
        length_flatMap_of_length f w xs (fun y hy => h y (by simp [hy])), List.length_cons,
        Nat.mul_succ, Nat.add_comm]

/-- C28, counterexample: the vector of the two POD records `{1, 2, 3}` and `{4, 5, 6}` is
written in 11 bytes: the container header `DB 02 00 00 00`, whose sub-type nibble is
`d_custom` (13) and not `d_pod` (7), and the six bytes of the records, with no data
header in front of a record; `serialize_object` applied to the first record on its own
writes the eight bytes `07 03 00 00 00 01 02 03`. -/
theorem pod_elements_are_written_raw :
    has_type (.container .sequence (.pod 3)) (.list [.pod [1, 2, 3], .pod [4, 5, 6]]) = true ∧
    encoded (.container .sequence (.pod 3)) (.list [.pod [1, 2, 3], .pod [4, 5, 6]])
      = [0xDB, 2, 0, 0, 0, 1, 2, 3, 4, 5, 6] ∧
    data_header.get_sub_type { type := 0xDB, length := 2 } = d_custom ∧
    d_custom ≠ d_pod ∧
    encoded (.pod 3) (.pod [1, 2, 3]) = [7, 3, 0, 0, 0, 1, 2, 3] ∧
    encoded (.container .sequence (.pod 3)) (.list [.pod [1, 2, 3], .pod [4, 5, 6]])
      ≠ [0xDB, 2, 0, 0, 0] ++ (encoded (.pod 3) (.pod [1, 2, 3])
          ++ encoded (.pod 3) (.pod [4, 5, 6])) := by
  decide

/-- C28, amended: for every sequence container holding `n < 2 ^ 32` POD records of size `w`,
`serialize_object` writes the container header, with main type `d_seq_container` (11),
sub type `d_custom` (13) and length `n`, and then, for each element in order, the `w` raw
bytes of the record and nothing else: `5 + w * n` bytes in all. -/
theorem wire_format_of_pod_sequence (w : Nat) (xs : List Val)
    (ht : has_type (.container .sequence (.pod w)) (.list xs) = true)
    (hn : xs.length < 2 ^ 32) :
    encoded (.container .sequence (.pod w)) (.list xs)
      = (container_header .sequence (.pod w) xs.length).bytes
          ++ xs.flatMap (object_bytes (.pod w)) ∧
    (container_header .sequence (.pod w) xs.length).stored.get_main_type = d_seq_container ∧
    (container_header .sequence (.pod w) xs.length).stored.get_sub_type = d_custom ∧
    (container_header .sequence (.pod w) xs.length).stored.length = xs.length ∧
    (∀ x ∈ xs, (object_bytes (.pod w) x).length = w) ∧
    (encoded (.container .sequence (.pod w)) (.list xs)).length = 5 + w * xs.length := by
  have hall : ∀ x ∈ xs, (object_bytes (.pod w) x).length = w := by
    intro x hx
    simp only [has_type, Bool.and_eq_true, List.all_eq_true] at ht
    exact length_object_bytes (.pod w) x (ht.1 x hx) rfl
  have henc : encoded (.container .sequence (.pod w)) (.list xs)
      = (container_header .sequence (.pod w) xs.length).bytes
          ++ xs.flatMap (object_bytes (.pod w)) := by
    rw [encoded_container, flatMap_written_of_trivially_copyable (.pod w) rfl]
  obtain ⟨hm, hs, hl⟩ := container_header_stored .sequence (.pod w) xs.length rfl
  refine ⟨henc, hm, hs, by rw [hl, Nat.mod_eq_of_lt hn], hall, ?_⟩
  rw [henc, List.length_append, data_header.length_bytes,
    length_flatMap_of_length _ w xs hall]

/-- C28, witness: the vector of the two POD records `{1, 2, 3}` and `{4, 5, 6}`. -/
theorem wire_format_of_pod_sequence_witness :
    has_type (.container .sequence (.pod 3)) (.list [.pod [1, 2, 3], .pod [4, 5, 6]]) = true ∧
    [Val.pod [1, 2, 3], .pod [4, 5, 6]].length < 2 ^ 32 ∧
    encoded (.container .sequence (.pod 3)) (.list [.pod [1, 2, 3], .pod [4, 5, 6]])
      = [0xDB, 2, 0, 0, 0] ++ [1, 2, 3, 4, 5, 6] ∧
    (encoded (.container .sequence (.pod 3)) (.list [.pod [1, 2, 3], .pod [4, 5, 6]])).length
      = 5 + 3 * 2 :=
  ⟨by decide, by decide,
    (wire_format_of_pod_sequence 3 [.pod [1, 2, 3], .pod [4, 5, 6]] (by decide)
      (by decide)).1.trans (by decide),
    (wire_format_of_pod_sequence 3 [.pod [1, 2, 3], .pod [4, 5, 6]] (by decide)
      (by decide)).2.2.2.2.2⟩

/-! ## The number of elements of a decoded sequence (C29) -/

theorem read_elements_returns (rd : bytes_reader → Option (Val × bytes_reader))
    (put : List Val → Val → List Val) (h : ∀ r, ∃ x r', rd r = some (x, r')) :
    ∀ (n : Nat) (acc : List Val) (r : bytes_reader),
      ∃ ys r', read_elements rd put n acc r = some (ys, r')
  | 0, acc, r => ⟨acc, r, rfl⟩
  | n + 1, acc, r => by
      obtain ⟨x, r1, hx⟩ := h r
      obtain ⟨ys, r', hys⟩ := read_elements_returns rd put h n (put acc x) r1
      exact ⟨ys, r', by simp only [read_elements, hx, hys]⟩

theorem read_elements_length (rd : bytes_reader → Option (Val × bytes_reader)) :
    ∀ (n : Nat) (acc ys : List Val) (r r' : bytes_reader),
      read_elements rd push_back n acc r = some (ys, r') → ys.length = acc.length + n
  | 0, acc, ys, r, r', h => by
      simp only [read_elements, Option.some.injEq, Prod.mk.injEq] at h
      rw [← h.1]; rfl
  | n + 1, acc, ys, r, r', h => by
      cases hx : rd r with
      | none => simp [read_elements, hx] at h
      | some p =>
          obtain ⟨x, r1⟩ := p
          simp only [read_elements, hx] at h
          have := read_elements_length rd n (push_back acc x) ys r1 r' h
          simp only [push_back, List.length_append, List.length_singleton] at this
          omega

theorem read_returns (T : Ty)
    (h : ∀ r, ∃ v r', deserialize_object T r = some (v, r')) (r : bytes_reader) :
    ∃ v r', r.read T (fun r => deserialize_object T r) = some (v, r') := by
  unfold bytes_reader.read
  split
  · exact ⟨_, _, rfl⟩
  · exact h r

mutual
/-- On a type that holds no variant and that the decoder can fill, `deserialize_object`
returns on every source. -/
theorem deserialize_object_returns : ∀ (T : Ty), T.always_decodes = true →
    ∀ r : bytes_reader, ∃ v r', deserialize_object T r = some (v, r')
  | .scalar k, _, r => ⟨_, _, by simp only [deserialize_object]; rfl⟩
  | .pod n, _, r => by
      simp only [deserialize_object]
      split <;> exact ⟨_, _, rfl⟩
  | .pair a b, h, r => by
      simp only [Ty.always_decodes, Bool.and_eq_true] at h
      simp only [deserialize_object]
      split
      · exact ⟨_, _, rfl⟩
      · obtain ⟨x, r1, hx⟩ := read_returns a (deserialize_object_returns a h.1) r.read_header.2
        obtain ⟨y, r2, hy⟩ := read_returns b (deserialize_object_returns b h.2) r1
        simp only [hx, hy]
        exact ⟨_, _, rfl⟩
  | .variant _, h, _ => by simp [Ty.always_decodes] at h
  | .tuple ts, h, r => by
      simp only [Ty.always_decodes] at h
      simp only [deserialize_object]
      split
      · exact ⟨_, _, rfl⟩
      · obtain ⟨xs, r1, hxs⟩ := deserialize_tuple_impl_returns ts h r.read_header.2
        simp only [hxs]
        exact ⟨_, _, rfl⟩
  | .container .sequence e, h, r => by
      simp only [Ty.always_decodes] at h
      simp only [deserialize_object, is_standard_container, if_true]
      split
      · obtain ⟨ys, r1, hys⟩ := read_elements_returns _ push_back
          (read_returns e (deserialize_object_returns e h)) r.read_header.1.length []
          r.read_header.2
        simp only [hys]
        exact ⟨_, _, rfl⟩
      · exact ⟨_, _, rfl⟩
  | .container .byte_vector e, h, r => by
      simp only [Ty.always_decodes] at h
      simp only [deserialize_object, is_standard_container, if_true]
      split
      · obtain ⟨ys, r1, hys⟩ := read_elements_returns _ push_back
          (read_returns e (deserialize_object_returns e h)) r.read_header.1.length []
          r.read_header.2
        simp only [hys]
        exact ⟨_, _, rfl⟩
      · exact ⟨_, _, rfl⟩
  | .container (.associated a) e, h, r => by
      simp only [Ty.always_decodes] at h
      simp only [deserialize_object, is_standard_container, if_true]
      split
      · obtain ⟨ys, r1, hys⟩ := read_elements_returns _ (aso_insert a)
          (read_returns e (deserialize_object_returns e h)) r.read_header.1.length []
          r.read_header.2
        simp only [hys]
        exact ⟨_, _, rfl⟩
      · exact ⟨_, _, rfl⟩
  | .container (.fixed _) _, h, _ => by simp [Ty.always_decodes] at h
  | .container .forward_only _, h, _ => by simp [Ty.always_decodes] at h
theorem deserialize_tuple_impl_returns : ∀ (ts : List Ty), Ty.always_decodes_all ts = true →
    ∀ r : bytes_reader, ∃ xs r', detail.deserialize_tuple_impl ts r = some (xs, r')
  | [], _, r => ⟨_, _, rfl⟩
  | t :: ts, h, r => by
      simp only [Ty.always_decodes_all, Bool.and_eq_true] at h
      obtain ⟨x, r1, hx⟩ := read_returns t (deserialize_object_returns t h.1) r
      obtain ⟨xs, r2, hxs⟩ := deserialize_tuple_impl_returns ts h.2 r1
      simp only [detail.deserialize_tuple_impl, hx, hxs]
      exact ⟨_, _, rfl⟩
end

/-- A source with fewer unread bytes than one element of a trivially copyable type yields
default values only, and stays where it is. -/
theorem read_elements_of_short (T : Ty) (hT : T.is_trivially_copyable = true)
    (r : bytes_reader) (hr : r.remaining < T.sizeof) :
    ∀ (n : Nat) (acc : List Val),
      read_elements (fun r => r.read T (fun r => deserialize_object T r)) push_back n acc r
        = some (acc ++ List.replicate n (default_value T), r)
  | 0, acc => by simp [read_elements]
  | n + 1, acc => by
      have hx : r.read T (fun r => deserialize_object T r) = some (default_value T, r) := by
        simp [bytes_reader.read, hT, bytes_reader.read_value, r.read_raw_short _ hr]
      simp only [read_elements, hx, read_elements_of_short T hT r hr n, push_back,
        List.replicate_succ, List.append_assoc, List.singleton_append]

/-- The loop of the sequence decoder on a trivially copyable element type: the first `k`
elements are formed from consecutive groups of `sizeof` bytes at the cursor, the others
are default values, and when `k < n` fewer than `sizeof` bytes are left behind the `k`
groups. -/
theorem read_elements_trivially_copyable (T : Ty) (hT : T.is_trivially_copyable = true) :
    ∀ (n : Nat) (acc : List Val) (r : bytes_reader),
      ∃ k, k ≤ n ∧
        read_elements (fun r => r.read T (fun r => deserialize_object T r)) push_back n acc r
          = some (acc ++ ((List.range k).map (fun i => from_object_bytes T
                ((r.m_data.drop (r.m_pos + i * T.sizeof)).take T.sizeof))
              ++ List.replicate (n - k) (default_value T)),
              bytes_reader.mk r.m_data (r.m_pos + k * T.sizeof)) ∧
        (k < n → r.m_data.length - (r.m_pos + k * T.sizeof) < T.sizeof)
  | 0, acc, r => ⟨0, Nat.le_refl 0, by simp [read_elements], by simp⟩
  | n + 1, acc, r => by
      by_cases hr : r.remaining < T.sizeof
      · refine ⟨0, Nat.zero_le _, ?_, fun _ => by simpa [bytes_reader.remaining] using hr⟩
        rw [read_elements_of_short T hT r hr]
        simp
      · have hx : r.read T (fun r => deserialize_object T r)
            = some (from_object_bytes T ((r.m_data.drop r.m_pos).take T.sizeof),
                bytes_reader.mk r.m_data (r.m_pos + T.sizeof)) := by
          simp [bytes_reader.read, hT, bytes_reader.read_value, bytes_reader.read_raw,
            bytes_reader.can_read, Nat.not_lt.mp hr]
        obtain ⟨k, hk, hread, hrest⟩ := read_elements_trivially_copyable T hT n
          (push_back acc (from_object_bytes T ((r.m_data.drop r.m_pos).take T.sizeof)))
          (bytes_reader.mk r.m_data (r.m_pos + T.sizeof))
        refine ⟨k + 1, by omega, ?_, ?_⟩
        · have hf : (fun i => from_object_bytes T
                (List.take T.sizeof (List.drop (r.m_pos + T.sizeof + i * T.sizeof) r.m_data)))
              = ((fun i => from_object_bytes T
                (List.take T.sizeof (List.drop (r.m_pos + i * T.sizeof) r.m_data)))
                  ∘ Nat.succ) := by
            funext i
            simp only [Function.comp, Nat.succ_eq_add_one, Nat.add_mul, Nat.one_mul]
            rw [Nat.add_assoc, Nat.add_comm T.sizeof]
          have hp : r.m_pos + T.sizeof + k * T.sizeof = r.m_pos + (k + 1) * T.sizeof := by
            rw [Nat.add_mul, Nat.one_mul]; omega
          simp only [push_back, List.append_assoc, List.singleton_append] at hread
          simp only [read_elements, hx, push_back, List.range_succ_eq_map, List.map_cons,
            List.map_map, Nat.zero_mul, Nat.add_zero, List.cons_append,
            Nat.add_sub_add_right]
          rw [← hf, ← hp]
          exact hread
        · intro hlt
          have := hrest (by omega)
          have hp : r.m_pos + T.sizeof + k * T.sizeof = r.m_pos + (k + 1) * T.sizeof := by
            rw [Nat.add_mul, Nat.one_mul]; omega
          simpa [hp] using this

/-- A data header whose main type is not 0 was read from the source. -/
theorem bytes_reader.read_header_of_main_type (r : bytes_reader)
    (h : r.read_header.1.get_main_type ≠ 0) :
    r.read_header.2 = bytes_reader.mk r.m_data (r.m_pos + 5) := by
  by_cases hc : r.remaining < 5
  · rw [r.read_header_short hc] at h
    simp [data_header.get_main_type] at h
  · simp [bytes_reader.read_header, bytes_reader.read_raw, bytes_reader.can_read,
      data_header.size, Nat.not_lt.mp hc]

/-- C29, counterexample.  A vector of strings is decoded from a sequence header with length 2,
the string `"ab"` and a string with header length 3 of which the source holds one
character: the second element, which could not be read from the source, is the string of
the three characters `99, 0, 0` and not the default (empty) string.  A vector of variants
`<int32, std::string>` is decoded from a sequence header with length 1 and a variant with
index 2: the decoder of the element enters its table behind the last entry and no
container is returned. -/
theorem decoded_sequence_keeps_partial_elements :
    data_header.get_main_type { type := 0xBB, length := 2 } = d_seq_container ∧
    data_header.is_subtype_compitable { type := 0xBB, length := 2 }
      (get_data_type (.container .sequence (.scalar .byte8))) = true ∧
    deserialize_object (.container .sequence (.container .sequence (.scalar .byte8)))
        { m_data := [0xBB, 2, 0, 0, 0, 0x1B, 2, 0, 0, 0, 97, 98, 0x1B, 3, 0, 0, 0, 99],
          m_pos := 0 }
      = some (.list [.list [.scalar 97, .scalar 98], .list [.scalar 99, .scalar 0, .scalar 0]],
          { m_data := [0xBB, 2, 0, 0, 0, 0x1B, 2, 0, 0, 0, 97, 98, 0x1B, 3, 0, 0, 0, 99],
            m_pos := 18 }) ∧
    Val.list [.scalar 99, .scalar 0, .scalar 0]
      ≠ default_value (.container .sequence (.scalar .byte8)) ∧
    data_header.get_main_type { type := 0x9B, length := 1 } = d_seq_container ∧
    data_header.is_subtype_compitable { type := 0x9B, length := 1 }
      (get_data_type (.variant [.scalar .byte32, .container .sequence (.scalar .byte8)]))
      = true ∧
    (Ty.variant [.scalar .byte32, .container .sequence (.scalar .byte8)]).cxx_trivially_copyable
      = false ∧
    deserialize_object
        (.container .sequence (.variant [.scalar .byte32, .container .sequence (.scalar .byte8)]))
        { m_data := [0x9B, 1, 0, 0, 0, 0x39, 2, 0, 0, 0, 2, 0, 0, 0], m_pos := 0 }
      = none :=
  ⟨by decide, by decide, rfl, by simp [default_value], by decide, by decide, by decide, rfl⟩

/-- C29, amended: for every sequence container target whose element type the decoder can
fill and holds no variant, and every input, complete or truncated, whose data header has
main type `d_seq_container` and a compatible sub type, `deserialize_object` returns a
container with exactly `header.length` elements.  When the element type is trivially
copyable (a scalar or a POD record), the first `k` elements are formed from the consecutive
groups of `sizeof` bytes behind the header, the other `header.length - k` elements are
default values, and if `k < header.length` fewer than `sizeof` bytes are left behind the
`k` groups; the cursor ends behind the `k` groups. -/
theorem decoded_sequence_length (k : container_kind) (e : Ty) (r : bytes_reader)
    (hk : is_sequence_container k = true) (he : e.always_decodes = true)
    (hm : r.read_header.1.get_main_type = d_seq_container)
    (hc : r.read_header.1.is_subtype_compitable (get_data_type e) = true) :
    ∃ xs r', deserialize_object (.container k e) r = some (.list xs, r') ∧
      xs.length = r.read_header.1.length ∧
      (e.is_trivially_copyable = true →
        ∃ k, k ≤ r.read_header.1.length ∧
          xs = (List.range k).map (fun i => from_object_bytes e
                ((r.m_data.drop (r.m_pos + 5 + i * e.sizeof)).take e.sizeof))
              ++ List.replicate (r.read_header.1.length - k) (default_value e) ∧
          r' = bytes_reader.mk r.m_data (r.m_pos + 5 + k * e.sizeof) ∧
          (k < r.read_header.1.length →
            r.m_data.length - (r.m_pos + 5 + k * e.sizeof) < e.sizeof)) := by
  have hdes : deserialize_object (.container k e) r =
      match read_elements (fun r => r.read e (fun r => deserialize_object e r)) push_back
          r.read_header.1.length [] r.read_header.2 with
      | none => none
      | some (xs, reader) => some (.list xs, reader) := by
    cases k with
    | sequence =>
        simp only [deserialize_object, is_standard_container, if_true, hm, hc, and_self]
    | byte_vector =>
        simp only [deserialize_object, is_standard_container, if_true, hm, hc, and_self]
    | associated a => simp [is_sequence_container] at hk
    | fixed n => simp [is_sequence_container] at hk
    | forward_only => simp [is_sequence_container] at hk
  obtain ⟨ys, r1, hys⟩ := read_elements_returns _ push_back
    (read_returns e (deserialize_object_returns e he)) r.read_header.1.length []
    r.read_header.2
  have hlen := read_elements_length _ _ _ _ _ _ hys
  refine ⟨ys, r1, by rw [hdes, hys], by simpa using hlen, ?_⟩
  intro hT
  have h2 := r.read_header_of_main_type (by rw [hm]; decide)
  obtain ⟨k, hk, hread, hrest⟩ := read_elements_trivially_copyable e hT
    r.read_header.1.length [] r.read_header.2
  rw [hys, h2] at hread
  simp only [Option.some.injEq, Prod.mk.injEq, List.nil_append] at hread
  rw [h2] at hrest
  exact ⟨k, hk, hread.1, hread.2, hrest⟩

/-- C29, witness: the first 13 bytes of the encoding of the vector `{1, 2, 3, 4}`, which
hold the header and two elements, decode to the four elements `1, 2, 0, 0`. -/
theorem decoded_sequence_length_witness :
    is_sequence_container .sequence = true ∧
    (Ty.scalar .byte32).always_decodes = true ∧
    (bytes_reader.read_header
      { m_data := [59, 4, 0, 0, 0, 1, 0, 0, 0, 2, 0, 0, 0], m_pos := 0 }).1.get_main_type
        = d_seq_container ∧
    (bytes_reader.read_header
      { m_data := [59, 4, 0, 0, 0, 1, 0, 0, 0, 2, 0, 0, 0], m_pos := 0 }).1.is_subtype_compitable
        (get_data_type (.scalar .byte32)) = true ∧
    deserialize_object int_vector { m_data := [59, 4, 0, 0, 0, 1, 0, 0, 0, 2, 0, 0, 0], m_pos := 0 }
      = some (.list [.scalar 1, .scalar 2, .scalar 0, .scalar 0],
          { m_data := [59, 4, 0, 0, 0, 1, 0, 0, 0, 2, 0, 0, 0], m_pos := 13 }) ∧
    ∃ xs r', deserialize_object int_vector
        { m_data := [59, 4, 0, 0, 0, 1, 0, 0, 0, 2, 0, 0, 0], m_pos := 0 } = some (.list xs, r') ∧
      xs.length = 4 :=
  ⟨rfl, by decide, by decide, by decide, rfl,
    (decoded_sequence_length .sequence (.scalar .byte32)
      { m_data := [59, 4, 0, 0, 0, 1, 0, 0, 0, 2, 0, 0, 0], m_pos := 0 } rfl (by decide)
      (by decide) (by decide)).imp (fun _ hx => hx.imp (fun _ hr => ⟨hr.1, hr.2.1⟩))⟩

/-! ## The two nibbles of the type byte (C30) -/

set_option maxRecDepth 1000000 in
theorem nibble_checks :
    ∀ t < 256, ∀ c < 14,
      (((t &&& 0xf0) ||| (c % 256)) &&& 0x0f = c) ∧
      (((t &&& 0xf0) ||| (c % 256)) >>> 4 = t >>> 4) ∧
      ((((t &&& 0x0f) ||| ((c % 256) <<< 4)) % 256) >>> 4 = c) ∧
      ((((t &&& 0x0f) ||| ((c % 256) <<< 4)) % 256) &&& 0x0f = t &&& 0x0f) := by
  decide

/-- C30: for every data header (the type byte being a `uint8_t`) and all category codes `a`
and `b` in `0..13`: after `set_main_type(a)`, `get_main_type()` is `a` and
`get_sub_type()` is what it was; after `set_sub_type(b)`, `get_sub_type()` is `b` and
`get_main_type()` is what it was; neither setter changes the length field. -/
theorem tag_nibbles_independent (h : data_header) (a b : Nat) (ht : h.type < 256)
    (ha : a ≤ 13) (hb : b ≤ 13) :
    (h.set_main_type a).get_main_type = a ∧
    (h.set_main_type a).get_sub_type = h.get_sub_type ∧
    (h.set_main_type a).length = h.length ∧
    (h.set_sub_type b).get_sub_type = b ∧
    (h.set_sub_type b).get_main_type = h.get_main_type ∧
    (h.set_sub_type b).length = h.length := by
  have h1 := nibble_checks h.type ht a (by omega)
  have h2 := nibble_checks h.type ht b (by omega)
  exact ⟨h1.1, h1.2.1, rfl, h2.2.2.1, h2.2.2.2, rfl⟩

/-- C30, witness: the header with type byte `0x3B` (sub type 3, main type 11) and length 4;
setting the main type to 12 gives `0x3C`, setting the sub type to 8 gives `0x8B`. -/
theorem tag_nibbles_independent_witness :
    (data_header.mk 0x3B 4).type < 256 ∧ 12 ≤ 13 ∧ 8 ≤ 13 ∧
    (data_header.mk 0x3B 4).set_main_type 12 = data_header.mk 0x3C 4 ∧
    (data_header.mk 0x3B 4).set_sub_type 8 = data_header.mk 0x8B 4 ∧
    ((data_header.mk 0x3B 4).set_main_type 12).get_main_type = 12 ∧
    ((data_header.mk 0x3B 4).set_main_type 12).get_sub_type
      = (data_header.mk 0x3B 4).get_sub_type ∧
    ((data_header.mk 0x3B 4).set_main_type 12).length = (data_header.mk 0x3B 4).length ∧
    ((data_header.mk 0x3B 4).set_sub_type 8).get_sub_type = 8 ∧
    ((data_header.mk 0x3B 4).set_sub_type 8).get_main_type
      = (data_header.mk 0x3B 4).get_main_type ∧
    ((data_header.mk 0x3B 4).set_sub_type 8).length = (data_header.mk 0x3B 4).length :=
  ⟨by decide, by decide, by decide, by decide, by decide,
    tag_nibbles_independent (data_header.mk 0x3B 4) 12 8 (by decide) (by decide) (by decide)⟩

/-! ## Decoding consumes what encoding wrote (C31) -/

theorem written_eq_encoded_of_not_pod (T : Ty) (v : Val)
    (h : (T.is_trivially_copyable && T.is_compound) = false) (hb : T.is_byte_vector = false) :
    written T v = encoded T v := by
  cases hc : T.is_trivially_copyable with
  | false => exact written_of_not_trivially_copyable T v hc hb
  | true =>
      cases T with
      | scalar k => rw [written_of_trivially_copyable (.scalar k) v rfl, encoded_scalar]
      | pod n => simp [Ty.is_trivially_copyable, Ty.is_compound] at h
      | pair a b => simp [Ty.is_trivially_copyable] at hc
      | variant ts => simp [Ty.is_trivially_copyable] at hc
      | tuple ts => simp [Ty.is_trivially_copyable] at hc
      | container k e => simp [Ty.is_trivially_copyable] at hc

/-- Decoding consumes what encoding wrote on the types that keep clear of the overload of
the sink: for every value `a` of a type the decoder can fill that is not a POD record, not
a `std::vector<uint8_t>` nor a raw aggregate and holds none, with every container length
and POD size inside below `2 ^ 32`, and all byte strings `pre` and `rest`: `deserialize_object` on a source holding `pre`, the bytes written
by `writer << a` and `rest`, with the cursor behind `pre`, returns `a` and moves the cursor
by exactly the number of bytes written for `a`.  And for a second value `b` of a type the
decoder can fill, under the same conditions but possibly a POD record: the chain
`sink << a << b`
appends the bytes of `a` and then those of `b`, and `source >> a >> b` reads back `a`,
then `b`, and leaves the cursor behind the bytes of `b`. -/
theorem decoding_consumes_what_was_written (T U : Ty) (a b : Val) (pre rest : List Nat)
    (hTd : T.decodable = true) (hTt : has_type T a = true) (hTf : wire_fits T a = true)
    (hUd : U.decodable = true) (hUt : has_type U b = true) (hUf : wire_fits U b = true)
    (hshape : (T.is_trivially_copyable && T.is_compound) = false)
    (hTp : (T.plain_member && T.plain_nesting) = true)
    (hUp : (U.plain_member && U.plain_nesting) = true) :
    deserialize_object T (bytes_reader.mk (pre ++ (written T a ++ rest)) pre.length)
      = some (a, bytes_reader.mk (pre ++ (written T a ++ rest))
          (pre.length + (written T a).length)) ∧
    (((bytes_writer.mk pre).write T a (fun v w => serialize_object T v w)).write U b
        (fun v w => serialize_object U v w)).m_data
      = pre ++ (written T a ++ written U b) ∧
    (bytes_reader.mk (pre ++ (written T a ++ (written U b ++ rest))) pre.length).read T
        (fun r => deserialize_object T r)
      = some (a, bytes_reader.mk (pre ++ (written T a ++ (written U b ++ rest)))
          (pre.length + (written T a).length)) ∧
    (bytes_reader.mk (pre ++ (written T a ++ (written U b ++ rest)))
        (pre.length + (written T a).length)).read U (fun r => deserialize_object U r)
      = some (b, bytes_reader.mk (pre ++ (written T a ++ (written U b ++ rest)))
          (pre.length + (written T a).length + (written U b).length)) := by
  simp only [Bool.and_eq_true] at hTp hUp
  have hA := deserialize_serialize T a hTt hTf hTd hTp.2
  have hB := deserialize_serialize U b hUt hUf hUd hUp.2
  have hTb := is_byte_vector_of_plain_member T hTp.1
  have hUb := is_byte_vector_of_plain_member U hUp.1
  refine ⟨?_, ?_, ?_, ?_⟩
  · rw [written_eq_encoded_of_not_pod T a hshape hTb]
    exact hA (bytes_reader.mk (pre ++ (encoded T a ++ rest)) pre.length) rest (by simp)
  · rw [write_append, write_append, List.append_assoc]
  · exact reads_back_read T a hTt hTb hA
      (bytes_reader.mk (pre ++ (written T a ++ (written U b ++ rest))) pre.length)
      (written U b ++ rest) (by simp)
  · exact reads_back_read U b hUt hUb hB
      (bytes_reader.mk (pre ++ (written T a ++ (written U b ++ rest)))
        (pre.length + (written T a).length))
      rest (by
        show List.drop (pre.length + (written T a).length)
          (pre ++ (written T a ++ (written U b ++ rest))) = written U b ++ rest
        rw [← List.length_append, ← List.append_assoc, List.drop_left])

/-- The vector `{1, 2, 3, 4}` and the 32-bit integer 5, written behind the byte 9 and
followed by the byte 7, are read back one after the other. -/
theorem decoding_consumes_what_was_written_witness :
    int_vector.decodable = true ∧ has_type int_vector one_to_four = true ∧
    wire_fits int_vector one_to_four = true ∧
    (Ty.scalar .byte32).decodable = true ∧ has_type (.scalar .byte32) (.scalar 5) = true ∧
    wire_fits (.scalar .byte32) (.scalar 5) = true ∧
    (int_vector.is_trivially_copyable && int_vector.is_compound) = false ∧
    (int_vector.plain_member && int_vector.plain_nesting) = true ∧
    ((Ty.scalar .byte32).plain_member && (Ty.scalar .byte32).plain_nesting) = true ∧
    deserialize_object int_vector
        (bytes_reader.mk [9, 59, 4, 0, 0, 0, 1, 0, 0, 0, 2, 0, 0, 0, 3, 0, 0, 0, 4, 0, 0, 0, 7] 1)
      = some (one_to_four,
          bytes_reader.mk [9, 59, 4, 0, 0, 0, 1, 0, 0, 0, 2, 0, 0, 0, 3, 0, 0, 0, 4, 0, 0, 0, 7]
            22) ∧
    (((bytes_writer.mk [9]).write int_vector one_to_four
        (fun v w => serialize_object int_vector v w)).write (.scalar .byte32) (.scalar 5)
        (fun v w => serialize_object (.scalar .byte32) v w)).m_data
      = [9, 59, 4, 0, 0, 0, 1, 0, 0, 0, 2, 0, 0, 0, 3, 0, 0, 0, 4, 0, 0, 0, 5, 0, 0, 0] ∧
    (bytes_reader.mk
        [9, 59, 4, 0, 0, 0, 1, 0, 0, 0, 2, 0, 0, 0, 3, 0, 0, 0, 4, 0, 0, 0, 5, 0, 0, 0, 7]
        1).read int_vector (fun r => deserialize_object int_vector r)
      = some (one_to_four, bytes_reader.mk
          [9, 59, 4, 0, 0, 0, 1, 0, 0, 0, 2, 0, 0, 0, 3, 0, 0, 0, 4, 0, 0, 0, 5, 0, 0, 0, 7]
          22) ∧
    (bytes_reader.mk
        [9, 59, 4, 0, 0, 0, 1, 0, 0, 0, 2, 0, 0, 0, 3, 0, 0, 0, 4, 0, 0, 0, 5, 0, 0, 0, 7]
        22).read (.scalar .byte32) (fun r => deserialize_object (.scalar .byte32) r)
      = some (.scalar 5, bytes_reader.mk
          [9, 59, 4, 0, 0, 0, 1, 0, 0, 0, 2, 0, 0, 0, 3, 0, 0, 0, 4, 0, 0, 0, 5, 0, 0, 0, 7]
          26) :=
  ⟨by decide, by decide, by decide, by decide, by decide, by decide, by decide, by decide,
    by decide,
    decoding_consumes_what_was_written int_vector (.scalar .byte32) one_to_four (.scalar 5)
      [9] [7] (by decide) (by decide) (by decide) (by decide) (by decide) (by decide)
      (by decide) (by decide) (by decide)⟩

/-! ## The size pass on shapes without variants and POD records (C32) -/

theorem not_pod_of_sized_shape (T : Ty) (h : T.sized_shape = true) :
    (T.is_trivially_copyable && T.is_compound) = false := by
  cases T <;> simp_all [Ty.sized_shape, Ty.is_trivially_copyable, Ty.is_compound]

theorem foldl_get_object_size (e : Ty) : ∀ (xs : List Val) (size : Nat),
    (∀ x ∈ xs, ∀ size, get_object_size e x size = size + (written e x).length) →
    xs.foldl (fun size x => get_object_size e x size) size
      = size + (xs.flatMap (written e)).length
  | [], size, _ => rfl
  | x :: xs, size, h => by
      rw [List.foldl_cons, h x (by simp),
        foldl_get_object_size e xs _ (fun y hy => h y (by simp [hy])), List.flatMap_cons,
        List.length_append, Nat.add_assoc]

mutual
/-- On a shape built from scalars, pairs, tuples and sized containers, with no
`std::vector<uint8_t>` and no raw aggregate nested in it, the size pass adds to `size` the
number of bytes the encoder writes. -/
theorem get_object_size_eq : ∀ (T : Ty) (v : Val), T.sized_shape = true →
    T.plain_nesting = true →
    has_type T v = true → ∀ size : Nat, get_object_size T v size = size + (encoded T v).length
  | .scalar k, .scalar bits, _, _, ht, size => by
      rw [length_encoded_scalar k _ ht]
      simp only [get_object_size]
  | .pair a b, .pair x y, hs, hp, ht, size => by
      simp only [Ty.sized_shape, Ty.plain_nesting, has_type, Bool.and_eq_true] at hs hp ht
      rw [encoded_pair,
        written_eq_encoded_of_not_pod a x (not_pod_of_sized_shape a hs.1)
          (is_byte_vector_of_plain_member a hp.1.1),
        written_eq_encoded_of_not_pod b y (not_pod_of_sized_shape b hs.2)
          (is_byte_vector_of_plain_member b hp.2.1)]
      simp only [get_object_size, get_object_size_eq a x hs.1 hp.1.2 ht.1,
        get_object_size_eq b y hs.2 hp.2.2 ht.2, List.length_append, data_header.length_bytes,
        data_header.size]
      omega
  | .tuple ts, .tuple xs, hs, hp, ht, size => by
      simp only [Ty.sized_shape, Ty.plain_nesting, has_type, Bool.and_eq_true] at hs hp ht
      rw [encoded_tuple]
      simp only [get_object_size, get_tuple_size_impl_eq ts xs hs hp ht.2, List.length_append,
        data_header.length_bytes, data_header.size]
      omega
  | .container k e, .list xs, hs, hp, ht, size => by
      simp only [Ty.sized_shape, Ty.plain_nesting, has_type, Bool.and_eq_true,
        List.all_eq_true] at hs hp ht
      have hw : ∀ x, written e x = encoded e x :=
        fun x => written_eq_encoded_of_not_pod e x (not_pod_of_sized_shape e hs.2)
          (is_byte_vector_of_plain_member e hp.1)
      rw [encoded_container]
      simp only [get_object_size, List.length_append, data_header.length_bytes,
        data_header.size]
      split
      · rename_i hlt
        have hlen : ∀ x ∈ xs, (written e x).length = e.sizeof := by
          intro x hx
          cases e with
          | scalar kind =>
              rw [hw, length_encoded_scalar kind x (ht.1 x hx)]
              rfl
          | pod n => simp [Ty.sized_shape] at hs
          | pair a b => simp [get_data_type, d_pair, d_pod] at hlt
          | variant ts => simp [get_data_type, d_variant, d_pod] at hlt
          | tuple ts => simp [get_data_type, d_tuple, d_pod] at hlt
          | container k2 e2 =>
              cases k2 <;> simp [get_data_type, is_sequence_container,
                is_associated_container, d_seq_container, d_aso_container, d_custom, d_pod]
                at hlt
        rw [length_flatMap_of_length (written e) e.sizeof xs hlen]
        omega
      · rw [foldl_get_object_size e xs _ (fun x hx size => by
          rw [hw x]
          exact get_object_size_eq e x hs.2 hp.2 (ht.1 x hx) size)]
        omega
  | .pod _, _, hs, _, _, _ => by simp [Ty.sized_shape] at hs
  | .variant _, _, hs, _, _, _ => by simp [Ty.sized_shape] at hs
  | .scalar _, .pod _, _, _, ht, _ | .scalar _, .pair _ _, _, _, ht, _
  | .scalar _, .variant _ _, _, _, ht, _ | .scalar _, .tuple _, _, _, ht, _
  | .scalar _, .list _, _, _, ht, _ => by simp [has_type] at ht
  | .pair _ _, .scalar _, _, _, ht, _ | .pair _ _, .pod _, _, _, ht, _
  | .pair _ _, .variant _ _, _, _, ht, _ | .pair _ _, .tuple _, _, _, ht, _
  | .pair _ _, .list _, _, _, ht, _ => by simp [has_type] at ht
  | .tuple _, .scalar _, _, _, ht, _ | .tuple _, .pod _, _, _, ht, _
  | .tuple _, .pair _ _, _, _, ht, _ | .tuple _, .variant _ _, _, _, ht, _
  | .tuple _, .list _, _, _, ht, _ => by simp [has_type] at ht
  | .container _ _, .scalar _, _, _, ht, _ | .container _ _, .pod _, _, _, ht, _
  | .container _ _, .pair _ _, _, _, ht, _ | .container _ _, .variant _ _, _, _, ht, _
  | .container _ _, .tuple _, _, _, ht, _ => by simp [has_type] at ht
theorem get_tuple_size_impl_eq : ∀ (ts : List Ty) (xs : List Val),
    Ty.sized_shape_all ts = true → Ty.plain_nesting_all ts = true →
    has_type_all ts xs = true →
    detail.get_tuple_size_impl ts xs = (written_all ts xs).length
  | [], [], _, _, _ => by simp [detail.get_tuple_size_impl, written_all_nil]
  | t :: ts, x :: xs, hs, hp, ht => by
      simp only [Ty.sized_shape_all, Ty.plain_nesting_all, has_type_all, Bool.and_eq_true]
        at hs hp ht
      rw [written_all_cons, written_eq_encoded_of_not_pod t x (not_pod_of_sized_shape t hs.1)
        (is_byte_vector_of_plain_member t hp.1.1)]
      simp only [detail.get_tuple_size_impl, get_object_size_eq t x hs.1 hp.1.2 ht.1,
        get_tuple_size_impl_eq ts xs hs.2 hp.2 ht.2, List.length_append]
      omega
  | [], _ :: _, _, _, ht => by simp [has_type_all] at ht
  | _ :: _, [], _, _, ht => by simp [has_type_all] at ht
end

/-- The size pass is exact on the shapes that keep clear of the overload of the sink: for
every value `v` of a type built only from scalars, pairs, tuples and sized containers,
nested at will, with no `std::vector<uint8_t>` and no raw aggregate nested in it,
`get_size(v)` equals the number of bytes `serialize_object` writes for `v`; and a sequence
of `n` scalars of width `w` has size `5 + n * w`. -/
theorem get_size_exact (T : Ty) (v : Val) (hs : T.sized_shape = true)
    (hp : T.plain_nesting = true) (ht : has_type T v = true) :
    get_size T v = (encoded T v).length ∧
    (∀ (k : scalar_kind) (xs : List Val),
      get_size (.container .sequence (.scalar k)) (.list xs) = 5 + xs.length * k.size) := by
  refine ⟨?_, ?_⟩
  · rw [get_size, get_object_size_eq T v hs hp ht 0, Nat.zero_add]
  · intro k xs
    have hlt : get_data_type (.scalar k) < d_pod := by cases k <;> decide
    simp only [get_size, get_object_size, hlt, if_true, data_header.size, Ty.sizeof,
      Nat.zero_add, Nat.mul_comm k.size]

/-- The vector `{1, 2, 3, 4}` of 32-bit integers has size 21, the number of bytes written
for it. -/
theorem get_size_exact_witness :
    int_vector.sized_shape = true ∧ int_vector.plain_nesting = true ∧
    has_type int_vector one_to_four = true ∧
    get_size int_vector one_to_four = 21 ∧
    (encoded int_vector one_to_four).length = 21 ∧
    get_size int_vector one_to_four = (encoded int_vector one_to_four).length :=
  ⟨by decide, by decide, by decide, by decide, by decide,
    (get_size_exact int_vector one_to_four (by decide) (by decide) (by decide)).1⟩

/-! ## The cursor of a source stays inside the buffer (C33) -/

theorem bytes_reader.call_inside (r : bytes_reader) (c : source_call)
    (h : r.m_pos ≤ r.m_data.length) :
    (r.call c).m_data = r.m_data ∧ (r.call c).m_pos ≤ r.m_data.length := by
  cases c with
  | read size =>
      by_cases hc : r.remaining ≥ size
      · simp only [bytes_reader.call, bytes_reader.read_raw, bytes_reader.can_read, hc,
          decide_True, if_true, true_and]
        simp only [bytes_reader.remaining] at hc
        omega
      · simp [bytes_reader.call, bytes_reader.read_raw, bytes_reader.can_read, hc, h]
  | skip count =>
      by_cases hc : r.remaining ≥ count
      · simp only [bytes_reader.call, bytes_reader.skip, hc, if_true, true_and]
        simp only [bytes_reader.remaining] at hc
        omega
      · simp [bytes_reader.call, bytes_reader.skip, hc, h]
  | seek pos =>
      by_cases hc : pos < r.m_data.length - r.count
      · simp only [bytes_reader.call, bytes_reader.seek, hc, if_true, true_and]
        omega
      · simp [bytes_reader.call, bytes_reader.seek, hc, h]

theorem bytes_reader.run_inside : ∀ (calls : List source_call) (r : bytes_reader),
    r.m_pos ≤ r.m_data.length →
    (r.run calls).m_data = r.m_data ∧ (r.run calls).m_pos ≤ r.m_data.length
  | [], _, h => ⟨rfl, h⟩
  | c :: calls, r, h => by
      obtain ⟨h1, h2⟩ := r.call_inside c h
      obtain ⟨h3, h4⟩ := bytes_reader.run_inside calls (r.call c) (by rw [h1]; exact h2)
      rw [h1] at h3 h4
      exact ⟨h3, h4⟩

theorem size_difference_of_le (a b : Nat) (h : b ≤ a) : size_difference a b = a - b := by
  simp [size_difference, h]

theorem bytes_reader_bounded.call_within (r : bytes_reader_bounded) (c : source_call)
    (h : r.m_pos ≤ r.m_length) :
    (r.call c).m_data = r.m_data ∧ (r.call c).m_length = r.m_length ∧
      (r.call c).m_pos ≤ r.m_length := by
  have hrem : r.remaining = r.m_length - r.m_pos := size_difference_of_le _ _ h
  have hsd : size_difference r.m_length r.count = r.m_length - r.m_pos :=
    size_difference_of_le _ _ h
  cases c with
  | read size =>
      by_cases hc : r.remaining ≥ size
      · simp only [bytes_reader_bounded.call, bytes_reader_bounded.read_raw,
          bytes_reader_bounded.can_read, hc, decide_True, if_true, true_and]
        rw [hrem] at hc
        omega
      · simp [bytes_reader_bounded.call, bytes_reader_bounded.read_raw,
          bytes_reader_bounded.can_read, hc, h]
  | skip count =>
      by_cases hc : r.remaining ≥ count
      · simp only [bytes_reader_bounded.call, bytes_reader_bounded.skip, hc, if_true, true_and]
        rw [hrem] at hc
        omega
      · simp [bytes_reader_bounded.call, bytes_reader_bounded.skip, hc, h]
  | seek pos =>
      by_cases hc : pos < size_difference r.m_length r.count
      · simp only [bytes_reader_bounded.call, bytes_reader_bounded.seek, hc, if_true, true_and]
        rw [hsd] at hc
        omega
      · simp [bytes_reader_bounded.call, bytes_reader_bounded.seek, hc, h]

theorem bytes_reader_bounded.run_within :
    ∀ (calls : List source_call) (r : bytes_reader_bounded), r.m_pos ≤ r.m_length →
    (r.run calls).m_data = r.m_data ∧ (r.run calls).m_length = r.m_length ∧
      (r.run calls).m_pos ≤ r.m_length
  | [], _, h => ⟨rfl, rfl, h⟩
  | c :: calls, r, h => by
      obtain ⟨h1, h2, h3⟩ := r.call_within c h
      obtain ⟨h4, h5, h6⟩ := bytes_reader_bounded.run_within calls (r.call c)
        (by rw [h2]; exact h3)
      rw [h1] at h4
      rw [h2] at h5 h6
      exact ⟨h4, h5, h6⟩

/-- C33: for the unbounded source over a buffer `data` and the bounded source over the first
`n` bytes behind a pointer, both starting at cursor 0, after every finite sequence of calls
of `read<T>` (for trivially copyable `T`), `skip` and `seek`: the buffer is the same,
`count()` is at most the size of the buffer, `count() + remaining()` is the size of the
buffer, and the `sizeof(T)` bytes that a `read<T>` takes in the state reached, when it
passes the test `can_read<T>()`, end at or before the end of the buffer. -/
theorem cursor_invariant (data : List Nat) (n : Nat) (calls : List source_call) :
    ((bytes_reader.mk data 0).run calls).m_data = data ∧
    ((bytes_reader.mk data 0).run calls).count ≤ data.length ∧
    ((bytes_reader.mk data 0).run calls).count + ((bytes_reader.mk data 0).run calls).remaining
      = data.length ∧
    (∀ size, ((bytes_reader.mk data 0).run calls).m_pos
      + (if ((bytes_reader.mk data 0).run calls).can_read size = true then size else 0)
        ≤ data.length) ∧
    ((bytes_reader_bounded.mk data n 0).run calls).m_data = data ∧
    ((bytes_reader_bounded.mk data n 0).run calls).m_length = n ∧
    ((bytes_reader_bounded.mk data n 0).run calls).count ≤ n ∧
    ((bytes_reader_bounded.mk data n 0).run calls).count
      + ((bytes_reader_bounded.mk data n 0).run calls).remaining = n ∧
    (∀ size, ((bytes_reader_bounded.mk data n 0).run calls).m_pos
      + (if ((bytes_reader_bounded.mk data n 0).run calls).can_read size = true then size else 0)
        ≤ n) := by
  obtain ⟨h1, h2⟩ := bytes_reader.run_inside calls (bytes_reader.mk data 0) (Nat.zero_le _)
  obtain ⟨h3, h4, h5⟩ := bytes_reader_bounded.run_within calls
    (bytes_reader_bounded.mk data n 0) (Nat.zero_le _)
  simp only at h1 h2 h3 h4 h5
  refine ⟨h1, h2, ?_, ?_, h3, h4, h5, ?_, ?_⟩
  · simp only [bytes_reader.count, bytes_reader.remaining, h1]
    omega
  · intro size
    simp only [bytes_reader.can_read, bytes_reader.remaining, h1, decide_eq_true_eq]
    split <;> omega
  · simp only [bytes_reader_bounded.count, bytes_reader_bounded.remaining, h4,
      size_difference_of_le _ _ h5]
    omega
  · intro size
    simp only [bytes_reader_bounded.can_read, bytes_reader_bounded.remaining, h4,
      size_difference_of_le _ _ h5, decide_eq_true_eq]
    split <;> omega

/-! ## A `std::vector<uint8_t>` nested in another value (C1, C2, C4, C5, C15, C31, C32)

`operator<<` of the unbounded sink calls `write(val)`, and for a `std::vector<uint8_t>`
overload resolution picks the non-template `write(const std::vector<uint8_t>&)`, which
copies the elements and writes no data header.  The decoder reads a nested vector with
`deserialize_object`, which starts with a data header. -/

/-- C1, the code at a failing input: the pair of the `std::vector<uint8_t>` `{1, 2, 3}` and
the byte 9 is a value built from scalars, a pair and a sequence container of scalars.
`serialize_object` writes the nine bytes `08 02 00 00 00 01 02 03 09` for it: the vector,
a member of the pair, goes through `writer << object.first` to the overload of the sink
and is written as its three elements, without the data header `1B 03 00 00 00` that
`serialize_object` writes for the vector on its own.  `deserialize_object` at the type of
the pair finds four bytes behind the header of the pair where it expects the data header
of the vector, returns the pair of the empty vector and the byte 1 and leaves the cursor
at 6: the value is not read back. -/
theorem pair_with_byte_vector_is_not_read_back :
    (Ty.pair byte_vector (.scalar .byte8)).sequence_shape = true ∧
    has_type (.pair byte_vector (.scalar .byte8))
      (.pair (.list [.scalar 1, .scalar 2, .scalar 3]) (.scalar 9)) = true ∧
    encoded (.pair byte_vector (.scalar .byte8))
        (.pair (.list [.scalar 1, .scalar 2, .scalar 3]) (.scalar 9))
      = [8, 2, 0, 0, 0, 1, 2, 3, 9] ∧
    encoded byte_vector (.list [.scalar 1, .scalar 2, .scalar 3])
      = [0x1B, 3, 0, 0, 0, 1, 2, 3] ∧
    deserialize_object (.pair byte_vector (.scalar .byte8))
        { m_data := [8, 2, 0, 0, 0, 1, 2, 3, 9], m_pos := 0 }
      = some (.pair (.list []) (.scalar 1),
          { m_data := [8, 2, 0, 0, 0, 1, 2, 3, 9], m_pos := 6 }) ∧
    Val.pair (.list []) (.scalar 1)
      ≠ .pair (.list [.scalar 1, .scalar 2, .scalar 3]) (.scalar 9) :=
  ⟨by decide, by decide, by decide, by decide, rfl, by simp⟩

/-- C2, the code at a failing input: the tuple of the `std::vector<uint8_t>` `{1, 2, 3}`
and the 32-bit integer 7.  With the default checksum and with `crc32_checksum`,
`serialize` returns an envelope of 22 bytes whose payload is the header of the tuple, the
three elements of the vector without a data header, and the four bytes of the integer;
`deserialize` at the type of the tuple with the same checksum accepts the envelope and
returns the tuple of the empty vector and 0: it takes `01 02 03 07 00` for the data header
of the vector, whose main type is not that of a sequence, and then has two bytes left for
the integer. -/
theorem envelope_with_byte_vector_is_not_read_back :
    has_type (.tuple [byte_vector, .scalar .byte32])
      (.tuple [.list [.scalar 1, .scalar 2, .scalar 3], .scalar 7]) = true ∧
    serialize (.tuple [byte_vector, .scalar .byte32])
        (.tuple [.list [.scalar 1, .scalar 2, .scalar 3], .scalar 7]) empty_checksum
      = some [1, 0, 0, 0, 0, 0, 12, 0, 0, 0, 10, 2, 0, 0, 0, 1, 2, 3, 7, 0, 0, 0] ∧
    deserialize (.tuple [byte_vector, .scalar .byte32])
        [1, 0, 0, 0, 0, 0, 12, 0, 0, 0, 10, 2, 0, 0, 0, 1, 2, 3, 7, 0, 0, 0] empty_checksum
      = some (.tuple [.list [], .scalar 0]) ∧
    serialize (.tuple [byte_vector, .scalar .byte32])
        (.tuple [.list [.scalar 1, .scalar 2, .scalar 3], .scalar 7]) crc32_checksum
      = some [1, 0, 25, 127, 70, 248, 12, 0, 0, 0, 10, 2, 0, 0, 0, 1, 2, 3, 7, 0, 0, 0] ∧
    deserialize (.tuple [byte_vector, .scalar .byte32])
        [1, 0, 25, 127, 70, 248, 12, 0, 0, 0, 10, 2, 0, 0, 0, 1, 2, 3, 7, 0, 0, 0]
        crc32_checksum
      = some (.tuple [.list [], .scalar 0]) ∧
    Val.tuple [.list [], .scalar 0]
      ≠ .tuple [.list [.scalar 1, .scalar 2, .scalar 3], .scalar 7] :=
  ⟨by decide, by decide, rfl, by decide, rfl, by simp⟩

/-- C4, the code at a failing input: the variant `<int32, char, std::vector<uint8_t>>`
holding the vector `{104, 105}` at index 2.  `serialize_object` writes the eleven bytes
`B9 03 00 00 00`, `02 00 00 00`, `68 69`: the payload goes through `writer << val` to the
overload of the sink and has no data header.  `deserialize_object` returns a variant with
index 2 whose payload is the empty vector: two bytes are left where it expects the data
header of the vector. -/
theorem variant_holding_byte_vector_loses_payload :
    has_type (.variant [.scalar .byte32, .scalar .byte8, byte_vector])
      (.variant 2 (.list [.scalar 104, .scalar 105])) = true ∧
    encoded (.variant [.scalar .byte32, .scalar .byte8, byte_vector])
        (.variant 2 (.list [.scalar 104, .scalar 105]))
      = [0xB9, 3, 0, 0, 0, 2, 0, 0, 0, 104, 105] ∧
    deserialize_object (.variant [.scalar .byte32, .scalar .byte8, byte_vector])
        { m_data := [0xB9, 3, 0, 0, 0, 2, 0, 0, 0, 104, 105], m_pos := 0 }
      = some (.variant 2 (.list []),
          { m_data := [0xB9, 3, 0, 0, 0, 2, 0, 0, 0, 104, 105], m_pos := 9 }) ∧
    Val.variant 2 (.list []) ≠ .variant 2 (.list [.scalar 104, .scalar 105]) :=
  ⟨by decide, by decide, rfl, by simp⟩

/-- C5, the code at a failing input: the element type `std::vector<uint8_t>` and the
sequence holding the one element `{1, 2}`.  Encoded from a linked list (or a deque) and
from a fixed array of one element alike, the bytes are `BB 01 00 00 00 01 02`: the element
goes through `writer << v` to the overload of the sink and has no data header.  Decoding
the seven bytes into a growable array of `std::vector<uint8_t>` yields one empty vector,
not the element `{1, 2}`. -/
theorem byte_vector_elements_are_not_interchanged :
    has_type (.container .sequence byte_vector) (.list [.list [.scalar 1, .scalar 2]]) = true ∧
    has_type (.container (.fixed 1) byte_vector) (.list [.list [.scalar 1, .scalar 2]]) = true ∧
    encoded (.container .sequence byte_vector) (.list [.list [.scalar 1, .scalar 2]])
      = [0xBB, 1, 0, 0, 0, 1, 2] ∧
    encoded (.container (.fixed 1) byte_vector) (.list [.list [.scalar 1, .scalar 2]])
      = [0xBB, 1, 0, 0, 0, 1, 2] ∧
    deserialize_object (.container .sequence byte_vector)
        { m_data := [0xBB, 1, 0, 0, 0, 1, 2], m_pos := 0 }
      = some (.list [.list []], { m_data := [0xBB, 1, 0, 0, 0, 1, 2], m_pos := 5 }) ∧
    Val.list [.list []] ≠ .list [.list [.scalar 1, .scalar 2]] :=
  ⟨by decide, by decide, by decide, by decide, rfl, by simp⟩

/-- C15, the code at a failing input: the map from `uint32_t` to `std::vector<uint8_t>`
with the one entry `1 -> {7, 8}`.  `serialize` with the default checksum returns an
envelope of 26 bytes whose payload ends with the key `01 00 00 00` and the two elements
`07 08` of the value, written through the overload of the sink without a data header;
`deserialize` at the type of the map returns the map with the one entry `1 -> {}`. -/
theorem map_with_byte_vector_values_is_not_read_back :
    has_type (.container (.associated .map) (.pair (.scalar .byte32) byte_vector))
      (.list [.pair (.scalar 1) (.list [.scalar 7, .scalar 8])]) = true ∧
    serialize (.container (.associated .map) (.pair (.scalar .byte32) byte_vector))
        (.list [.pair (.scalar 1) (.list [.scalar 7, .scalar 8])]) empty_checksum
      = some [1, 0, 0, 0, 0, 0, 16, 0, 0, 0, 0x8C, 1, 0, 0, 0, 8, 2, 0, 0, 0, 1, 0, 0, 0,
          7, 8] ∧
    deserialize (.container (.associated .map) (.pair (.scalar .byte32) byte_vector))
        [1, 0, 0, 0, 0, 0, 16, 0, 0, 0, 0x8C, 1, 0, 0, 0, 8, 2, 0, 0, 0, 1, 0, 0, 0, 7, 8]
        empty_checksum
      = some (.list [.pair (.scalar 1) (.list [])]) ∧
    Val.list [.pair (.scalar 1) (.list [])]
      ≠ .list [.pair (.scalar 1) (.list [.scalar 7, .scalar 8])] :=
  ⟨by decide, by decide, rfl, by simp⟩

/-- C31, the code at a failing input: the `std::vector<uint8_t>` `a = {1, 2, 3}` and the
32-bit integer `b = 5`.  `writer << a` appends the three bytes `01 02 03` (the overload of
the sink), and `deserialize_object` on a source holding these three bytes returns the
empty vector and leaves the cursor at 0, not at 3.  The chain `sink << a << b` writes the
seven bytes `01 02 03 05 00 00 00`; `source >> a` takes the first five for a data header,
returns the empty vector and leaves the cursor at 5, and `source >> b` then returns 0 and
leaves the cursor at 5: neither value is read back and the cursor does not end at 7. -/
theorem byte_vector_written_by_the_sink_is_not_read_back :
    has_type byte_vector (.list [.scalar 1, .scalar 2, .scalar 3]) = true ∧
    written byte_vector (.list [.scalar 1, .scalar 2, .scalar 3]) = [1, 2, 3] ∧
    deserialize_object byte_vector { m_data := [1, 2, 3], m_pos := 0 }
      = some (.list [], { m_data := [1, 2, 3], m_pos := 0 }) ∧
    (((bytes_writer.mk []).write byte_vector (.list [.scalar 1, .scalar 2, .scalar 3])
        (fun v w => serialize_object byte_vector v w)).write (.scalar .byte32) (.scalar 5)
        (fun v w => serialize_object (.scalar .byte32) v w)).m_data
      = [1, 2, 3, 5, 0, 0, 0] ∧
    (bytes_reader.mk [1, 2, 3, 5, 0, 0, 0] 0).read byte_vector
        (fun r => deserialize_object byte_vector r)
      = some (.list [], bytes_reader.mk [1, 2, 3, 5, 0, 0, 0] 5) ∧
    (bytes_reader.mk [1, 2, 3, 5, 0, 0, 0] 5).read (.scalar .byte32)
        (fun r => deserialize_object (.scalar .byte32) r)
      = some (.scalar 0, bytes_reader.mk [1, 2, 3, 5, 0, 0, 0] 5) ∧
    Val.list [] ≠ .list [.scalar 1, .scalar 2, .scalar 3] :=
  ⟨by decide, by decide, rfl, by decide, rfl, rfl, by simp⟩

/-- C32, the code at a failing input: the tuple holding the one `std::vector<uint8_t>`
`{1, 2, 3}` is built from a tuple, a sized container and scalars.  `get_size` returns 13:
five bytes for the header of the tuple, five for a data header of the vector and three
for its elements.  `serialize_object` writes the eight bytes `0A 01 00 00 00 01 02 03`:
the vector goes through `writer << get<0>(tuple)` to the overload of the sink and gets no
data header. -/
theorem get_size_counts_header_of_byte_vector :
    (Ty.tuple [byte_vector]).sized_shape = true ∧
    has_type (.tuple [byte_vector]) (.tuple [.list [.scalar 1, .scalar 2, .scalar 3]])
      = true ∧
    get_size (.tuple [byte_vector]) (.tuple [.list [.scalar 1, .scalar 2, .scalar 3]]) = 13 ∧
    encoded (.tuple [byte_vector]) (.tuple [.list [.scalar 1, .scalar 2, .scalar 3]])
      = [10, 1, 0, 0, 0, 1, 2, 3] ∧
    get_size (.tuple [byte_vector]) (.tuple [.list [.scalar 1, .scalar 2, .scalar 3]])
      ≠ (encoded (.tuple [byte_vector])
          (.tuple [.list [.scalar 1, .scalar 2, .scalar 3]])).length :=
  ⟨by decide, by decide, by decide, by decide, by decide⟩

end zpacker
